import Mathlib

/-!
The gh-dash provider layer: remote URL parser, provider factory and manager, the two
providers, the compatibility wrappers and the command handlers.

A shallow embedding of `providers/detection.go`, `providers/provider.go`,
`providers/manager.go`, `providers/azuredevops.go`, `providers/github.go`,
`data/provider_integration.go` and the handlers `checkout`, `diff` and `watchChecks` of
`ui/components/prssection`, followed by theorems about it.

Go strings are modelled as Lean `String`s (sequences of Unicode code points; the
inputs considered are valid UTF-8).  The regular expressions of `detection.go` are
written in a small abstract syntax and given the leftmost-first (backtracking
priority) semantics of Go's `regexp` package: `run` lists every way a pattern can
match at a position, in the order a backtracking search tries them, and
`FindStringSubmatch` takes the first one at the leftmost position that has any.
-/

namespace GhDash

/-! ## Regular expressions (the fragment used by `detection.go`) -/

/-- A single-character class: `[^c]` or `.` (any character but a newline; no `s` flag is set). -/
inductive CharClass where
  | notChar (c : Char)
  | dot
  deriving DecidableEq, Repr

/-- Whether a character belongs to a class. -/
def CharClass.test : CharClass → Char → Bool
  | .notChar c, x => x != c
  | .dot, x => x != '\n'

/-- Regular expression syntax.  `plus` is the greedy `x+` and `plusLazy` the lazy `x+?`;
their operand is a single-character class in every pattern of `detection.go`.
`opt` is the greedy `(?:r)?`, `group i` the capturing group number `i`, `eot` the
anchor `$` (no `m` flag: end of text only). -/
inductive Regex where
  | lit (s : List Char)
  | plus (cls : CharClass)
  | plusLazy (cls : CharClass)
  | opt (r : Regex)
  | group (i : Nat) (r : Regex)
  | seq (a b : Regex)
  | eot
  deriving Repr

/-- Concatenation of a sequence of sub-expressions. -/
def Regex.concat : List Regex → Regex
  | [] => .lit []
  | [r] => r
  | r :: rs => .seq r (Regex.concat rs)

/-- Number of capturing groups of a pattern. -/
def Regex.numSubexp : Regex → Nat
  | .lit _ => 0
  | .plus _ => 0
  | .plusLazy _ => 0
  | .opt r => r.numSubexp
  | .group _ r => r.numSubexp + 1
  | .seq a b => a.numSubexp + b.numSubexp
  | .eot => 0

/-- A matcher state: the text still to be read and the captures made so far. -/
abbrev MState := List Char × List (List Char)

/-- The remainders after `x+`, greedy: longest repetition first. -/
def greedyRests (p : Char → Bool) : List Char → List (List Char)
  | [] => []
  | x :: s => if p x then greedyRests p s ++ [s] else []

/-- The remainders after `x+?`, lazy: shortest repetition first. -/
def lazyRests (p : Char → Bool) : List Char → List (List Char)
  | [] => []
  | x :: s => if p x then s :: lazyRests p s else []

/-- All the ways `r` matches a prefix of the text of a state, in backtracking priority order. -/
def Regex.run : Regex → MState → List MState
  | .lit l, (s, c) => if l.isPrefixOf s then [(s.drop l.length, c)] else []
  | .plus cls, (s, c) => (greedyRests cls.test s).map fun s' => (s', c)
  | .plusLazy cls, (s, c) => (lazyRests cls.test s).map fun s' => (s', c)
  | .opt r, st => r.run st ++ [st]
  | .group i r, (s, c) =>
      (r.run (s, c)).map fun st => (st.1, st.2.set i (s.take (s.length - st.1.length)))
  | .seq a b, st => (a.run st).flatMap b.run
  | .eot, (s, c) => if s.isEmpty then [(s, c)] else []

/-- The match of `re` that starts exactly at the beginning of `s`, if any:
element 0 is the whole match, element `i` the text of group `i`. -/
def matchAt (re : Regex) (s : List Char) : Option (List (List Char)) :=
  match re.run (s, List.replicate (re.numSubexp + 1) []) with
  | [] => none
  | st :: _ => some (st.2.set 0 (s.take (s.length - st.1.length)))

/-- Go's `(*Regexp).FindStringSubmatch`: the leftmost match, `none` for Go's `nil`. -/
def FindStringSubmatch (re : Regex) : List Char → Option (List (List Char))
  | [] => matchAt re []
  | x :: s =>
    match matchAt re (x :: s) with
    | some m => some m
    | none => FindStringSubmatch re s

/-! ## `strings` helpers -/

/-- Go's `unicode.IsSpace`: tab, newline, vertical tab, form feed, carriage return, space,
U+0085, U+00A0, and the other code points with the Unicode White_Space property. -/
def isSpace (c : Char) : Bool :=
  let n := c.toNat
  n == 0x09 || n == 0x0a || n == 0x0b || n == 0x0c || n == 0x0d || n == 0x20 ||
  n == 0x85 || n == 0xa0 || n == 0x1680 || (0x2000 ≤ n && n ≤ 0x200a) ||
  n == 0x2028 || n == 0x2029 || n == 0x202f || n == 0x205f || n == 0x3000

/-- Go's `strings.TrimSpace`, on the code points of a string. -/
def TrimSpace (s : List Char) : List Char :=
  ((s.dropWhile isSpace).reverse.dropWhile isSpace).reverse

/-- Go's `strings.HasPrefix`. -/
def HasPrefix (s pre : List Char) : Bool := pre.isPrefixOf s

/-- Go's `strings.Contains`. -/
def Contains : List Char → List Char → Bool
  | [], sub => sub.isEmpty
  | x :: s, sub => sub.isPrefixOf (x :: s) || Contains s sub

/-- Go's `strings.TrimPrefix`. -/
def TrimPrefix (s pre : String) : String :=
  if HasPrefix s.data pre.data then ⟨s.data.drop pre.data.length⟩ else s

/-- A Go `error` value: created with a message (`fmt.Errorf` without `%w`, or an error
of a library), or wrapping another error (`fmt.Errorf` with `%w`; `msg` is the text
before the wrapped error's own message). -/
inductive GoError where
  | new (msg : String)
  | wrap (msg : String) (cause : GoError)
  deriving DecidableEq, Repr

/-- The method `Error()`: the full message. -/
def GoError.Error : GoError → String
  | .new msg => msg
  | .wrap msg cause => msg ++ cause.Error

/-- Go's `time.Time`, as an abstract instant. -/
abbrev Time := Int

/-! ## `providers/provider.go`: provider types and configuration -/

/-- The Go type `ProviderType`, a string. -/
abbrev ProviderType := String

/-- The constant `GitHub`. -/
def GitHub : ProviderType := "github"

/-- The constant `AzureDevOps`. -/
def AzureDevOps : ProviderType := "azure-devops"

/-- The struct `ProviderConfig`. -/
structure ProviderConfig where
  Type_ : ProviderType
  Organization : String
  Project : String
  BaseURL : String
  Token : String
  deriving DecidableEq, Repr

/-! ## `providers/detection.go` -/

/-- The struct `RemoteInfo`. -/
structure RemoteInfo where
  Provider : ProviderType
  Organization : String
  Project : String
  Repository : String
  BaseURL : String
  deriving DecidableEq, Repr

/-- The common tail `(.+?)(?:\.git)?/?$` of the four HTTPS patterns, with the
repository as group `i`. -/
def repoTail (i : Nat) : Regex :=
  .concat [.group i (.plusLazy .dot), .opt (.lit ".git".data), .opt (.lit "/".data), .eot]

/-- What may follow the repository in the four HTTPS patterns: nothing, `.git`, `/`
or `.git/`. -/
def repoSuffixes : List (List Char) := [[], ".git".data, "/".data, ".git/".data]

/-- The part `(?:\.git)?/?$` of the tail. -/
def suffixTail : Regex :=
  .seq (.opt (.lit ".git".data)) (.seq (.opt (.lit "/".data)) .eot)

/-- The pattern `https://dev\.azure\.com/([^/]+)/([^/]+)/_git/(.+?)(?:\.git)?/?$`. -/
def reDevAzure : Regex :=
  .seq (.concat [.lit "https://dev.azure.com/".data, .group 1 (.plus (.notChar '/')),
      .lit "/".data, .group 2 (.plus (.notChar '/')), .lit "/_git/".data])
    (repoTail 3)

/-- The pattern `https://([^.]+)\.visualstudio\.com/([^/]+)/_git/(.+?)(?:\.git)?/?$`. -/
def reVisualStudio : Regex :=
  .seq (.concat [.lit "https://".data, .group 1 (.plus (.notChar '.')),
      .lit ".visualstudio.com/".data, .group 2 (.plus (.notChar '/')), .lit "/_git/".data])
    (repoTail 3)

/-- The pattern `https://([^/]+)/tfs/([^/]+)/([^/]+)/_git/(.+?)(?:\.git)?/?$`. -/
def reTfs : Regex :=
  .seq (.concat [.lit "https://".data, .group 1 (.plus (.notChar '/')), .lit "/tfs/".data,
      .group 2 (.plus (.notChar '/')), .lit "/".data, .group 3 (.plus (.notChar '/')),
      .lit "/_git/".data])
    (repoTail 4)

/-- The pattern `https://github\.com/([^/]+)/(.+?)(?:\.git)?/?$`. -/
def reGitHub : Regex :=
  .seq (.concat [.lit "https://github.com/".data, .group 1 (.plus (.notChar '/')),
      .lit "/".data])
    (repoTail 2)

/-- The pattern `git@github\.com:([^/]+)/(.+)\.git`. -/
def reSSHGitHub : Regex :=
  .concat [.lit "git@github.com:".data, .group 1 (.plus (.notChar '/')), .lit "/".data,
    .group 2 (.plus .dot), .lit ".git".data]

/-- The pattern `git@ssh\.dev\.azure\.com:v3/([^/]+)/([^/]+)/(.+)`. -/
def reSSHAzure : Regex :=
  .concat [.lit "git@ssh.dev.azure.com:v3/".data, .group 1 (.plus (.notChar '/')),
    .lit "/".data, .group 2 (.plus (.notChar '/')), .lit "/".data, .group 3 (.plus .dot)]

/-- The function `convertSSHToHTTPS`. -/
def convertSSHToHTTPS (sshURL : List Char) : List Char :=
  let github :=
    if Contains sshURL "github.com".data then
      match FindStringSubmatch reSSHGitHub sshURL with
      | some [_, m1, m2] => some ("https://github.com/".data ++ m1 ++ "/".data ++ m2 ++ ".git".data)
      | _ => none
    else none
  match github with
  | some r => r
  | none =>
    let azure :=
      if Contains sshURL "dev.azure.com".data || Contains sshURL "ssh.dev.azure.com".data then
        match FindStringSubmatch reSSHAzure sshURL with
        | some [_, m1, m2, m3] =>
          some ("https://dev.azure.com/".data ++ m1 ++ "/".data ++ m2 ++ "/_git/".data ++ m3)
        | _ => none
      else none
    match azure with
    | some r => r
    | none => sshURL

/-- The function `parseAzureDevOpsURL`; `none` is Go's `nil`.  The loop over the
three patterns is unrolled. -/
def parseAzureDevOpsURL (url : List Char) : Option RemoteInfo :=
  match FindStringSubmatch reDevAzure url with
  | some [_, m1, m2, m3] =>
    some { Provider := AzureDevOps, Organization := ⟨m1⟩, Project := ⟨m2⟩, Repository := ⟨m3⟩,
           BaseURL := "https://dev.azure.com" }
  | _ =>
    match FindStringSubmatch reVisualStudio url with
    | some [_, m1, m2, m3] =>
      some { Provider := AzureDevOps, Organization := ⟨m1⟩, Project := ⟨m2⟩, Repository := ⟨m3⟩,
             BaseURL := "https://" ++ ⟨m1⟩ ++ ".visualstudio.com" }
    | _ =>
      match FindStringSubmatch reTfs url with
      | some [_, m1, m2, m3, m4] =>
        some { Provider := AzureDevOps, Organization := ⟨m2⟩, Project := ⟨m3⟩,
               Repository := ⟨m4⟩, BaseURL := "https://" ++ ⟨m1⟩ }
      | _ => none

/-- The sentinel returned by `parseGitHubURL` when its pattern does not match. -/
def unknownRemote : RemoteInfo :=
  { Provider := GitHub, Organization := "unknown", Project := "", Repository := "unknown",
    BaseURL := "https://github.com" }

/-- The function `parseGitHubURL`; its result is never `nil`. -/
def parseGitHubURL (url : List Char) : RemoteInfo :=
  match FindStringSubmatch reGitHub url with
  | some [_, m1, m2] =>
    { Provider := GitHub, Organization := ⟨m1⟩, Project := "", Repository := ⟨m2⟩,
      BaseURL := "https://github.com" }
  | _ => unknownRemote

/-- Lines 20-25 of `ParseGitRemoteURL`: the URL after whitespace trimming and SSH rewriting. -/
def cleanRemoteURL (remoteURL : String) : List Char :=
  let url := TrimSpace remoteURL.data
  if HasPrefix url "git@".data then convertSSHToHTTPS url else url

/-- The function `ParseGitRemoteURL`: the returned pointer (`none` for `nil`) and the
returned error (`none` for `nil`). -/
def ParseGitRemoteURL (remoteURL : String) : Option RemoteInfo × Option GoError :=
  let url := cleanRemoteURL remoteURL
  match parseAzureDevOpsURL url with
  | some azureInfo => (some azureInfo, none)
  | none => (some (parseGitHubURL url), none)

/-- The function `GetProviderConfigFromRemote`.  The dereference of a nil `info` (which
`ParseGitRemoteURL` never returns) is the run-time panic of Go. -/
def GetProviderConfigFromRemote (remoteURL : String) : Except GoError ProviderConfig :=
  match ParseGitRemoteURL remoteURL with
  | (_, some err) => .error err
  | (some info, none) =>
    .ok { Type_ := info.Provider, Organization := info.Organization, Project := info.Project,
          BaseURL := info.BaseURL, Token := "" }
  | (none, none) => .error (.new "panic: nil pointer dereference")

/-! ## `providers/types.go`: the canonical records -/

/-- The struct `Repository`. -/
structure Repository where
  Name : String
  NameWithOwner : String
  IsArchived : Bool
  deriving DecidableEq, Repr

/-- The struct `Assignee`. -/
structure Assignee where
  Login : String
  deriving DecidableEq, Repr

/-- The struct `Assignees`. -/
structure Assignees where
  Nodes : List Assignee
  TotalCount : Int
  deriving DecidableEq, Repr

/-- The struct `Comment`. -/
structure Comment where
  AuthorLogin : String
  Body : String
  UpdatedAt : Time
  deriving DecidableEq, Repr

/-- The struct `Comments`. -/
structure Comments where
  Nodes : List Comment
  TotalCount : Int
  deriving DecidableEq, Repr

/-- The struct `Review`. -/
structure Review where
  AuthorLogin : String
  Body : String
  State : String
  UpdatedAt : Time
  deriving DecidableEq, Repr

/-- The struct `Reviews`. -/
structure Reviews where
  TotalCount : Int
  Nodes : List Review
  deriving DecidableEq, Repr

/-- The struct `ReviewComment`. -/
structure ReviewComment where
  AuthorLogin : String
  Body : String
  UpdatedAt : Time
  StartLine : Int
  Line : Int
  deriving DecidableEq, Repr

/-- The struct `ReviewComments`. -/
structure ReviewComments where
  Nodes : List ReviewComment
  TotalCount : Int
  deriving DecidableEq, Repr

/-- The element type of `ReviewThreads.Nodes`. -/
structure ReviewThread where
  Id : String
  IsOutdated : Bool
  OriginalLine : Int
  StartLine : Int
  Line : Int
  Path : String
  Comments : ReviewComments
  deriving DecidableEq, Repr

/-- The struct `ReviewThreads`. -/
structure ReviewThreads where
  Nodes : List ReviewThread
  deriving DecidableEq, Repr

/-- The element type of `ReviewRequests.Nodes`. -/
structure ReviewRequest where
  AsCodeOwner : Bool
  deriving DecidableEq, Repr

/-- The struct `ReviewRequests`. -/
structure ReviewRequests where
  TotalCount : Int
  Nodes : List ReviewRequest
  deriving DecidableEq, Repr

/-- The struct `ChangedFile`. -/
structure ChangedFile where
  Additions : Int
  Deletions : Int
  Path : String
  ChangeType : String
  deriving DecidableEq, Repr

/-- The struct `ChangedFiles`. -/
structure ChangedFiles where
  TotalCount : Int
  Nodes : List ChangedFile
  deriving DecidableEq, Repr

/-- The struct `CheckRun` (creator login and workflow name flattened). -/
structure CheckRun where
  Name : String
  Status : String
  Conclusion : String
  CheckSuiteCreatorLogin : String
  CheckSuiteWorkflowName : String
  deriving DecidableEq, Repr

/-- The struct `StatusContext`. -/
structure StatusContext where
  Context : String
  State : String
  CreatorLogin : String
  deriving DecidableEq, Repr

/-- The element type of `Commit.Deployments.Nodes`. -/
structure Deployment where
  Task : String
  Description : String
  deriving DecidableEq, Repr

/-- The element type of `Commit.StatusCheckRollup.Contexts.Nodes`. -/
structure RollupContext where
  Typename : String
  CheckRun : CheckRun
  StatusContext : StatusContext
  deriving DecidableEq, Repr

/-- The struct `CommitNode` (its nested anonymous structs flattened). -/
structure CommitNode where
  Deployments : List Deployment
  ContextsTotalCount : Int
  Contexts : List RollupContext
  deriving DecidableEq, Repr

/-- The struct `Commits`. -/
structure Commits where
  Nodes : List CommitNode
  TotalCount : Int
  deriving DecidableEq, Repr

/-- The struct `Label`. -/
structure Label where
  Color : String
  Name : String
  deriving DecidableEq, Repr

/-- The struct `PRLabels`. -/
structure PRLabels where
  Nodes : List Label
  deriving DecidableEq, Repr

/-- The struct `PageInfo`. -/
structure PageInfo where
  HasNextPage : Bool
  StartCursor : String
  EndCursor : String
  deriving DecidableEq, Repr

/-- The struct `PullRequestData` (`Author.Login`, `HeadRepository.Name` and `HeadRef.Name`
are the single fields of their anonymous structs). -/
structure PullRequestData where
  Number : Int
  Title : String
  Body : String
  AuthorLogin : String
  AuthorAssociation : String
  UpdatedAt : Time
  CreatedAt : Time
  Url : String
  State : String
  Mergeable : String
  ReviewDecision : String
  Additions : Int
  Deletions : Int
  HeadRefName : String
  BaseRefName : String
  HeadRepositoryName : String
  HeadRefNameOfRef : String
  Repository : Repository
  Assignees : Assignees
  Comments : Comments
  Reviews : Reviews
  ReviewThreads : ReviewThreads
  ReviewRequests : ReviewRequests
  Files : ChangedFiles
  IsDraft : Bool
  Commits : Commits
  Labels : PRLabels
  MergeStateStatus : String
  deriving DecidableEq, Repr

/-! ## `providers/azuredevops.go` -/

/-- The struct `AzurePullRequest` (nested anonymous structs flattened). -/
structure AzurePullRequest where
  PullRequestId : Int
  Title : String
  Description : String
  Status : String
  CreatedByDisplayName : String
  CreatedByUniqueName : String
  CreationDate : Time
  SourceRefName : String
  TargetRefName : String
  RepositoryName : String
  RepositoryWebURL : String
  RepositoryProjectName : String
  Url : String
  deriving DecidableEq, Repr

/-- The struct `AzureDevOpsProvider`; the HTTP client carries only its timeout, in
seconds. -/
structure AzureDevOpsProvider where
  clientTimeout : Nat
  config : ProviderConfig
  organization : String
  project : String
  baseURL : String
  token : String
  deriving DecidableEq, Repr

/-- The function `NewAzureDevOpsProvider`; its error is always nil. -/
def NewAzureDevOpsProvider (config : ProviderConfig) : AzureDevOpsProvider :=
  let baseURL := if config.BaseURL = "" then "https://dev.azure.com" else config.BaseURL
  { clientTimeout := 30, config := config, organization := config.Organization,
    project := config.Project, baseURL := baseURL, token := config.Token }

/-- The method `convertAzurePRToData`. -/
def convertAzurePRToData (azurePR : AzurePullRequest) : PullRequestData :=
  let state :=
    if azurePR.Status = "completed" then "merged"
    else if azurePR.Status = "abandoned" then "closed"
    else "open"
  { Number := azurePR.PullRequestId
    Title := azurePR.Title
    Body := azurePR.Description
    AuthorLogin := azurePR.CreatedByDisplayName
    AuthorAssociation := "MEMBER"
    UpdatedAt := azurePR.CreationDate
    CreatedAt := azurePR.CreationDate
    Url := azurePR.Url
    State := state
    Mergeable := "UNKNOWN"
    ReviewDecision := ""
    Additions := 0
    Deletions := 0
    HeadRefName := TrimPrefix azurePR.SourceRefName "refs/heads/"
    BaseRefName := TrimPrefix azurePR.TargetRefName "refs/heads/"
    HeadRepositoryName := azurePR.RepositoryName
    HeadRefNameOfRef := TrimPrefix azurePR.SourceRefName "refs/heads/"
    Repository :=
      { Name := azurePR.RepositoryName
        NameWithOwner := azurePR.RepositoryProjectName ++ "/" ++ azurePR.RepositoryName
        IsArchived := false }
    Assignees := { Nodes := [], TotalCount := 0 }
    Comments := { Nodes := [], TotalCount := 0 }
    Reviews := { TotalCount := 0, Nodes := [] }
    ReviewThreads := { Nodes := [] }
    ReviewRequests := { TotalCount := 0, Nodes := [] }
    Files := { TotalCount := 0, Nodes := [] }
    IsDraft := false
    Commits := { Nodes := [], TotalCount := 0 }
    Labels := { Nodes := [] }
    MergeStateStatus := "" }

/-! ## `providers/github.go`, the factory of `provider.go`, and the world outside -/

/-- A GraphQL client of the `go-gh` library, identified by its options. -/
structure GraphQLClient where
  Host : String
  AuthToken : String
  deriving DecidableEq, Repr

/-- What the providers and the manager read from outside the repository's code:
`os.Getenv`, the feature flag `config.IsFeatureEnabled(config.FF_MOCK_DATA)`, the two
client constructors of `go-gh`, and `git.GetOriginUrl`. -/
structure World where
  Getenv : String → String
  mockData : Bool
  NewGraphQLClient : String → String → Except GoError GraphQLClient
  DefaultGraphQLClient : Except GoError GraphQLClient
  GetOriginUrl : String → Except GoError String

/-- The struct `GitHubProvider`. -/
structure GitHubProvider where
  client : GraphQLClient
  config : ProviderConfig
  deriving DecidableEq, Repr

/-- The interface `GitProvider`, with its two implementations. -/
inductive GitProvider where
  | github (p : GitHubProvider)
  | azure (p : AzureDevOpsProvider)
  deriving DecidableEq, Repr

/-- The method `GetType`. -/
def GitProvider.GetType : GitProvider → ProviderType
  | .github _ => GitHub
  | .azure _ => AzureDevOps

/-- The function `NewGitHubProvider`. -/
def NewGitHubProvider (w : World) (providerConfig : ProviderConfig) :
    Except GoError GitProvider :=
  let client :=
    if w.mockData then w.NewGraphQLClient "localhost:3000" "fake-token"
    else w.DefaultGraphQLClient
  match client with
  | .error err => .error err
  | .ok client => .ok (.github { client := client, config := providerConfig })

/-- The factory `NewProvider`. -/
def NewProvider (w : World) (config : ProviderConfig) : Except GoError GitProvider :=
  if config.Type_ = GitHub then NewGitHubProvider w config
  else if config.Type_ = AzureDevOps then .ok (.azure (NewAzureDevOpsProvider config))
  else NewGitHubProvider w config

/-! ## `providers/manager.go` -/

/-- The provider section of `config.Config` (`cfg.Provider`). -/
structure ConfigProvider where
  Type_ : String
  Organization : String
  Project : String
  BaseURL : String
  Token : String
  deriving DecidableEq, Repr

/-- The part of `config.Config` the manager reads; `none` is a nil `Provider`. -/
structure Config where
  Provider : Option ConfigProvider
  deriving DecidableEq, Repr

/-- The struct `ProviderManager`: the registry, as an association list, and the active
provider (`none` for nil). -/
structure ProviderManager where
  providers : List (String × GitProvider)
  current : Option GitProvider
  deriving DecidableEq, Repr

/-- The function `NewProviderManager`. -/
def NewProviderManager : ProviderManager := { providers := [], current := none }

/-- The method `getTokenFromEnvironment`. -/
def getTokenFromEnvironment (w : World) (providerType : ProviderType) : String :=
  if providerType = GitHub then ""
  else if providerType = AzureDevOps then
    if w.Getenv "AZURE_DEVOPS_TOKEN" ≠ "" then w.Getenv "AZURE_DEVOPS_TOKEN"
    else if w.Getenv "ADO_PAT" ≠ "" then w.Getenv "ADO_PAT"
    else if w.Getenv "AZURE_PAT" ≠ "" then w.Getenv "AZURE_PAT"
    else ""
  else ""

/-- The method `detectProviderFromGit`. -/
def detectProviderFromGit (w : World) (repoPath : String) : Except GoError ProviderConfig :=
  let repoPath := if repoPath = "" then "." else repoPath
  match w.GetOriginUrl repoPath with
  | .error err => .error (.wrap "failed to get git remote URL: " err)
  | .ok remoteURL =>
    match GetProviderConfigFromRemote remoteURL with
    | .error err => .error err
    | .ok config => .ok config

/-- Lines 26-54 of `InitializeProvider`: the configuration chosen from the explicit
section or from the git remote. -/
def selectProviderConfig (w : World) (cfg : Config) (repoPath : String) : ProviderConfig :=
  match cfg.Provider with
  | some p =>
    { Type_ := p.Type_, Organization := p.Organization, Project := p.Project,
      BaseURL := p.BaseURL, Token := p.Token }
  | none =>
    match detectProviderFromGit w repoPath with
    | .error _ =>
      { Type_ := GitHub, Organization := "", Project := "", BaseURL := "", Token := "" }
    | .ok detectedConfig => detectedConfig

/-- Lines 56-59 of `InitializeProvider`: the token taken from the environment when the
configuration has none. -/
def addEnvironmentToken (w : World) (providerConfig : ProviderConfig) : ProviderConfig :=
  if providerConfig.Token = "" then
    { providerConfig with Token := getTokenFromEnvironment w providerConfig.Type_ }
  else providerConfig

/-- The assignment `m[key] = value` on the registry. -/
def mapSet (m : List (String × GitProvider)) (key : String) (value : GitProvider) :
    List (String × GitProvider) :=
  (key, value) :: m.filter fun kv => kv.1 ≠ key

/-- The method `InitializeProvider`: the manager afterwards and the returned error. -/
def InitializeProvider (w : World) (pm : ProviderManager) (cfg : Config) (repoPath : String) :
    ProviderManager × Option GoError :=
  let providerConfig := addEnvironmentToken w (selectProviderConfig w cfg repoPath)
  match NewProvider w providerConfig with
  | .error err =>
    (pm, some (.wrap ("failed to initialize " ++ providerConfig.Type_ ++ " provider: ") err))
  | .ok provider =>
    ({ providers := mapSet pm.providers providerConfig.Type_ provider,
       current := some provider }, none)

/-! ## Auxiliary notions for the proofs about the matcher -/

/-- A state that still has more than `n` characters to read. -/
def liveAt (n : Nat) (st : MState) : Bool := decide (n < st.1.length)

/-- The state `st` of a run on `t`, seen in the run on `t ++ sfx`. -/
def liftState (sfx : List Char) (st : MState) : MState := (st.1 ++ sfx, st.2)

/-- Every match of `re` ends right after a `/`. -/
def EndsInSlash (re : Regex) : Prop :=
  ∀ (s : List Char) (c : List (List Char)) (st : MState),
    st ∈ re.run (s, c) → ∃ w, s = w ++ '/' :: st.1

/-- The result of `parseAzureDevOpsURL` as a function of the groups (without the whole
match) found by its three patterns. -/
def azureOfGroups (g0 g1 g2 : Option (List (List Char))) : Option RemoteInfo :=
  match g0 with
  | some [m1, m2, m3] =>
    some { Provider := AzureDevOps, Organization := ⟨m1⟩, Project := ⟨m2⟩, Repository := ⟨m3⟩,
           BaseURL := "https://dev.azure.com" }
  | _ =>
    match g1 with
    | some [m1, m2, m3] =>
      some { Provider := AzureDevOps, Organization := ⟨m1⟩, Project := ⟨m2⟩, Repository := ⟨m3⟩,
             BaseURL := "https://" ++ ⟨m1⟩ ++ ".visualstudio.com" }
    | _ =>
      match g2 with
      | some [m1, m2, m3, m4] =>
        some { Provider := AzureDevOps, Organization := ⟨m2⟩, Project := ⟨m3⟩,
               Repository := ⟨m4⟩, BaseURL := "https://" ++ ⟨m1⟩ }
      | _ => none

/-- The result of `parseGitHubURL` as a function of the groups found by its pattern. -/
def githubOfGroups (g : Option (List (List Char))) : RemoteInfo :=
  match g with
  | some [m1, m2] =>
    { Provider := GitHub, Organization := ⟨m1⟩, Project := "", Repository := ⟨m2⟩,
      BaseURL := "https://github.com" }
  | _ => unknownRemote

/-! ## Environments used as examples -/

/-- An environment in which only `ADO_PAT` is set. -/
def worldWithAdoPat : World :=
  { Getenv := fun k => if k = "ADO_PAT" then "pat-from-ado" else ""
    mockData := false
    NewGraphQLClient := fun host token => .ok { Host := host, AuthToken := token }
    DefaultGraphQLClient := .ok { Host := "github.com", AuthToken := "gh-token" }
    GetOriginUrl := fun _ => .error (.new "not a git repository") }

/-- An environment in which no GitHub client can be built. -/
def worldWithoutGitHubAuth : World :=
  { Getenv := fun _ => ""
    mockData := false
    NewGraphQLClient := fun host token => .ok { Host := host, AuthToken := token }
    DefaultGraphQLClient := .error (.new "authentication token not found for host github.com")
    GetOriginUrl := fun _ => .error (.new "not a git repository") }

/-! ## `providers/provider.go`, `providers/manager.go`: authentication info -/

/-- The struct `AuthInfo`. -/
structure AuthInfo where
  Username : String
  IsLoggedIn : Bool
  TokenSource : String
  deriving DecidableEq, Repr

/-- The zero value `AuthInfo{}`. -/
def AuthInfo.zero : AuthInfo := { Username := "", IsLoggedIn := false, TokenSource := "" }

/-- The method `GetAuthInfo` of the two providers; its error is always nil. -/
def GitProvider.GetAuthInfo : GitProvider → AuthInfo × Option GoError
  | .github _ => ({ Username := "github-user", IsLoggedIn := true, TokenSource := "GitHub CLI" }, none)
  | .azure p =>
    ({ Username := "azure-user", IsLoggedIn := decide (p.token ≠ ""),
       TokenSource := "Personal Access Token" }, none)

/-- The method `(*ProviderManager).GetCurrentProvider`. -/
def ProviderManager.GetCurrentProvider (pm : ProviderManager) : Option GitProvider := pm.current

/-- The method `(*ProviderManager).GetProviderInfo`. -/
def ProviderManager.GetProviderInfo (pm : ProviderManager) :
    ProviderType × AuthInfo × Option GoError :=
  match pm.current with
  | none => ("", AuthInfo.zero, some (.new "no provider initialized"))
  | some current =>
    let (authInfo, err) := current.GetAuthInfo
    (current.GetType, authInfo, err)

/-! ## `data/provider_integration.go`: the process-wide manager

The package variable `globalProviderManager` is passed explicitly; `none` is nil. -/

/-- The function `data.InitProviders`: the package variable afterwards and the returned
error. -/
def data.InitProviders (w : World) (globalProviderManager : Option ProviderManager)
    (cfg : Config) (repoPath : String) : Option ProviderManager × Option GoError :=
  let pm :=
    match globalProviderManager with
    | none => NewProviderManager
    | some pm => pm
  let r := InitializeProvider w pm cfg repoPath
  (some r.1, r.2)

/-- The function `data.GetCurrentProvider`. -/
def data.GetCurrentProvider (globalProviderManager : Option ProviderManager) :
    Option GitProvider :=
  match globalProviderManager with
  | none => none
  | some pm => pm.GetCurrentProvider

/-- The function `data.GetProviderInfo`. -/
def data.GetProviderInfo (globalProviderManager : Option ProviderManager) :
    ProviderType × AuthInfo × Option GoError :=
  match globalProviderManager with
  | none => (GitHub, AuthInfo.zero, none)
  | some pm => pm.GetProviderInfo

/-- A sequence of `InitProviders` calls, each in its own state of the world, starting from
the package variable `g`: the package variable afterwards and the errors returned. -/
def data.initProvidersAll (g : Option ProviderManager) :
    List (World × Config × String) → Option ProviderManager × List (Option GoError)
  | [] => (g, [])
  | (w, cfg, repoPath) :: calls =>
    let r := data.InitProviders w g cfg repoPath
    let rest := data.initProvidersAll r.1 calls
    (rest.1, r.2 :: rest.2)

/-- An environment whose git remote is an Azure DevOps repository. -/
def worldWithAzureRemote : World :=
  { Getenv := fun _ => ""
    mockData := false
    NewGraphQLClient := fun host token => .ok { Host := host, AuthToken := token }
    DefaultGraphQLClient := .ok { Host := "github.com", AuthToken := "gh-token" }
    GetOriginUrl := fun _ => .ok "https://dev.azure.com/acme/widgets/_git/core" }

/-- An environment whose git remote matches no grammar. -/
def worldWithUnknownRemote : World :=
  { Getenv := fun _ => ""
    mockData := false
    NewGraphQLClient := fun host token => .ok { Host := host, AuthToken := token }
    DefaultGraphQLClient := .ok { Host := "github.com", AuthToken := "gh-token" }
    GetOriginUrl := fun _ => .ok "not a url" }

/-! ## `providers/types.go`: issues and responses -/

/-- The struct `IssueComment`. -/
structure IssueComment where
  AuthorLogin : String
  Body : String
  UpdatedAt : Time
  deriving DecidableEq, Repr

/-- The struct `IssueComments`. -/
structure IssueComments where
  Nodes : List IssueComment
  TotalCount : Int
  deriving DecidableEq, Repr

/-- The struct `IssueReactions`. -/
structure IssueReactions where
  TotalCount : Int
  deriving DecidableEq, Repr

/-- The struct `IssueLabels`. -/
structure IssueLabels where
  Nodes : List Label
  deriving DecidableEq, Repr

/-- The struct `IssueData`. -/
structure IssueData where
  Number : Int
  Title : String
  Body : String
  State : String
  AuthorLogin : String
  AuthorAssociation : String
  UpdatedAt : Time
  CreatedAt : Time
  Url : String
  Repository : Repository
  Assignees : Assignees
  Comments : IssueComments
  Reactions : IssueReactions
  Labels : IssueLabels
  deriving DecidableEq, Repr

/-- The struct `PullRequestsResponse`. -/
structure PullRequestsResponse where
  Prs : List PullRequestData
  TotalCount : Int
  PageInfo : PageInfo
  deriving DecidableEq, Repr

/-- The struct `IssuesResponse`. -/
structure IssuesResponse where
  Issues : List IssueData
  TotalCount : Int
  PageInfo : PageInfo
  deriving DecidableEq, Repr

/-- The zero value `PageInfo{}`. -/
def PageInfo.zero : PageInfo := { HasNextPage := false, StartCursor := "", EndCursor := "" }

/-- The zero value `PullRequestData{}`. -/
def PullRequestData.zero : PullRequestData :=
  { Number := 0, Title := "", Body := "", AuthorLogin := "", AuthorAssociation := "",
    UpdatedAt := 0, CreatedAt := 0, Url := "", State := "", Mergeable := "",
    ReviewDecision := "", Additions := 0, Deletions := 0, HeadRefName := "", BaseRefName := "",
    HeadRepositoryName := "", HeadRefNameOfRef := "",
    Repository := { Name := "", NameWithOwner := "", IsArchived := false },
    Assignees := { Nodes := [], TotalCount := 0 }, Comments := { Nodes := [], TotalCount := 0 },
    Reviews := { TotalCount := 0, Nodes := [] }, ReviewThreads := { Nodes := [] },
    ReviewRequests := { TotalCount := 0, Nodes := [] }, Files := { TotalCount := 0, Nodes := [] },
    IsDraft := false, Commits := { Nodes := [], TotalCount := 0 }, Labels := { Nodes := [] },
    MergeStateStatus := "" }

/-- The zero value `PullRequestsResponse{}`. -/
def PullRequestsResponse.zero : PullRequestsResponse :=
  { Prs := [], TotalCount := 0, PageInfo := PageInfo.zero }

/-- The zero value `IssuesResponse{}`. -/
def IssuesResponse.zero : IssuesResponse :=
  { Issues := [], TotalCount := 0, PageInfo := PageInfo.zero }

/-! ## `providers/azuredevops.go`: the fetch operations

The HTTP client, base64 and JSON coding are the Go library's; they are parameters. -/

/-- An `http.Request`: method, URL, body and header fields. -/
structure HTTPRequest where
  Method : String
  URL : String
  Body : String
  Header : List (String × String)
  deriving DecidableEq, Repr

/-- An `http.Response`: the status code and what `io.ReadAll(resp.Body)` returns. -/
structure HTTPResponse where
  StatusCode : Int
  Body : Except GoError String

/-- The struct `AzurePullRequestsResponse`. -/
structure AzurePullRequestsResponse where
  Value : List AzurePullRequest
  Count : Int
  deriving DecidableEq, Repr

/-- The library functions used by the Azure DevOps provider: the error of
`http.NewRequest` for a method and URL (`none` for nil), `(*http.Client).Do`,
`base64.StdEncoding.EncodeToString`, `json.Marshal` of the WIQL query document and
`json.Unmarshal` into `AzurePullRequestsResponse`. -/
structure HTTP where
  NewRequestError : String → String → Option GoError
  Do : HTTPRequest → Except GoError HTTPResponse
  Base64 : String → String
  MarshalQuery : String → Except GoError String
  UnmarshalPullRequests : String → Except GoError AzurePullRequestsResponse

/-- The method `Header.Set`. -/
def HTTPRequest.setHeader (req : HTTPRequest) (key value : String) : HTTPRequest :=
  { req with Header := (key, value) :: req.Header.filter fun kv => kv.1 ≠ key }

/-- The method `setAuthHeader`. -/
def AzureDevOpsProvider.setAuthHeader (h : HTTP) (p : AzureDevOpsProvider)
    (req : HTTPRequest) : HTTPRequest :=
  if p.token ≠ "" then req.setHeader "Authorization" ("Basic " ++ h.Base64 (":" ++ p.token))
  else req

/-- The method `(*AzureDevOpsProvider).FetchPullRequests`: the returned response and error,
and the requests sent with `p.client.Do`, in order. -/
def AzureDevOpsProvider.FetchPullRequests (h : HTTP) (p : AzureDevOpsProvider)
    (query : String) (limit : Int) (pageInfo : Option PageInfo) :
    (PullRequestsResponse × Option GoError) × List HTTPRequest :=
  if p.organization = "" ∨ p.project = "" then
    ((PullRequestsResponse.zero,
      some (.new "Azure DevOps organization and project are required")), [])
  else if p.token = "" then
    ((PullRequestsResponse.zero,
      some (.new ("Azure DevOps Personal Access Token is required. " ++
        "Set AZURE_DEVOPS_TOKEN, ADO_PAT, or AZURE_PAT environment variable"))), [])
  else
    let apiURL := p.baseURL ++ "/" ++ p.organization ++ "/" ++ p.project ++
      "/_apis/git/pullrequests?api-version=7.1&$top=" ++ toString limit
    match h.NewRequestError "GET" apiURL with
    | some err => ((PullRequestsResponse.zero, some err), [])
    | none =>
      let req := (p.setAuthHeader h { Method := "GET", URL := apiURL, Body := "", Header := [] }
        ).setHeader "Content-Type" "application/json"
      match h.Do req with
      | .error err => ((PullRequestsResponse.zero, some err), [req])
      | .ok resp =>
        match resp.Body with
        | .error err => ((PullRequestsResponse.zero, some err), [req])
        | .ok body =>
          if resp.StatusCode ≠ 200 then
            ((PullRequestsResponse.zero, some (.new ("Azure DevOps API error: " ++ body))), [req])
          else
            match h.UnmarshalPullRequests body with
            | .error err => ((PullRequestsResponse.zero, some err), [req])
            | .ok azureResp =>
              (({ Prs := azureResp.Value.map convertAzurePRToData,
                  TotalCount := azureResp.Count, PageInfo := PageInfo.zero }, none), [req])

/-- The method `(*AzureDevOpsProvider).FetchIssues`: the returned response and error, and the
requests sent with `p.client.Do`, in order. -/
def AzureDevOpsProvider.FetchIssues (h : HTTP) (p : AzureDevOpsProvider)
    (query : String) (limit : Int) (pageInfo : Option PageInfo) :
    (IssuesResponse × Option GoError) × List HTTPRequest :=
  let wiql := "SELECT [System.Id], [System.Title], [System.State], [System.CreatedBy], " ++
    "[System.CreatedDate], [System.ChangedDate] FROM workitems WHERE [System.TeamProject] = '" ++
    p.project ++ "'"
  let apiURL := p.baseURL ++ "/" ++ p.organization ++ "/" ++ p.project ++
    "/_apis/wit/wiql?api-version=7.1"
  match h.MarshalQuery wiql with
  | .error err => ((IssuesResponse.zero, some err), [])
  | .ok jsonData =>
    match h.NewRequestError "POST" apiURL with
    | some err => ((IssuesResponse.zero, some err), [])
    | none =>
      let req := (p.setAuthHeader h
        { Method := "POST", URL := apiURL, Body := jsonData, Header := [] }
        ).setHeader "Content-Type" "application/json"
      match h.Do req with
      | .error err => ((IssuesResponse.zero, some err), [req])
      | .ok resp =>
        match resp.Body with
        | .error err => ((IssuesResponse.zero, some err), [req])
        | .ok body =>
          if resp.StatusCode ≠ 200 then
            ((IssuesResponse.zero, some (.new ("Azure DevOps API error: " ++ body))), [req])
          else
            (({ Issues := [], TotalCount := 0, PageInfo := PageInfo.zero }, none), [req])

/-- The method `(*AzureDevOpsProvider).FetchPullRequest`. -/
def AzureDevOpsProvider.FetchPullRequest (p : AzureDevOpsProvider) (prUrl : String) :
    PullRequestData × Option GoError :=
  (PullRequestData.zero, some (.new "FetchPullRequest not implemented for Azure DevOps"))

/-! ## `providers/github.go`: the fetch operations -/

/-- The GraphQL queries of the GitHub provider, answered by the `go-gh` client:
`SearchPullRequests` and `SearchIssues` (query text, limit, end cursor; they answer the
nodes, the issue count and the page info), `FetchPullRequest` (by URL), and the error of
`url.Parse`. -/
structure GitHubAPI where
  SearchPullRequests : GraphQLClient → String → Int → Option String →
    Except GoError (List PullRequestData × Int × PageInfo)
  SearchIssues : GraphQLClient → String → Int → Option String →
    Except GoError (List IssueData × Int × PageInfo)
  FetchPullRequest : GraphQLClient → String → Except GoError PullRequestData
  ParseURLError : String → Option GoError

/-- The function `makePullRequestsQuery`. -/
def makePullRequestsQuery (query : String) : String := "is:pr " ++ query ++ " sort:updated"

/-- The function `makeIssuesQuery`. -/
def makeIssuesQuery (query : String) : String := "is:issue " ++ query ++ " sort:updated"

/-- The method `(*GitHubProvider).FetchPullRequests` (the client of a constructed provider
is non-nil). -/
def GitHubProvider.FetchPullRequests (api : GitHubAPI) (p : GitHubProvider)
    (query : String) (limit : Int) (pageInfo : Option PageInfo) :
    PullRequestsResponse × Option GoError :=
  match api.SearchPullRequests p.client (makePullRequestsQuery query) limit
      (pageInfo.map fun pi => pi.EndCursor) with
  | .error err => (PullRequestsResponse.zero, some err)
  | .ok (nodes, issueCount, pi) =>
    ({ Prs := nodes.filter fun pr => !pr.Repository.IsArchived,
       TotalCount := issueCount, PageInfo := pi }, none)

/-- The method `(*GitHubProvider).FetchIssues`. -/
def GitHubProvider.FetchIssues (api : GitHubAPI) (p : GitHubProvider)
    (query : String) (limit : Int) (pageInfo : Option PageInfo) :
    IssuesResponse × Option GoError :=
  match api.SearchIssues p.client (makeIssuesQuery query) limit
      (pageInfo.map fun pi => pi.EndCursor) with
  | .error err => (IssuesResponse.zero, some err)
  | .ok (nodes, issueCount, pi) =>
    ({ Issues := nodes.filter fun issue => !issue.Repository.IsArchived,
       TotalCount := issueCount, PageInfo := pi }, none)

/-- The method `(*GitHubProvider).FetchPullRequest`. -/
def GitHubProvider.FetchPullRequest (api : GitHubAPI) (p : GitHubProvider) (prUrl : String) :
    PullRequestData × Option GoError :=
  match api.ParseURLError prUrl with
  | some err => (PullRequestData.zero, some err)
  | none =>
    match api.FetchPullRequest p.client prUrl with
    | .error err => (PullRequestData.zero, some err)
    | .ok pr => (pr, none)

/-! ## The interface `GitProvider` as a method set -/

/-- The eight command builders of the interface `GitProvider`; each returns an argument
vector and an error. -/
structure CommandBuilders where
  GetDiffCommand : Int → String → List String × Option GoError
  GetCheckoutCommand : Int → String → List String × Option GoError
  GetMergeCommand : Int → String → List String × Option GoError
  GetCloseCommand : Int → String → List String × Option GoError
  GetReopenCommand : Int → String → List String × Option GoError
  GetReadyCommand : Int → String → List String × Option GoError
  GetUpdateCommand : Int → String → List String × Option GoError
  GetWatchChecksCommand : Int → String → List String × Option GoError

/-- A value of the interface type `GitProvider`: any implementation of its methods. -/
structure GitProviderIface extends CommandBuilders where
  GetType : ProviderType
  FetchPullRequests : String → Int → Option PageInfo → PullRequestsResponse × Option GoError
  FetchIssues : String → Int → Option PageInfo → IssuesResponse × Option GoError
  FetchPullRequest : String → PullRequestData × Option GoError
  SupportsPullRequests : Bool
  SupportsIssues : Bool
  GetAuthInfo : AuthInfo × Option GoError

/-- What the two providers call outside the sources at hand: the HTTP and JSON library,
the GraphQL client, and their own command builders (declared by the interface, defined
in files that are not at hand). -/
structure Services where
  http : HTTP
  github : GitHubAPI
  commands : GitProvider → CommandBuilders

/-- The two providers as values of the interface. -/
def GitProvider.iface (s : Services) (p : GitProvider) : GitProviderIface :=
  match p with
  | .github g =>
    { toCommandBuilders := s.commands p
      GetType := GitHub
      FetchPullRequests := g.FetchPullRequests s.github
      FetchIssues := g.FetchIssues s.github
      FetchPullRequest := g.FetchPullRequest s.github
      SupportsPullRequests := true
      SupportsIssues := true
      GetAuthInfo := p.GetAuthInfo }
  | .azure a =>
    { toCommandBuilders := s.commands p
      GetType := AzureDevOps
      FetchPullRequests := fun query limit pageInfo =>
        (a.FetchPullRequests s.http query limit pageInfo).1
      FetchIssues := fun query limit pageInfo => (a.FetchIssues s.http query limit pageInfo).1
      FetchPullRequest := a.FetchPullRequest
      SupportsPullRequests := true
      SupportsIssues := true
      GetAuthInfo := p.GetAuthInfo }

/-! ## `data/provider_integration.go`: the conversions and the wrappers

The record types of package `data` are declared outside the files at hand.  Their fields
are those the composite literals of the two conversion functions name; the struct
conversion `PageInfo(...)` and the direct assignments show the shapes to be those of
package `providers`, whose nested types stand for them here. -/

/-- The struct `Repository` of package `data`. -/
structure data.Repository where
  Name : String
  NameWithOwner : String
  IsArchived : Bool
  deriving DecidableEq, Repr

/-- The struct `PullRequestData` of package `data`. -/
structure data.PullRequestData where
  Number : Int
  Title : String
  Body : String
  AuthorLogin : String
  AuthorAssociation : String
  UpdatedAt : Time
  CreatedAt : Time
  Url : String
  State : String
  Mergeable : String
  ReviewDecision : String
  Additions : Int
  Deletions : Int
  HeadRefName : String
  BaseRefName : String
  HeadRepositoryName : String
  HeadRefNameOfRef : String
  Repository : data.Repository
  IsDraft : Bool
  MergeStateStatus : String
  Assignees : GhDash.Assignees
  Comments : GhDash.Comments
  Reviews : GhDash.Reviews
  ReviewThreads : GhDash.ReviewThreads
  ReviewRequests : GhDash.ReviewRequests
  Files : GhDash.ChangedFiles
  Commits : GhDash.Commits
  Labels : GhDash.PRLabels
  deriving DecidableEq, Repr

/-- The struct `IssueData` of package `data`. -/
structure data.IssueData where
  Number : Int
  Title : String
  Body : String
  State : String
  AuthorLogin : String
  AuthorAssociation : String
  UpdatedAt : Time
  CreatedAt : Time
  Url : String
  Repository : data.Repository
  Assignees : GhDash.Assignees
  Comments : GhDash.IssueComments
  Reactions : GhDash.IssueReactions
  Labels : GhDash.IssueLabels
  deriving DecidableEq, Repr

/-- The struct `PullRequestsResponse` of package `data`. -/
structure data.PullRequestsResponse where
  Prs : List data.PullRequestData
  TotalCount : Int
  PageInfo : GhDash.PageInfo
  deriving DecidableEq, Repr

/-- The struct `IssuesResponse` of package `data`. -/
structure data.IssuesResponse where
  Issues : List data.IssueData
  TotalCount : Int
  PageInfo : GhDash.PageInfo
  deriving DecidableEq, Repr

/-- The function `convertProviderPRToData`. -/
def data.convertProviderPRToData (pr : GhDash.PullRequestData) : data.PullRequestData :=
  { Number := pr.Number
    Title := pr.Title
    Body := pr.Body
    AuthorLogin := pr.AuthorLogin
    AuthorAssociation := pr.AuthorAssociation
    UpdatedAt := pr.UpdatedAt
    CreatedAt := pr.CreatedAt
    Url := pr.Url
    State := pr.State
    Mergeable := pr.Mergeable
    ReviewDecision := pr.ReviewDecision
    Additions := pr.Additions
    Deletions := pr.Deletions
    HeadRefName := pr.HeadRefName
    BaseRefName := pr.BaseRefName
    HeadRepositoryName := pr.HeadRepositoryName
    HeadRefNameOfRef := pr.HeadRefNameOfRef
    Repository :=
      { Name := pr.Repository.Name
        NameWithOwner := pr.Repository.NameWithOwner
        IsArchived := pr.Repository.IsArchived }
    IsDraft := pr.IsDraft
    MergeStateStatus := pr.MergeStateStatus
    Assignees := { Nodes := [], TotalCount := 0 }
    Comments := { Nodes := [], TotalCount := 0 }
    Reviews := { TotalCount := 0, Nodes := [] }
    ReviewThreads := { Nodes := [] }
    ReviewRequests := { TotalCount := 0, Nodes := [] }
    Files := { TotalCount := 0, Nodes := [] }
    Commits := { Nodes := [], TotalCount := 0 }
    Labels := { Nodes := [] } }

/-- The function `convertProviderIssueToData`. -/
def data.convertProviderIssueToData (issue : GhDash.IssueData) : data.IssueData :=
  { Number := issue.Number
    Title := issue.Title
    Body := issue.Body
    State := issue.State
    AuthorLogin := issue.AuthorLogin
    AuthorAssociation := issue.AuthorAssociation
    UpdatedAt := issue.UpdatedAt
    CreatedAt := issue.CreatedAt
    Url := issue.Url
    Repository :=
      { Name := issue.Repository.Name
        NameWithOwner := issue.Repository.NameWithOwner
        IsArchived := issue.Repository.IsArchived }
    Assignees := { Nodes := [], TotalCount := 0 }
    Comments := { Nodes := [], TotalCount := 0 }
    Reactions := { TotalCount := 0 }
    Labels := { Nodes := [] } }

/-- The zero value `PullRequestData{}` of package `data`. -/
def data.PullRequestData.zero : data.PullRequestData :=
  { Number := 0, Title := "", Body := "", AuthorLogin := "", AuthorAssociation := "",
    UpdatedAt := 0, CreatedAt := 0, Url := "", State := "", Mergeable := "",
    ReviewDecision := "", Additions := 0, Deletions := 0, HeadRefName := "", BaseRefName := "",
    HeadRepositoryName := "", HeadRefNameOfRef := "",
    Repository := { Name := "", NameWithOwner := "", IsArchived := false },
    IsDraft := false, MergeStateStatus := "",
    Assignees := { Nodes := [], TotalCount := 0 }, Comments := { Nodes := [], TotalCount := 0 },
    Reviews := { TotalCount := 0, Nodes := [] }, ReviewThreads := { Nodes := [] },
    ReviewRequests := { TotalCount := 0, Nodes := [] }, Files := { TotalCount := 0, Nodes := [] },
    Commits := { Nodes := [], TotalCount := 0 }, Labels := { Nodes := [] } }

/-- The zero value `PullRequestsResponse{}` of package `data`. -/
def data.PullRequestsResponse.zero : data.PullRequestsResponse :=
  { Prs := [], TotalCount := 0, PageInfo := GhDash.PageInfo.zero }

/-- The zero value `IssuesResponse{}` of package `data`. -/
def data.IssuesResponse.zero : data.IssuesResponse :=
  { Issues := [], TotalCount := 0, PageInfo := GhDash.PageInfo.zero }

/-- The legacy functions `FetchPullRequests`, `FetchIssues` and `FetchPullRequest` of
package `data`, defined outside the files at hand: whatever they return. -/
structure data.Legacy where
  FetchPullRequests : String → Int → Option GhDash.PageInfo →
    data.PullRequestsResponse × Option GoError
  FetchIssues : String → Int → Option GhDash.PageInfo → data.IssuesResponse × Option GoError
  FetchPullRequest : String → data.PullRequestData × Option GoError

/-- A call made by a wrapper: a fetch method of the provider, or a legacy function. -/
inductive data.Call where
  | providerFetchPullRequests (query : String) (limit : Int) (pageInfo : Option GhDash.PageInfo)
  | providerFetchIssues (query : String) (limit : Int) (pageInfo : Option GhDash.PageInfo)
  | providerFetchPullRequest (url : String)
  | legacyFetchPullRequests (query : String) (limit : Int) (pageInfo : Option GhDash.PageInfo)
  | legacyFetchIssues (query : String) (limit : Int) (pageInfo : Option GhDash.PageInfo)
  | legacyFetchPullRequest (url : String)
  deriving DecidableEq, Repr

/-- Whether a call is one of the provider's fetch methods. -/
def data.Call.isProviderFetch : data.Call → Bool
  | .providerFetchPullRequests _ _ _ => true
  | .providerFetchIssues _ _ _ => true
  | .providerFetchPullRequest _ => true
  | _ => false

/-- Whether a call is a legacy function. -/
def data.Call.isLegacy : data.Call → Bool
  | .legacyFetchPullRequests _ _ _ => true
  | .legacyFetchIssues _ _ _ => true
  | .legacyFetchPullRequest _ => true
  | _ => false

/-- The value `GetCurrentProvider()` as an interface value: the manager holds one of the
two providers. -/
def data.activeProvider (s : Services) (globalProviderManager : Option ProviderManager) :
    Option GitProviderIface :=
  (data.GetCurrentProvider globalProviderManager).map (GitProvider.iface s)

/-- The function `FetchPullRequestsWithProvider`; `provider` is the value of
`GetCurrentProvider()`.  Returns the response and error, and the calls made, in order. -/
def data.FetchPullRequestsWithProvider (legacy : data.Legacy) (provider : Option GitProviderIface)
    (query : String) (limit : Int) (pageInfo : Option GhDash.PageInfo) :
    (data.PullRequestsResponse × Option GoError) × List data.Call :=
  match provider with
  | some provider =>
    if provider.SupportsPullRequests then
      match provider.FetchPullRequests query limit pageInfo with
      | (_, some err) =>
        ((data.PullRequestsResponse.zero, some err),
          [.providerFetchPullRequests query limit pageInfo])
      | (providerResponse, none) =>
        (({ Prs := providerResponse.Prs.map data.convertProviderPRToData
            TotalCount := providerResponse.TotalCount
            PageInfo := providerResponse.PageInfo }, none),
          [.providerFetchPullRequests query limit pageInfo])
    else
      (legacy.FetchPullRequests query limit pageInfo,
        [.legacyFetchPullRequests query limit pageInfo])
  | none =>
    (legacy.FetchPullRequests query limit pageInfo,
      [.legacyFetchPullRequests query limit pageInfo])

/-- The function `FetchIssuesWithProvider`; `provider` is the value of
`GetCurrentProvider()`. -/
def data.FetchIssuesWithProvider (legacy : data.Legacy) (provider : Option GitProviderIface)
    (query : String) (limit : Int) (pageInfo : Option GhDash.PageInfo) :
    (data.IssuesResponse × Option GoError) × List data.Call :=
  match provider with
  | some provider =>
    if provider.SupportsIssues then
      match provider.FetchIssues query limit pageInfo with
      | (_, some err) =>
        ((data.IssuesResponse.zero, some err), [.providerFetchIssues query limit pageInfo])
      | (providerResponse, none) =>
        (({ Issues := providerResponse.Issues.map data.convertProviderIssueToData
            TotalCount := providerResponse.TotalCount
            PageInfo := providerResponse.PageInfo }, none),
          [.providerFetchIssues query limit pageInfo])
    else (legacy.FetchIssues query limit pageInfo, [.legacyFetchIssues query limit pageInfo])
  | none => (legacy.FetchIssues query limit pageInfo, [.legacyFetchIssues query limit pageInfo])

/-- The function `FetchPullRequestWithProvider`; `provider` is the value of
`GetCurrentProvider()`. -/
def data.FetchPullRequestWithProvider (legacy : data.Legacy) (provider : Option GitProviderIface)
    (url : String) : (data.PullRequestData × Option GoError) × List data.Call :=
  match provider with
  | some provider =>
    if provider.SupportsPullRequests then
      match provider.FetchPullRequest url with
      | (_, some err) => ((data.PullRequestData.zero, some err), [.providerFetchPullRequest url])
      | (providerPR, none) =>
        ((data.convertProviderPRToData providerPR, none), [.providerFetchPullRequest url])
    else (legacy.FetchPullRequest url, [.legacyFetchPullRequest url])
  | none => (legacy.FetchPullRequest url, [.legacyFetchPullRequest url])

/-! ## `ui/components/prssection`: checkout, diff, watch checks -/

/-- An `exec.Cmd`, as far as the handlers set it: the program as given to `exec.Command`,
the argument list (program first), the working directory and the environment. -/
structure ExecCmd where
  Path : String
  Args : List String
  Dir : String
  Env : List String
  deriving DecidableEq, Repr

/-- The function `exec.Command`. -/
def exec.Command (name : String) (arg : List String) : ExecCmd :=
  { Path := name, Args := name :: arg, Dir := "", Env := [] }

/-- The selected row (`m.GetCurrRow()`), through the methods the handlers call. -/
structure PrRow where
  Number : Int
  Title : String
  Url : String
  RepoNameWithOwner : String
  deriving DecidableEq, Repr

/-- What the handlers read from the section model and from the system: the section
identity, `common.GetRepoLocalPath` on the configured paths (`none` when not ok),
`os.UserHomeDir`, `GetFullScreenDiffPagerEnv`, and the error of running a command with
`Run`, `Start` and `tea.ExecProcess` (`none` for nil). -/
structure UIContext where
  SectionId : Int
  SectionType : String
  GetRepoLocalPath : String → Option String
  UserHomeDir : String
  FullScreenDiffPagerEnv : List String
  Run : ExecCmd → Option GoError
  Start : ExecCmd → Option GoError
  ExecProcess : ExecCmd → Option GoError

/-- The struct `tasks.UpdatePRMsg`, as far as the handlers set it. -/
structure UpdatePRMsg where
  PrNumber : Int
  deriving DecidableEq, Repr

/-- The struct `constants.TaskFinishedMsg`. -/
structure TaskFinishedMsg where
  SectionId : Int
  SectionType : String
  TaskId : String
  Err : Option GoError
  Msg : Option UpdatePRMsg
  deriving DecidableEq, Repr

/-- The messages the three handlers send: `constants.TaskFinishedMsg`, `constants.ErrMsg`
or nil. -/
inductive TeaMsg where
  | taskFinished (msg : TaskFinishedMsg)
  | errMsg (err : GoError)
  | nil
  deriving DecidableEq, Repr

/-- What running the command returned by a handler does: the subprocess it builds and
runs (`none` when it builds none) and the message it sends. -/
structure Ran where
  cmd : Option ExecCmd
  msg : TeaMsg
  deriving DecidableEq, Repr

/-- The method `(*Model).checkout`: the returned error (`.error`), or what the returned
command does when run; `provider` is the value of `data.GetCurrentProvider()` at that
time.  The task start command batched with it is left out. -/
def checkout (ctx : UIContext) (provider : Option GitProviderIface) (pr : Option PrRow) :
    Except GoError Ran :=
  match pr with
  | none => .error (.new "No pr selected")
  | some pr =>
    let repoName := pr.RepoNameWithOwner
    match ctx.GetRepoLocalPath repoName with
    | none =>
      .error (.new
        "Local path to repo not specified, set one in your config.yml under repoPaths")
    | some repoPath =>
      let prNumber := pr.Number
      let taskId := "checkout_" ++ toString prNumber
      let finish (c : ExecCmd) : Ran :=
        let repoPath :=
          if HasPrefix repoPath.data "~".data then
            ctx.UserHomeDir ++ TrimPrefix repoPath "~"
          else repoPath
        let c := { c with Dir := repoPath }
        { cmd := some c,
          msg := .taskFinished { SectionId := 0, SectionType := "", TaskId := taskId,
                                 Err := ctx.Run c, Msg := none } }
      match provider with
      | some provider =>
        match provider.GetCheckoutCommand prNumber repoName with
        | (_, some cmdErr) =>
          .ok { cmd := none,
                msg := .taskFinished { SectionId := 0, SectionType := "", TaskId := taskId,
                                       Err := some cmdErr, Msg := none } }
        | (args, none) =>
          match args with
          | [] =>
            .ok { cmd := none,
                  msg := .taskFinished
                    { SectionId := 0, SectionType := "", TaskId := taskId,
                      Err := some (.new "checkout command not available for this provider"),
                      Msg := none } }
          | [name] => .ok (finish (exec.Command name []))
          | name :: rest => .ok (finish (exec.Command name rest))
      | none => .ok (finish (exec.Command "gh" ["pr", "checkout", toString prNumber]))

/-- The callback given to `tea.ExecProcess` in `diff.go`. -/
def diffCallback (err : Option GoError) : TeaMsg :=
  match err with
  | some err => .errMsg err
  | none => .nil

/-- The method `executeGitHubDiffCommand`. -/
def executeGitHubDiffCommand (ctx : UIContext) (currRowData : PrRow) : Ran :=
  let c := exec.Command "gh"
    ["pr", "diff", toString currRowData.Number, "-R", currRowData.RepoNameWithOwner]
  let c := { c with Env := ctx.FullScreenDiffPagerEnv }
  { cmd := some c, msg := diffCallback (ctx.ExecProcess c) }

/-- The method `Model.diff`: `none` for a nil command, else what the returned command
does when run; `provider` is the value of `data.GetCurrentProvider()`. -/
def diff (ctx : UIContext) (provider : Option GitProviderIface) (currRowData : Option PrRow) :
    Option Ran :=
  match currRowData with
  | none => none
  | some currRowData =>
    match provider with
    | none => some (executeGitHubDiffCommand ctx currRowData)
    | some provider =>
      match provider.GetDiffCommand currRowData.Number currRowData.RepoNameWithOwner with
      | (_, some err) =>
        some { cmd := none, msg := .errMsg (.wrap "failed to get diff command: " err) }
      | (args, none) =>
        let finish (c : ExecCmd) : Ran :=
          let c :=
            if args.head? = some "gh" ∧ args.length ≥ 3 ∧ args.get? 1 = some "pr" ∧
                args.get? 2 = some "diff" then
              { c with Env := ctx.FullScreenDiffPagerEnv }
            else c
          { cmd := some c, msg := diffCallback (ctx.ExecProcess c) }
        match args with
        | [] =>
          some { cmd := none,
                 msg := .errMsg (.new "no diff command available for this provider") }
        | [name] => some (finish (exec.Command name []))
        | name :: rest => some (finish (exec.Command name rest))

/-- The method `(*Model).watchChecks`: `none` for a nil command, else what the returned
command does when run; `provider` is the value of `data.GetCurrentProvider()` at that
time.  The task start command and the notification goroutine are left out. -/
def watchChecks (ctx : UIContext) (provider : Option GitProviderIface) (pr : Option PrRow) :
    Option Ran :=
  match pr with
  | none => none
  | some pr =>
    let prNumber := pr.Number
    let repoNameWithOwner := pr.RepoNameWithOwner
    let taskId := "pr_reopen_" ++ toString prNumber
    let finished (err : Option GoError) : TeaMsg :=
      .taskFinished { SectionId := ctx.SectionId, SectionType := ctx.SectionType,
                      TaskId := taskId, Err := err, Msg := some { PrNumber := prNumber } }
    let finish (c : ExecCmd) : Ran := { cmd := some c, msg := finished (ctx.Start c) }
    match provider with
    | some provider =>
      match provider.GetWatchChecksCommand prNumber repoNameWithOwner with
      | (_, some cmdErr) => some { cmd := none, msg := finished (some cmdErr) }
      | (args, none) =>
        match args with
        | [] =>
          some { cmd := none,
                 msg := finished
                   (some (.new "watch checks command not available for this provider")) }
        | [name] => some (finish (exec.Command name []))
        | name :: rest => some (finish (exec.Command name rest))
    | none =>
      some (finish (exec.Command "gh"
        ["pr", "checks", "--watch", "--fail-fast", toString prNumber, "-R", repoNameWithOwner]))

/-! ## Example collaborators -/

/-- An endpoint that accepts every request and answers status 200 with an empty list. -/
def httpAnswering200 : HTTP :=
  { NewRequestError := fun _ _ => none
    Do := fun _ => .ok { StatusCode := 200, Body := .ok "" }
    Base64 := fun s => s
    MarshalQuery := fun q => .ok q
    UnmarshalPullRequests := fun _ => .ok { Value := [], Count := 0 } }

/-- A provider whose fetch methods all return a one-record (or one-issue) answer together
with the error `fetchErr`, whose command builders all return `command`, and which declares
the capabilities given. -/
def stubProvider (supportsPullRequests supportsIssues : Bool) (fetchErr : Option GoError)
    (command : List String × Option GoError) : GitProviderIface :=
  { GetDiffCommand := fun _ _ => command
    GetCheckoutCommand := fun _ _ => command
    GetMergeCommand := fun _ _ => command
    GetCloseCommand := fun _ _ => command
    GetReopenCommand := fun _ _ => command
    GetReadyCommand := fun _ _ => command
    GetUpdateCommand := fun _ _ => command
    GetWatchChecksCommand := fun _ _ => command
    GetType := "stub"
    FetchPullRequests := fun _ _ _ =>
      ({ Prs := [{ PullRequestData.zero with Number := 7 }], TotalCount := 1,
         PageInfo := PageInfo.zero }, fetchErr)
    FetchIssues := fun _ _ _ =>
      ({ Issues := [], TotalCount := 1, PageInfo := PageInfo.zero }, fetchErr)
    FetchPullRequest := fun _ => ({ PullRequestData.zero with Number := 7 }, fetchErr)
    SupportsPullRequests := supportsPullRequests
    SupportsIssues := supportsIssues
    GetAuthInfo := (AuthInfo.zero, none) }

/-- Legacy functions that answer a fixed record, for examples. -/
def legacyStub : data.Legacy :=
  { FetchPullRequests := fun _ _ _ =>
      ({ Prs := [{ data.PullRequestData.zero with Number := 1 }], TotalCount := 1,
         PageInfo := PageInfo.zero }, none)
    FetchIssues := fun _ _ _ =>
      ({ Issues := [], TotalCount := 2, PageInfo := PageInfo.zero }, none)
    FetchPullRequest := fun _ => ({ data.PullRequestData.zero with Number := 1 }, none) }

/-- A section context in which the repository `acme/core` is checked out at `~/src/core`
and every subprocess succeeds. -/
def uiContextExample : UIContext :=
  { SectionId := 3
    SectionType := "prs"
    GetRepoLocalPath := fun repo => if repo = "acme/core" then some "~/src/core" else none
    UserHomeDir := "/home/dev"
    FullScreenDiffPagerEnv := ["GH_PAGER=less"]
    Run := fun _ => none
    Start := fun _ => none
    ExecProcess := fun _ => none }

/-- The pull request 42 of `acme/core`. -/
def prRowExample : PrRow :=
  { Number := 42, Title := "Fix", Url := "https://github.com/acme/core/pull/42",
    RepoNameWithOwner := "acme/core" }

/-- The Azure DevOps provider built from a configuration with the given organization,
project and token, and the default base URL. -/
def azureProviderOf (organization project token : String) : AzureDevOpsProvider :=
  NewAzureDevOpsProvider
    { Type_ := AzureDevOps, Organization := organization, Project := project, BaseURL := "",
      Token := token }

/-! ## `providers/provider.go`: detection by substring -/

/-- The function `findIndex`: the first position at which `substr` occurs in `s`, or `-1`.
Positions count characters; `contains` uses only the sign of the result. -/
def findIndex (s substr : List Char) : Int :=
  match (List.range (s.length + 1 - substr.length)).find?
      (fun i => decide ((s.drop i).take substr.length = substr)) with
  | some i => i
  | none => -1

/-- The function `contains`. -/
def contains (s substr : List Char) : Bool :=
  decide (s.length ≥ substr.length) &&
    (decide (substr.length = 0) || decide (findIndex s substr ≥ 0))

/-- The function `isAzureDevOpsURL`. -/
def isAzureDevOpsURL (url : String) : Bool :=
  contains url.data "dev.azure.com".data ||
    contains url.data "visualstudio.com".data ||
    contains url.data ".tfs.".data

/-- The function `DetectProviderFromURL`. -/
def DetectProviderFromURL (remoteURL : String) : ProviderType :=
  if isAzureDevOpsURL remoteURL then AzureDevOps else GitHub

/-! ## Further example collaborators -/

/-- A pull request record all of whose nested collections hold something. -/
def pullRequestWithNestedData : PullRequestData :=
  { PullRequestData.zero with
    Number := 42
    Title := "Fix the parser"
    AuthorLogin := "octocat"
    State := "OPEN"
    Repository := { Name := "core", NameWithOwner := "acme/core", IsArchived := false }
    Assignees := { Nodes := [{ Login := "hubot" }], TotalCount := 1 }
    Comments := { Nodes := [{ AuthorLogin := "hubot", Body := "ok", UpdatedAt := 5 }],
                  TotalCount := 1 }
    Reviews := { TotalCount := 1,
                 Nodes := [{ AuthorLogin := "hubot", Body := "", State := "APPROVED",
                             UpdatedAt := 6 }] }
    ReviewThreads := { Nodes := [{ Id := "t1", IsOutdated := false, OriginalLine := 1,
                                   StartLine := 1, Line := 2, Path := "a.go",
                                   Comments := { Nodes := [], TotalCount := 0 } }] }
    ReviewRequests := { TotalCount := 3, Nodes := [] }
    Files := { TotalCount := 1,
               Nodes := [{ Additions := 1, Deletions := 2, Path := "a.go",
                           ChangeType := "MODIFIED" }] }
    Commits := { Nodes := [{ Deployments := [], ContextsTotalCount := 0, Contexts := [] }],
                 TotalCount := 1 }
    Labels := { Nodes := [{ Color := "ff0000", Name := "bug" }] } }

/-- A capable provider whose `FetchPullRequests` answers the given response with a nil
error. -/
def providerAnswering (response : PullRequestsResponse) : GitProviderIface :=
  { stubProvider true true none ([], none) with
    FetchPullRequests := fun _ _ _ => (response, none) }

/-! ## Basic facts about the matcher -/

theorem run_seq (a b : Regex) (st : MState) :
    (Regex.seq a b).run st = (a.run st).flatMap b.run := rfl

theorem run_seq_assoc (a b d : Regex) (st : MState) :
    (Regex.seq (.seq a b) d).run st = (Regex.seq a (.seq b d)).run st := by
  show ((a.run st).flatMap b.run).flatMap d.run =
    (a.run st).flatMap (fun x => (b.run x).flatMap d.run)
  rw [List.flatMap_assoc]

theorem run_lit_append (l s : List Char) (c : List (List Char)) :
    (Regex.lit l).run (l ++ s, c) = [(s, c)] := by
  have h : l.isPrefixOf (l ++ s) = true := by
    rw [List.isPrefixOf_iff_prefix]; exact List.prefix_append l s
  simp [Regex.run, h]

theorem run_seq_lit_append (l s : List Char) (c : List (List Char)) (r : Regex) :
    (Regex.seq (.lit l) r).run (l ++ s, c) = r.run (s, c) := by
  simp [run_seq, run_lit_append]

theorem run_lit_cons_ne (k x : Char) (l t : List Char) (c : List (List Char)) (h : x ≠ k) :
    (Regex.lit (k :: l)).run (x :: t, c) = [] := by
  have : ¬ (k = x) := fun e => h e.symm
  simp [Regex.run, List.isPrefixOf, this]

theorem run_seq_lit_cons_ne (k x : Char) (l t : List Char) (c : List (List Char)) (r : Regex)
    (h : x ≠ k) : (Regex.seq (.lit (k :: l)) r).run (x :: t, c) = [] := by
  simp [run_seq, run_lit_cons_ne k x l t c h]

/-- Greedy repetition over `a ++ d :: rest`, where `a` lies in the class and `d` does not:
the first alternative stops right before `d`, every other one inside `a`. -/
theorem greedyRests_stop (p : Char → Bool) (a : List Char) (d : Char) (rest : List Char)
    (ha : a ≠ []) (hp : ∀ x ∈ a, p x = true) (hd : p d = false) :
    ∃ L, greedyRests p (a ++ d :: rest) = (d :: rest) :: L ∧
      ∀ t ∈ L, ∃ x ∈ a, ∃ t', t = x :: t' := by
  induction a with
  | nil => exact absurd rfl ha
  | cons x a ih =>
    have hx : p x = true := hp x (List.mem_cons_self _ _)
    by_cases ha' : a = []
    · subst ha'
      refine ⟨[], ?_, by simp⟩
      simp [greedyRests, hx, hd]
    · obtain ⟨L, hL, hall⟩ := ih ha' (fun y hy => hp y (List.mem_cons_of_mem _ hy))
      refine ⟨L ++ [a ++ d :: rest], ?_, ?_⟩
      · simp [greedyRests, hx, hL]
      · intro t ht
        rcases List.mem_append.1 ht with h | h
        · obtain ⟨y, hy, t', e⟩ := hall t h
          exact ⟨y, List.mem_cons_of_mem _ hy, t', e⟩
        · cases a with
          | nil => exact absurd rfl ha'
          | cons y a' =>
            simp only [List.mem_singleton] at h
            exact ⟨y, by simp, a' ++ d :: rest, by simpa using h⟩

/-- A greedy `([^c]+)` group followed by a pattern that cannot start inside the segment. -/
theorem run_group_plus_then (i : Nat) (cls : CharClass) (r : Regex) (a : List Char) (d : Char)
    (rest : List Char) (c : List (List Char))
    (ha : a ≠ []) (hp : ∀ x ∈ a, cls.test x = true) (hd : cls.test d = false)
    (hr : ∀ x ∈ a, ∀ t c', r.run (x :: t, c') = []) :
    (Regex.seq (.group i (.plus cls)) r).run (a ++ d :: rest, c) =
      r.run (d :: rest, c.set i a) := by
  obtain ⟨L, hL, hall⟩ := greedyRests_stop cls.test a d rest ha hp hd
  have hdead : ∀ t ∈ L, r.run (t, c.set i
      ((a ++ d :: rest).take ((a ++ d :: rest).length - t.length))) = [] := by
    intro t ht
    obtain ⟨x, hx, t', e⟩ := hall t ht
    rw [e]; exact hr x hx t' _
  simp only [run_seq, Regex.run, hL, List.map_cons, List.flatMap_cons]
  have h2 : (List.map (fun st : MState => (st.1, st.2.set i
      ((a ++ d :: rest).take ((a ++ d :: rest).length - st.1.length))))
      (List.map (fun s' => (s', c)) L)).flatMap r.run = [] := by
    rw [List.flatMap_eq_nil_iff]
    intro st hst
    simp only [List.mem_map, exists_exists_and_eq_and] at hst
    obtain ⟨t, ht, rfl⟩ := hst
    exact hdead t ht
  rw [h2, List.append_nil]
  simp

/-! ## The repository tail `(.+?)(?:\.git)?/?$` -/

theorem repoTail_eq (i : Nat) :
    repoTail i = .seq (.group i (.plusLazy .dot)) suffixTail := rfl

theorem mem_run_lit {l s : List Char} {c : List (List Char)} {st : MState} :
    st ∈ (Regex.lit l).run (s, c) ↔ s = l ++ st.1 ∧ st.2 = c := by
  obtain ⟨t, c'⟩ := st
  constructor
  · intro hm
    by_cases h : l.isPrefixOf s = true
    · obtain ⟨r, rfl⟩ := List.isPrefixOf_iff_prefix.1 h
      rw [run_lit_append] at hm
      simp only [List.mem_singleton, Prod.mk.injEq] at hm
      obtain ⟨rfl, rfl⟩ := hm
      exact ⟨rfl, rfl⟩
    · simp [Regex.run, h] at hm
  · rintro ⟨rfl, rfl⟩
    rw [run_lit_append]
    simp

theorem mem_run_eot {s : List Char} {c : List (List Char)} {st : MState} :
    st ∈ Regex.eot.run (s, c) ↔ s = [] ∧ st = ([], c) := by
  cases s <;> simp [Regex.run]

theorem suffixTail_run_of_mem (t : List Char) (c : List (List Char)) (h : t ∈ repoSuffixes) :
    suffixTail.run (t, c) = [([], c)] := by
  simp only [repoSuffixes, List.mem_cons, List.mem_singleton, List.not_mem_nil, or_false] at h
  rcases h with rfl | rfl | rfl | rfl <;> rfl

theorem suffixTail_run_of_not_mem (t : List Char) (c : List (List Char))
    (h : t ∉ repoSuffixes) : suffixTail.run (t, c) = [] := by
  rw [List.eq_nil_iff_forall_not_mem]
  intro st hst
  apply h
  simp only [suffixTail, run_seq, List.mem_flatMap] at hst
  obtain ⟨m1, hm1, m2, hm2, hst⟩ := hst
  obtain ⟨s1, c1⟩ := m1
  obtain ⟨s2, c2⟩ := m2
  have e2 : s2 = [] := (mem_run_eot.1 hst).1
  subst e2
  have h2 : s1 = [] ∨ s1 = "/".data := by
    simp only [Regex.run, List.mem_append, List.mem_singleton] at hm2
    rcases hm2 with hm2 | hm2
    · right
      have := (@mem_run_lit "/".data s1 c1 ([], c2)).1
        (by simpa [Regex.run] using hm2)
      simpa using this.1
    · left
      simpa using (Prod.mk.inj hm2).1.symm
  have h1 : t = s1 ∨ t = ".git".data ++ s1 := by
    simp only [Regex.run, List.mem_append, List.mem_singleton] at hm1
    rcases hm1 with hm1 | hm1
    · right
      have := (@mem_run_lit ".git".data t c (s1, c1)).1
        (by simpa [Regex.run] using hm1)
      exact this.1
    · left
      exact (Prod.mk.inj hm1).1.symm
  rcases h1 with rfl | rfl <;> rcases h2 with rfl | rfl <;> simp [repoSuffixes]

theorem lazyRests_append (p : Char → Bool) (y z : List Char) (hp : ∀ x ∈ y, p x = true) :
    lazyRests p (y ++ z) = (lazyRests p y).map (fun t => t ++ z) ++ lazyRests p z := by
  induction y with
  | nil => simp [lazyRests]
  | cons x y ih =>
    have hx : p x = true := hp x (List.mem_cons_self _ _)
    simp [lazyRests, hx, ih (fun a ha => hp a (List.mem_cons_of_mem _ ha))]

/-- On a non-empty text inside the class, the lazy alternatives are the non-empty proper
suffixes, longest first, and then the empty remainder. -/
theorem lazyRests_all (p : Char → Bool) (y : List Char) (hy : y ≠ [])
    (hp : ∀ x ∈ y, p x = true) :
    ∃ L, lazyRests p y = L ++ [[]] ∧ ∀ t ∈ L, t ≠ [] ∧ t <:+ y := by
  induction y with
  | nil => exact absurd rfl hy
  | cons x y ih =>
    have hx : p x = true := hp x (List.mem_cons_self _ _)
    by_cases hy' : y = []
    · subst hy'
      exact ⟨[], by simp [lazyRests, hx], by simp⟩
    · obtain ⟨L, hL, hall⟩ := ih hy' (fun a ha => hp a (List.mem_cons_of_mem _ ha))
      refine ⟨y :: L, by simp [lazyRests, hx, hL], ?_⟩
      intro t ht
      rcases List.mem_cons.1 ht with rfl | ht
      · exact ⟨hy', List.suffix_cons _ _⟩
      · exact ⟨(hall t ht).1, (hall t ht).2.trans (List.suffix_cons _ _)⟩

/-- A character outside the class stays in every lazy remainder. -/
theorem lazyRests_blocked (p : Char → Bool) (d : Char) (hd : p d = false)
    (y1 y2 : List Char) : ∀ t ∈ lazyRests p (y1 ++ d :: y2), d ∈ t := by
  induction y1 with
  | nil => simp [lazyRests, hd]
  | cons x y1 ih =>
    intro t ht
    by_cases hx : p x = true
    · simp only [List.cons_append, lazyRests, hx, if_true, List.mem_cons] at ht
      rcases ht with rfl | ht
      · simp
      · exact ih t ht
    · simp [lazyRests, hx] at ht

theorem run_group (i : Nat) (r : Regex) (s : List Char) (c : List (List Char)) :
    (Regex.group i r).run (s, c) =
      (r.run (s, c)).map fun st => (st.1, st.2.set i (s.take (s.length - st.1.length))) := rfl

theorem run_plusLazy (cls : CharClass) (s : List Char) (c : List (List Char)) :
    (Regex.plusLazy cls).run (s, c) = (lazyRests cls.test s).map fun s' => (s', c) := rfl

theorem run_plus (cls : CharClass) (s : List Char) (c : List (List Char)) :
    (Regex.plus cls).run (s, c) = (greedyRests cls.test s).map fun s' => (s', c) := rfl

theorem append_mem_repoSuffixes {t sfx : List Char} (hs : sfx ∈ repoSuffixes)
    (h : t ++ sfx ∈ repoSuffixes) : t ∈ repoSuffixes := by
  simp only [repoSuffixes, List.mem_cons, List.mem_singleton, List.not_mem_nil, or_false] at hs h
  rcases hs with rfl | rfl | rfl | rfl <;> rcases h with h | h | h | h <;>
    (have h' := congrArg List.reverse h; simp at h' <;> simp_all [repoSuffixes])

theorem flatMap_skip {α β : Type} (f : α → List β) (l1 l2 : List α)
    (h : ∀ t ∈ l1, f t = []) : (l1 ++ l2).flatMap f = l2.flatMap f := by
  rw [List.flatMap_append, List.flatMap_eq_nil_iff.2 h, List.nil_append]

theorem not_mem_repoSuffixes_of_suffix {t y : List Char} (ht : t ≠ []) (hs : t <:+ y)
    (hgit : ¬ ".git".data <:+ y) (hsl : ¬ "/".data <:+ y) : t ∉ repoSuffixes := by
  intro h
  simp only [repoSuffixes, List.mem_cons, List.mem_singleton, List.not_mem_nil, or_false] at h
  rcases h with rfl | rfl | rfl | rfl
  · exact ht rfl
  · exact hgit hs
  · exact hsl hs
  · exact hsl (List.IsSuffix.trans ⟨".git".data, rfl⟩ hs)

theorem newline_not_mem_repoSuffixes {t : List Char} (h : '\n' ∈ t) : t ∉ repoSuffixes := by
  intro ht
  simp only [repoSuffixes, List.mem_cons, List.mem_singleton, List.not_mem_nil, or_false] at ht
  rcases ht with rfl | rfl | rfl | rfl <;> revert h <;> decide

/-- The tail on `y ++ sfx`, where `y` does not itself end in `.git` or `/` and `sfx` is one
of the four admissible endings: the lazy group captures exactly `y`. -/
theorem repoTail_run_head (i : Nat) (y sfx : List Char) (c : List (List Char))
    (hy : y ≠ []) (hgit : ¬ ".git".data <:+ y) (hsl : ¬ "/".data <:+ y)
    (hs : sfx ∈ repoSuffixes) :
    ((repoTail i).run (y ++ sfx, c)).head? =
      if '\n' ∈ y then none else some ([], c.set i y) := by
  by_cases hn : '\n' ∈ y
  · rw [if_pos hn]
    obtain ⟨y1, y2, rfl⟩ := List.append_of_mem hn
    have hall := lazyRests_blocked CharClass.dot.test '\n' (by decide) y1 (y2 ++ sfx)
    have : (repoTail i).run (y1 ++ '\n' :: y2 ++ sfx, c) = [] := by
      rw [repoTail_eq, run_seq, List.flatMap_eq_nil_iff]
      intro st hst
      simp only [run_group, run_plusLazy, List.map_map, List.mem_map, Function.comp] at hst
      obtain ⟨t, ht, rfl⟩ := hst
      apply suffixTail_run_of_not_mem
      apply newline_not_mem_repoSuffixes
      apply hall
      simpa using ht
    rw [this]; rfl
  · rw [if_neg hn]
    have hp : ∀ x ∈ y, CharClass.dot.test x = true := by
      intro x hx
      have : x ≠ '\n' := fun e => hn (e ▸ hx)
      simp [CharClass.test, this]
    obtain ⟨L, hL, hall⟩ := lazyRests_all CharClass.dot.test y hy hp
    rw [repoTail_eq, run_seq]
    simp only [run_group, run_plusLazy, lazyRests_append _ y sfx hp, hL, List.map_append, List.map_map,
      List.map_cons, List.map_nil, List.append_assoc]
    rw [flatMap_skip]
    · simp only [List.flatMap_cons, Function.comp, List.singleton_append, List.head?_cons]
      simp
      left
      rw [suffixTail_run_of_mem _ _ hs]
      rfl
    · intro st hst
      simp only [List.mem_map, Function.comp] at hst
      obtain ⟨t, ht, rfl⟩ := hst
      apply suffixTail_run_of_not_mem
      intro hmem
      exact not_mem_repoSuffixes_of_suffix (hall t ht).1 (hall t ht).2 hgit hsl
        (append_mem_repoSuffixes hs hmem)

/-! ## `FindStringSubmatch`, `TrimSpace` -/

theorem matchAt_eq_head (re : Regex) (s : List Char) :
    matchAt re s = ((re.run (s, List.replicate (re.numSubexp + 1) [])).head?).map
      (fun st => st.2.set 0 (s.take (s.length - st.1.length))) := by
  unfold matchAt
  cases re.run (s, List.replicate (re.numSubexp + 1) []) <;> rfl

theorem FindStringSubmatch_of_matchAt {re : Regex} {s : List Char} {m : List (List Char)}
    (h : matchAt re s = some m) : FindStringSubmatch re s = some m := by
  cases s with
  | nil => simpa [FindStringSubmatch] using h
  | cons x s => simp [FindStringSubmatch, h]

theorem dropWhile_append_stop {α : Type} (f : α → Bool) (q : List α) (z : α) (w : List α)
    (hz : f z = false) : (q ++ z :: w).dropWhile f = q.dropWhile f ++ z :: w := by
  induction q with
  | nil => simp [List.dropWhile, hz]
  | cons x q ih =>
    by_cases hx : f x = true
    · simp [List.dropWhile, hx, ih]
    · simp [List.dropWhile, hx]

/-- Trimming a text that starts with a non-space character: only the right end changes. -/
theorem TrimSpace_cons_append (a z : Char) (p r : List Char) (ha : isSpace a = false)
    (hz : isSpace z = false) :
    TrimSpace (a :: (p ++ z :: r)) = a :: (p ++ z :: (r.reverse.dropWhile isSpace).reverse) := by
  unfold TrimSpace
  have h1 : (a :: (p ++ z :: r)).dropWhile isSpace = a :: (p ++ z :: r) := by
    simp [List.dropWhile, ha]
  rw [h1]
  have h2 : (a :: (p ++ z :: r)).reverse = r.reverse ++ z :: (a :: p).reverse := by simp
  rw [h2, dropWhile_append_stop isSpace _ z _ hz]
  simp

theorem TrimSpace_eq_self (a : Char) (s : List Char) (ha : isSpace a = false)
    (hl : ∀ c ∈ (a :: s).getLast?, isSpace c = false) : TrimSpace (a :: s) = a :: s := by
  unfold TrimSpace
  have h1 : (a :: s).dropWhile isSpace = a :: s := by simp [List.dropWhile, ha]
  rw [h1]
  rcases List.eq_nil_or_concat (a :: s) with h | ⟨w, z, h⟩
  · exact absurd h (by simp)
  · rw [h] at hl ⊢
    have hz : isSpace z = false := hl z (by simp)
    simp [List.dropWhile, hz]

theorem getLast?_append_of_ne_nil {α : Type} (l1 l2 : List α) (h : l2 ≠ []) :
    (l1 ++ l2).getLast? = l2.getLast? := by
  rcases List.eq_nil_or_concat l2 with h' | ⟨w, z, h'⟩
  · exact absurd h' h
  · subst h'
    simp [List.concat_eq_append, List.getLast?_append]

/-! ## The HTTPS patterns on well-formed URLs -/

theorem notChar_test_of_not_mem (k : Char) (a : List Char) (h : k ∉ a) :
    ∀ x ∈ a, (CharClass.notChar k).test x = true := by
  intro x hx
  have : x ≠ k := fun e => h (e ▸ hx)
  simp [CharClass.test, this]

theorem notChar_test_self (k : Char) : (CharClass.notChar k).test k = false := by
  simp [CharClass.test]

theorem run_seq_lit_singleton (k : Char) (s : List Char) (c : List (List Char)) (r : Regex) :
    (Regex.seq (.lit [k]) r).run (k :: s, c) = r.run (s, c) :=
  run_seq_lit_append [k] s c r

theorem reDevAzure_run (org proj y : List Char) (c : List (List Char))
    (ho : org ≠ []) (ho' : '/' ∉ org) (hp : proj ≠ []) (hp' : '/' ∉ proj) :
    reDevAzure.run ("https://dev.azure.com/".data ++ (org ++ '/' :: (proj ++
      ('/' :: '_' :: 'g' :: 'i' :: 't' :: '/' :: y))), c) =
      (repoTail 3).run (y, (c.set 1 org).set 2 proj) := by
  simp only [reDevAzure, Regex.concat]
  rw [run_seq_assoc, run_seq_lit_append, run_seq_assoc]
  rw [run_group_plus_then 1 _ _ org '/' _ c ho (notChar_test_of_not_mem _ _ ho')
    (notChar_test_self _)]
  · rw [run_seq_assoc]
    rw [run_seq_lit_singleton, run_seq_assoc]
    rw [run_group_plus_then 2 _ _ proj '/' _ _ hp (notChar_test_of_not_mem _ _ hp')
      (notChar_test_self _)]
    · exact run_seq_lit_append "/_git/".data y _ _
    · intro x hx t c'
      exact run_seq_lit_cons_ne '/' x _ t c' _ (fun e => hp' (e ▸ hx))
  · intro x hx t c'
    rw [run_seq_assoc]
    exact run_seq_lit_cons_ne '/' x _ t c' _ (fun e => ho' (e ▸ hx))

theorem data_ne_nil {s : String} (h : s ≠ "") : s.data ≠ [] :=
  fun e => h (String.ext e)

theorem reDevAzure_find (org proj y sfx : List Char)
    (ho : org ≠ []) (ho' : '/' ∉ org) (hp : proj ≠ []) (hp' : '/' ∉ proj)
    (hy : y ≠ []) (hn : '\n' ∉ y) (hgit : ¬ ".git".data <:+ y) (hsl : ¬ "/".data <:+ y)
    (hs : sfx ∈ repoSuffixes) :
    FindStringSubmatch reDevAzure ("https://dev.azure.com/".data ++ (org ++ '/' :: (proj ++
      ('/' :: '_' :: 'g' :: 'i' :: 't' :: '/' :: (y ++ sfx))))) =
    some ["https://dev.azure.com/".data ++ (org ++ '/' :: (proj ++
      ('/' :: '_' :: 'g' :: 'i' :: 't' :: '/' :: (y ++ sfx)))), org, proj, y] := by
  apply FindStringSubmatch_of_matchAt
  rw [matchAt_eq_head, reDevAzure_run org proj (y ++ sfx) _ ho ho' hp hp',
    repoTail_run_head 3 y sfx _ hy hgit hsl hs, if_neg hn]
  have h3 : reDevAzure.numSubexp = 3 := rfl
  simp [h3, List.replicate, List.set]

theorem cleanRemoteURL_of_cons (s : String) (a : Char) (t : List Char) (h : s.data = a :: t)
    (ha : isSpace a = false) (hg : a ≠ 'g')
    (hl : ∀ c ∈ (a :: t).getLast?, isSpace c = false) : cleanRemoteURL s = a :: t := by
  have hpre : HasPrefix (a :: t) "git@".data = false := by
    show ('g' :: "it@".data).isPrefixOf (a :: t) = false
    have : ¬ ('g' = a) := fun e => hg e.symm
    simp [List.isPrefixOf, this]
  unfold cleanRemoteURL
  rw [h, TrimSpace_eq_self a t ha hl]
  simp only [hpre]
  rfl

theorem ParseGitRemoteURL_of_azure (s : String) (url : List Char) (info : RemoteInfo)
    (hc : cleanRemoteURL s = url) (hp : parseAzureDevOpsURL url = some info) :
    ParseGitRemoteURL s = (some info, none) := by
  unfold ParseGitRemoteURL
  rw [hc]
  simp only [hp]

theorem ParseGitRemoteURL_of_not_azure (s : String) (url : List Char)
    (hc : cleanRemoteURL s = url) (hp : parseAzureDevOpsURL url = none) :
    ParseGitRemoteURL s = (some (parseGitHubURL url), none) := by
  unfold ParseGitRemoteURL
  rw [hc]
  simp only [hp]

theorem parseAzureDevOpsURL_of_devAzure {url w m1 m2 m3 : List Char}
    (h : FindStringSubmatch reDevAzure url = some [w, m1, m2, m3]) :
    parseAzureDevOpsURL url =
      some { Provider := AzureDevOps, Organization := ⟨m1⟩, Project := ⟨m2⟩,
             Repository := ⟨m3⟩, BaseURL := "https://dev.azure.com" } := by
  unfold parseAzureDevOpsURL
  rw [h]

/-- C1 (amended).  For every non-empty organization and project without `/`, and every
non-empty repository name that contains no newline, does not end in `.git` or `/` and
does not end in a white-space character, parsing
`https://dev.azure.com/{org}/{project}/_git/{repo}` returns a nil error and the Azure DevOps
remote with exactly these three segments and base URL `https://dev.azure.com`. -/
theorem parse_dev_azure_https (org project repo : String)
    (ho : org ≠ "") (ho' : '/' ∉ org.data) (hp : project ≠ "") (hp' : '/' ∉ project.data)
    (hr : repo ≠ "") (hn : '\n' ∉ repo.data) (hgit : ¬ ".git".data <:+ repo.data)
    (hsl : ¬ "/".data <:+ repo.data) (hsp : ∀ c ∈ repo.data.getLast?, isSpace c = false) :
    ParseGitRemoteURL ("https://dev.azure.com/" ++ org ++ "/" ++ project ++ "/_git/" ++ repo) =
      (some { Provider := AzureDevOps, Organization := org, Project := project,
              Repository := repo, BaseURL := "https://dev.azure.com" }, none) := by
  have hdata : ("https://dev.azure.com/" ++ org ++ "/" ++ project ++ "/_git/" ++ repo).data =
      'h' :: ("ttps://dev.azure.com/".data ++ (org.data ++ '/' :: (project.data ++
        ('/' :: '_' :: 'g' :: 'i' :: 't' :: '/' :: (repo.data ++ []))))) := by
    simp [String.data_append]
  have hlast : ∀ c ∈ ('h' :: ("ttps://dev.azure.com/".data ++ (org.data ++ '/' ::
      (project.data ++ ('/' :: '_' :: 'g' :: 'i' :: 't' :: '/' :: (repo.data ++ [])))))).getLast?,
      isSpace c = false := by
    have e : 'h' :: ("ttps://dev.azure.com/".data ++ (org.data ++ '/' ::
      (project.data ++ ('/' :: '_' :: 'g' :: 'i' :: 't' :: '/' :: (repo.data ++ []))))) =
      ('h' :: ("ttps://dev.azure.com/".data ++ (org.data ++ '/' ::
      (project.data ++ ['/', '_', 'g', 'i', 't', '/'])))) ++ repo.data := by simp
    rw [e, getLast?_append_of_ne_nil _ _ (data_ne_nil hr)]
    exact hsp
  exact ParseGitRemoteURL_of_azure _ _ _
    (cleanRemoteURL_of_cons _ 'h' _ hdata (by decide) (by decide) hlast)
    (parseAzureDevOpsURL_of_devAzure
      (reDevAzure_find org.data project.data repo.data [] (data_ne_nil ho) ho'
        (data_ne_nil hp) hp' (data_ne_nil hr) hn hgit hsl (by simp [repoSuffixes])))

/-- C1, witness of the amended statement: `acme`, `widgets`, `core`. -/
theorem parse_dev_azure_https_witness :
    ParseGitRemoteURL ("https://dev.azure.com/" ++ "acme" ++ "/" ++ "widgets" ++ "/_git/" ++ "core")
      = (some { Provider := AzureDevOps, Organization := "acme", Project := "widgets",
                Repository := "core", BaseURL := "https://dev.azure.com" }, none) :=
  parse_dev_azure_https "acme" "widgets" "core" (by decide) (by decide) (by decide) (by decide)
    (by decide) (by decide) (by decide) (by decide) (by decide)

/-- C1, counterexample to the claim as stated: the repository name `core ` (with a trailing
space) is non-empty, has no newline and ends neither in `.git` nor in `/`, yet the parser
returns the repository `core`, because the URL is trimmed first. -/
theorem parse_dev_azure_https_trailing_space :
    (("core " : String) ≠ "" ∧ '\n' ∉ ("core " : String).data ∧
      ¬ ".git".data <:+ ("core " : String).data ∧ ¬ "/".data <:+ ("core " : String).data) ∧
    ParseGitRemoteURL ("https://dev.azure.com/" ++ "acme" ++ "/" ++ "widgets" ++ "/_git/" ++ "core ")
      = (some { Provider := AzureDevOps, Organization := "acme", Project := "widgets",
                Repository := "core", BaseURL := "https://dev.azure.com" }, none) ∧
    ParseGitRemoteURL ("https://dev.azure.com/" ++ "acme" ++ "/" ++ "widgets" ++ "/_git/" ++ "core ")
      ≠ (some { Provider := AzureDevOps, Organization := "acme", Project := "widgets",
                Repository := "core ", BaseURL := "https://dev.azure.com" }, none) := by
  decide

theorem reGitHub_run (owner y : List Char) (c : List (List Char))
    (ho : owner ≠ []) (ho' : '/' ∉ owner) :
    reGitHub.run ("https://github.com/".data ++ (owner ++ '/' :: y), c) =
      (repoTail 2).run (y, c.set 1 owner) := by
  simp only [reGitHub, Regex.concat]
  rw [run_seq_assoc, run_seq_lit_append, run_seq_assoc]
  rw [run_group_plus_then 1 _ _ owner '/' _ c ho (notChar_test_of_not_mem _ _ ho')
    (notChar_test_self _)]
  · exact run_seq_lit_singleton '/' y _ _
  · intro x hx t c'
    exact run_seq_lit_cons_ne '/' x _ t c' _ (fun e => ho' (e ▸ hx))

theorem reGitHub_find (owner y sfx : List Char)
    (ho : owner ≠ []) (ho' : '/' ∉ owner)
    (hy : y ≠ []) (hn : '\n' ∉ y) (hgit : ¬ ".git".data <:+ y) (hsl : ¬ "/".data <:+ y)
    (hs : sfx ∈ repoSuffixes) :
    FindStringSubmatch reGitHub ("https://github.com/".data ++ (owner ++ '/' :: (y ++ sfx))) =
    some ["https://github.com/".data ++ (owner ++ '/' :: (y ++ sfx)), owner, y] := by
  apply FindStringSubmatch_of_matchAt
  rw [matchAt_eq_head, reGitHub_run owner (y ++ sfx) _ ho ho',
    repoTail_run_head 2 y sfx _ hy hgit hsl hs, if_neg hn]
  have h3 : reGitHub.numSubexp = 2 := rfl
  simp [h3, List.replicate, List.set]

theorem parseGitHubURL_of_find {url w m1 m2 : List Char}
    (h : FindStringSubmatch reGitHub url = some [w, m1, m2]) :
    parseGitHubURL url =
      { Provider := GitHub, Organization := ⟨m1⟩, Project := "", Repository := ⟨m2⟩,
        BaseURL := "https://github.com" } := by
  unfold parseGitHubURL
  rw [h]

/-- C2.  For every non-empty owner without `/` and every non-empty repository name that
contains no newline and does not end in `.git` or `/`, if
`https://github.com/{owner}/{repo}.git` matches none of the Azure DevOps grammars
(`parseAzureDevOpsURL` returns nil on it), `ParseGitRemoteURL` returns a nil error and the
GitHub remote with that owner and repository, an empty project and base URL
`https://github.com`. -/
theorem parse_github_https (owner repo : String)
    (ho : owner ≠ "") (ho' : '/' ∉ owner.data)
    (hr : repo ≠ "") (hn : '\n' ∉ repo.data) (hgit : ¬ ".git".data <:+ repo.data)
    (hsl : ¬ "/".data <:+ repo.data)
    (haz : parseAzureDevOpsURL ("https://github.com/" ++ owner ++ "/" ++ repo ++ ".git").data
      = none) :
    ParseGitRemoteURL ("https://github.com/" ++ owner ++ "/" ++ repo ++ ".git") =
      (some { Provider := GitHub, Organization := owner, Project := "", Repository := repo,
              BaseURL := "https://github.com" }, none) := by
  have hdata : ("https://github.com/" ++ owner ++ "/" ++ repo ++ ".git").data =
      'h' :: ("ttps://github.com/".data ++ (owner.data ++ '/' :: (repo.data ++ ".git".data))) := by
    simp [String.data_append]
  have hlast : ∀ c ∈ ('h' :: ("ttps://github.com/".data ++ (owner.data ++ '/' ::
      (repo.data ++ ".git".data)))).getLast?, isSpace c = false := by
    have e : 'h' :: ("ttps://github.com/".data ++ (owner.data ++ '/' ::
      (repo.data ++ ".git".data))) =
      ('h' :: ("ttps://github.com/".data ++ (owner.data ++ '/' :: repo.data))) ++ ".git".data := by
      simp
    rw [e, getLast?_append_of_ne_nil _ _ (by decide)]
    decide
  rw [hdata] at haz
  rw [ParseGitRemoteURL_of_not_azure _ _
    (cleanRemoteURL_of_cons _ 'h' _ hdata (by decide) (by decide) hlast) haz]
  have hf := parseGitHubURL_of_find
      (reGitHub_find owner.data repo.data ".git".data (data_ne_nil ho) ho'
        (data_ne_nil hr) hn hgit hsl (by simp [repoSuffixes]))
  have hf' : parseGitHubURL ('h' :: ("ttps://github.com/".data ++ (owner.data ++ '/' ::
      (repo.data ++ ".git".data)))) = _ := hf
  rw [hf']

/-- C2, witness: owner `acme`, repository `core`. -/
theorem parse_github_https_witness :
    ParseGitRemoteURL ("https://github.com/" ++ "acme" ++ "/" ++ "core" ++ ".git") =
      (some { Provider := GitHub, Organization := "acme", Project := "", Repository := "core",
              BaseURL := "https://github.com" }, none) :=
  parse_github_https "acme" "core" (by decide) (by decide) (by decide) (by decide) (by decide)
    (by decide) (by decide)

/-- C3.  If the cleaned URL (trimmed, SSH form rewritten) matches none of the three Azure
DevOps patterns nor the GitHub pattern, `ParseGitRemoteURL` returns a nil error and exactly
the sentinel `unknown`/`unknown` GitHub remote; and for every input whatsoever the
returned pointer is non-nil and the returned error is nil. -/
theorem parse_unclassified (s : String)
    (h0 : FindStringSubmatch reDevAzure (cleanRemoteURL s) = none)
    (h1 : FindStringSubmatch reVisualStudio (cleanRemoteURL s) = none)
    (h2 : FindStringSubmatch reTfs (cleanRemoteURL s) = none)
    (h3 : FindStringSubmatch reGitHub (cleanRemoteURL s) = none) :
    ParseGitRemoteURL s =
      (some { Provider := GitHub, Organization := "unknown", Project := "",
              Repository := "unknown", BaseURL := "https://github.com" }, none) ∧
    ∀ t : String, (ParseGitRemoteURL t).1 ≠ none ∧ (ParseGitRemoteURL t).2 = none := by
  constructor
  · have haz : parseAzureDevOpsURL (cleanRemoteURL s) = none := by
      unfold parseAzureDevOpsURL
      rw [h0, h1, h2]
    rw [ParseGitRemoteURL_of_not_azure s _ rfl haz]
    unfold parseGitHubURL
    rw [h3]
    rfl
  · intro t
    cases h : parseAzureDevOpsURL (cleanRemoteURL t) with
    | none => rw [ParseGitRemoteURL_of_not_azure t _ rfl h]; simp
    | some info => rw [ParseGitRemoteURL_of_azure t _ info rfl h]; simp

/-- C3, witness: `not a url`. -/
theorem parse_unclassified_witness :
    ParseGitRemoteURL "not a url" =
      (some { Provider := GitHub, Organization := "unknown", Project := "",
              Repository := "unknown", BaseURL := "https://github.com" }, none) :=
  (parse_unclassified "not a url" (by decide) (by decide) (by decide) (by decide)).1

/-! ## Captures keep their number -/

theorem run_caps_length (re : Regex) :
    ∀ (st st' : MState), st' ∈ re.run st → st'.2.length = st.2.length := by
  induction re with
  | lit l =>
    rintro ⟨s, c⟩ st' h
    exact congrArg List.length (mem_run_lit.1 h).2
  | plus cls =>
    rintro ⟨s, c⟩ st' h
    rw [run_plus] at h
    obtain ⟨t, _, rfl⟩ := List.mem_map.1 h
    rfl
  | plusLazy cls =>
    rintro ⟨s, c⟩ st' h
    rw [run_plusLazy] at h
    obtain ⟨t, _, rfl⟩ := List.mem_map.1 h
    rfl
  | opt r ih =>
    intro st st' h
    simp only [Regex.run, List.mem_append, List.mem_singleton] at h
    rcases h with h | rfl
    · exact ih st st' h
    · rfl
  | group i r ih =>
    rintro ⟨s, c⟩ st' h
    rw [run_group] at h
    obtain ⟨m, hm, rfl⟩ := List.mem_map.1 h
    simpa using ih (s, c) m hm
  | seq a b iha ihb =>
    intro st st' h
    rw [run_seq] at h
    obtain ⟨m, hm, hst⟩ := List.mem_flatMap.1 h
    rw [ihb m st' hst, iha st m hm]
  | eot =>
    rintro ⟨s, c⟩ st' h
    rw [(mem_run_eot.1 h).2]

theorem matchAt_length {re : Regex} {s : List Char} {m : List (List Char)}
    (h : matchAt re s = some m) : m.length = re.numSubexp + 1 := by
  rw [matchAt_eq_head] at h
  cases hr : re.run (s, List.replicate (re.numSubexp + 1) []) with
  | nil => rw [hr] at h; simp at h
  | cons st l =>
    rw [hr] at h
    simp only [List.head?_cons, Option.map_some', Option.some.injEq] at h
    rw [← h, List.length_set, run_caps_length re _ st (hr ▸ List.mem_cons_self _ _)]
    simp

theorem FindStringSubmatch_length {re : Regex} {s : List Char} {m : List (List Char)}
    (h : FindStringSubmatch re s = some m) : m.length = re.numSubexp + 1 := by
  induction s with
  | nil => exact matchAt_length (by simpa [FindStringSubmatch] using h)
  | cons x s ih =>
    unfold FindStringSubmatch at h
    cases hm : matchAt re (x :: s) with
    | some m' =>
      rw [hm] at h
      simp only [Option.some.injEq] at h
      exact h ▸ matchAt_length hm
    | none =>
      rw [hm] at h
      exact ih h

theorem length_eq_four {α : Type} {m : List α} (h : m.length = 4) :
    ∃ a b c d, m = [a, b, c, d] := by
  match m, h with
  | [a, b, c, d], _ => exact ⟨a, b, c, d, rfl⟩

theorem length_eq_five {α : Type} {m : List α} (h : m.length = 5) :
    ∃ a b c d e, m = [a, b, c, d, e] := by
  match m, h with
  | [a, b, c, d, e], _ => exact ⟨a, b, c, d, e, rfl⟩

theorem length_eq_three {α : Type} {m : List α} (h : m.length = 3) :
    ∃ a b c, m = [a, b, c] := by
  match m, h with
  | [a, b, c], _ => exact ⟨a, b, c, rfl⟩

/-- `parseAzureDevOpsURL` returns nil exactly when none of its three patterns matches, and
otherwise a remote whose provider is Azure DevOps. -/
theorem parseAzureDevOpsURL_eq_none_iff (url : List Char) :
    parseAzureDevOpsURL url = none ↔
      FindStringSubmatch reDevAzure url = none ∧ FindStringSubmatch reVisualStudio url = none ∧
        FindStringSubmatch reTfs url = none := by
  unfold parseAzureDevOpsURL
  cases h0 : FindStringSubmatch reDevAzure url with
  | some m =>
    obtain ⟨a, b, c, d, rfl⟩ := length_eq_four (FindStringSubmatch_length h0)
    simp
  | none =>
    cases h1 : FindStringSubmatch reVisualStudio url with
    | some m =>
      obtain ⟨a, b, c, d, rfl⟩ := length_eq_four (FindStringSubmatch_length h1)
      simp
    | none =>
      cases h2 : FindStringSubmatch reTfs url with
      | some m =>
        obtain ⟨a, b, c, d, e, rfl⟩ := length_eq_five (FindStringSubmatch_length h2)
        simp
      | none => simp

theorem parseAzureDevOpsURL_provider {url : List Char} {info : RemoteInfo}
    (h : parseAzureDevOpsURL url = some info) : info.Provider = AzureDevOps := by
  unfold parseAzureDevOpsURL at h
  split at h
  · simp only [Option.some.injEq] at h; rw [← h]
  · split at h
    · simp only [Option.some.injEq] at h; rw [← h]
    · split at h
      · simp only [Option.some.injEq] at h; rw [← h]
      · exact absurd h (by simp)

theorem parseGitHubURL_provider (url : List Char) : (parseGitHubURL url).Provider = GitHub := by
  unfold parseGitHubURL
  split <;> rfl

/-- C6, the code at the failing input: the GitHub SSH remote without `.git` is left in its
SSH form and classified as the `unknown` sentinel, while the same remote with `.git` is
parsed into owner `acme` and repository `core`. -/
theorem parse_github_ssh_without_git_suffix :
    ParseGitRemoteURL "git@github.com:acme/core" =
      (some { Provider := GitHub, Organization := "unknown", Project := "",
              Repository := "unknown", BaseURL := "https://github.com" }, none) ∧
    ParseGitRemoteURL "git@github.com:acme/core.git" =
      (some { Provider := GitHub, Organization := "acme", Project := "",
              Repository := "core", BaseURL := "https://github.com" }, none) ∧
    cleanRemoteURL "git@github.com:acme/core" = "git@github.com:acme/core".data := by
  decide

/-- C7, counterexample to the claim as stated: the URL `https://dev.azure.com/o/p/_git/ `
(repository a single space) matches the `dev.azure.com` pattern, yet `ParseGitRemoteURL`
returns the GitHub sentinel, because the pattern is tried on the trimmed URL. -/
theorem azure_match_lost_by_trimming :
    FindStringSubmatch reDevAzure "https://dev.azure.com/o/p/_git/ ".data =
      some ["https://dev.azure.com/o/p/_git/ ".data, "o".data, "p".data, " ".data] ∧
    ParseGitRemoteURL "https://dev.azure.com/o/p/_git/ " =
      (some { Provider := GitHub, Organization := "unknown", Project := "",
              Repository := "unknown", BaseURL := "https://github.com" }, none) := by
  decide

/-- C7 (amended).  Azure DevOps takes priority on the cleaned URL: whenever the URL, after
whitespace trimming and SSH rewriting, matches at least one of the three Azure DevOps
patterns, the result has provider Azure DevOps; a result with provider GitHub is returned
only when none of the three matches the cleaned URL; and
`https://github.com/a/https://dev.azure.com/o/p/_git/r`, which also matches the GitHub
pattern, is classified as Azure DevOps. -/
theorem azure_takes_priority (s : String) :
    ((FindStringSubmatch reDevAzure (cleanRemoteURL s) ≠ none ∨
        FindStringSubmatch reVisualStudio (cleanRemoteURL s) ≠ none ∨
        FindStringSubmatch reTfs (cleanRemoteURL s) ≠ none) →
      ∃ info, ParseGitRemoteURL s = (some info, none) ∧ info.Provider = AzureDevOps) ∧
    (∀ info, (ParseGitRemoteURL s).1 = some info → info.Provider = GitHub →
      FindStringSubmatch reDevAzure (cleanRemoteURL s) = none ∧
      FindStringSubmatch reVisualStudio (cleanRemoteURL s) = none ∧
      FindStringSubmatch reTfs (cleanRemoteURL s) = none) ∧
    (FindStringSubmatch reGitHub
        (cleanRemoteURL "https://github.com/a/https://dev.azure.com/o/p/_git/r") ≠ none ∧
      ParseGitRemoteURL "https://github.com/a/https://dev.azure.com/o/p/_git/r" =
        (some { Provider := AzureDevOps, Organization := "o", Project := "p",
                Repository := "r", BaseURL := "https://dev.azure.com" }, none)) := by
  refine ⟨?_, ?_, by decide⟩
  · intro h
    cases hp : parseAzureDevOpsURL (cleanRemoteURL s) with
    | none =>
      obtain ⟨h0, h1, h2⟩ := (parseAzureDevOpsURL_eq_none_iff _).1 hp
      rcases h with h | h | h
      · exact absurd h0 h
      · exact absurd h1 h
      · exact absurd h2 h
    | some info =>
      exact ⟨info, ParseGitRemoteURL_of_azure s _ info rfl hp, parseAzureDevOpsURL_provider hp⟩
  · intro info hinfo hgh
    cases hp : parseAzureDevOpsURL (cleanRemoteURL s) with
    | none => exact (parseAzureDevOpsURL_eq_none_iff _).1 hp
    | some info' =>
      rw [ParseGitRemoteURL_of_azure s _ info' rfl hp] at hinfo
      simp only [Option.some.injEq] at hinfo
      have := parseAzureDevOpsURL_provider hp
      rw [hinfo, hgh] at this
      exact absurd this (by decide)

/-- C8.  `convertAzurePRToData` maps the status `completed` to the state `merged`,
`abandoned` to `closed`, and every other status (the empty one and differently-cased
variants included) to `open`; the state is always one of the three. -/
theorem azure_state_normalisation (azurePR : AzurePullRequest) :
    (azurePR.Status = "completed" → (convertAzurePRToData azurePR).State = "merged") ∧
    (azurePR.Status = "abandoned" → (convertAzurePRToData azurePR).State = "closed") ∧
    (azurePR.Status ≠ "completed" → azurePR.Status ≠ "abandoned" →
      (convertAzurePRToData azurePR).State = "open") ∧
    (convertAzurePRToData { azurePR with Status := "" }).State = "open" ∧
    (convertAzurePRToData { azurePR with Status := "Completed" }).State = "open" ∧
    (convertAzurePRToData { azurePR with Status := "ABANDONED" }).State = "open" ∧
    ((convertAzurePRToData azurePR).State = "merged" ∨
      (convertAzurePRToData azurePR).State = "closed" ∨
      (convertAzurePRToData azurePR).State = "open") := by
  refine ⟨?_, ?_, ?_, ?_, ?_, ?_, ?_⟩
  · intro h; simp [convertAzurePRToData, h]
  · intro h; simp [convertAzurePRToData, h]
  · intro h1 h2; simp [convertAzurePRToData, h1, h2]
  · simp [convertAzurePRToData]
  · simp [convertAzurePRToData]
  · simp [convertAzurePRToData]
  · simp only [convertAzurePRToData]
    split_ifs <;> simp

/-- The value of the first non-empty variable among `AZURE_DEVOPS_TOKEN`, `ADO_PAT` and
`AZURE_PAT`, empty when all three are empty. -/
theorem getTokenFromEnvironment_azure (w : World) :
    getTokenFromEnvironment w AzureDevOps =
      if w.Getenv "AZURE_DEVOPS_TOKEN" ≠ "" then w.Getenv "AZURE_DEVOPS_TOKEN"
      else if w.Getenv "ADO_PAT" ≠ "" then w.Getenv "ADO_PAT"
      else w.Getenv "AZURE_PAT" := by
  have h : ¬ (AzureDevOps = GitHub) := by decide
  unfold getTokenFromEnvironment
  rw [if_neg h, if_pos rfl]
  by_cases h1 : w.Getenv "AZURE_DEVOPS_TOKEN" = ""
  · by_cases h2 : w.Getenv "ADO_PAT" = ""
    · by_cases h3 : w.Getenv "AZURE_PAT" = ""
      · simp [h1, h2, h3]
      · simp [h1, h2, h3]
    · simp [h1, h2]
  · simp [h1]

/-- C9.  For every environment and every Azure DevOps configuration with an empty token,
the token handed to the factory by `InitializeProvider` is the value of
`AZURE_DEVOPS_TOKEN` if non-empty, else that of `ADO_PAT` if non-empty, else that of
`AZURE_PAT`; a non-empty configured token is kept, whatever the environment and the
provider type; and with an explicit Azure DevOps section the active provider carries
exactly that token. -/
theorem token_resolution (w : World) (providerConfig : ProviderConfig) :
    (providerConfig.Type_ = AzureDevOps → providerConfig.Token = "" →
      (addEnvironmentToken w providerConfig).Token =
        if w.Getenv "AZURE_DEVOPS_TOKEN" ≠ "" then w.Getenv "AZURE_DEVOPS_TOKEN"
        else if w.Getenv "ADO_PAT" ≠ "" then w.Getenv "ADO_PAT"
        else w.Getenv "AZURE_PAT") ∧
    (providerConfig.Token ≠ "" → addEnvironmentToken w providerConfig = providerConfig) ∧
    (∀ (pm : ProviderManager) (p : ConfigProvider) (repoPath : String),
      p.Type_ = AzureDevOps →
      ∃ a : AzureDevOpsProvider,
        (InitializeProvider w pm { Provider := some p } repoPath).1.current = some (.azure a) ∧
        a.token =
          if p.Token ≠ "" then p.Token
          else if w.Getenv "AZURE_DEVOPS_TOKEN" ≠ "" then w.Getenv "AZURE_DEVOPS_TOKEN"
          else if w.Getenv "ADO_PAT" ≠ "" then w.Getenv "ADO_PAT"
          else w.Getenv "AZURE_PAT") := by
  refine ⟨?_, ?_, ?_⟩
  · intro ht hk
    unfold addEnvironmentToken
    rw [if_pos hk, ht]
    exact getTokenFromEnvironment_azure w
  · intro hk
    unfold addEnvironmentToken
    rw [if_neg hk]
  · intro pm p repoPath ht
    have hne : ¬ (AzureDevOps = GitHub) := by decide
    by_cases hk : p.Token = ""
    · refine ⟨NewAzureDevOpsProvider
        { Type_ := p.Type_, Organization := p.Organization, Project := p.Project,
          BaseURL := p.BaseURL, Token := getTokenFromEnvironment w p.Type_ }, ?_, ?_⟩
      · simp [InitializeProvider, selectProviderConfig, addEnvironmentToken, hk, NewProvider,
          ht, hne]
      · simp only [NewAzureDevOpsProvider, ht, getTokenFromEnvironment_azure, hk]
        simp
    · refine ⟨NewAzureDevOpsProvider
        { Type_ := p.Type_, Organization := p.Organization, Project := p.Project,
          BaseURL := p.BaseURL, Token := p.Token }, ?_, ?_⟩
      · simp [InitializeProvider, selectProviderConfig, addEnvironmentToken, hk, NewProvider,
          ht, hne]
      · simp [NewAzureDevOpsProvider, hk]

/-- C9, witness: explicit `azure-devops` section without token, `ADO_PAT` set and
`AZURE_DEVOPS_TOKEN` unset; the resolved token is the value of `ADO_PAT`. -/
theorem token_resolution_witness :
    (addEnvironmentToken worldWithAdoPat
      { Type_ := AzureDevOps, Organization := "acme", Project := "widgets", BaseURL := "",
        Token := "" }).Token = "pat-from-ado" :=
  (token_resolution worldWithAdoPat
    { Type_ := AzureDevOps, Organization := "acme", Project := "widgets", BaseURL := "",
      Token := "" }).1 rfl rfl

/-- C10, counterexample to the claim as stated: with the unrecognized type `gitlab`, and
the GitHub CLI client unavailable, `NewProvider` returns an error. -/
theorem new_provider_unrecognized_can_fail :
    ("gitlab" ≠ GitHub ∧ "gitlab" ≠ AzureDevOps) ∧
    NewProvider worldWithoutGitHubAuth
      { Type_ := "gitlab", Organization := "", Project := "", BaseURL := "", Token := "" } =
      .error (.new "authentication token not found for host github.com") :=
  ⟨by decide, rfl⟩

/-- C10 (amended).  For every configuration whose type is neither `github` nor
`azure-devops` (the empty type included), `NewProvider` returns exactly what
`NewGitHubProvider` returns: whenever the GitHub client can be constructed, a nil error
and a provider whose `GetType()` is GitHub; otherwise the error of the client
constructor.  The unrecognized type is never itself a cause of failure. -/
theorem new_provider_unrecognized (w : World) (config : ProviderConfig)
    (hg : config.Type_ ≠ GitHub) (ha : config.Type_ ≠ AzureDevOps) :
    NewProvider w config = NewGitHubProvider w config ∧
    (∀ client, (if w.mockData then w.NewGraphQLClient "localhost:3000" "fake-token"
        else w.DefaultGraphQLClient) = .ok client →
      ∃ p, NewProvider w config = .ok p ∧ p.GetType = GitHub) ∧
    (∀ err, NewProvider w config = .error err →
      (if w.mockData then w.NewGraphQLClient "localhost:3000" "fake-token"
        else w.DefaultGraphQLClient) = .error err) := by
  have h0 : NewProvider w config = NewGitHubProvider w config := by
    unfold NewProvider
    rw [if_neg hg, if_neg ha]
  refine ⟨h0, ?_, ?_⟩
  · intro client hc
    refine ⟨.github { client := client, config := config }, ?_, rfl⟩
    rw [h0]
    unfold NewGitHubProvider
    simp only [hc]
  · intro err he
    rw [h0] at he
    unfold NewGitHubProvider at he
    cases hc : (if w.mockData then w.NewGraphQLClient "localhost:3000" "fake-token"
        else w.DefaultGraphQLClient) with
    | error e =>
      simp only [hc] at he
      injection he with he
      rw [he]
    | ok c =>
      simp only [hc] at he
      exact absurd he (by simp)

/-- C10, witness of the amended statement: the type `gitlab` and the empty type, in an
environment where the GitHub client is available. -/
theorem new_provider_unrecognized_witness :
    (∃ p, NewProvider worldWithAdoPat
        { Type_ := "gitlab", Organization := "", Project := "", BaseURL := "", Token := "" }
        = .ok p ∧ p.GetType = GitHub) ∧
    NewProvider worldWithAdoPat
        { Type_ := "", Organization := "", Project := "", BaseURL := "", Token := "" } =
      NewGitHubProvider worldWithAdoPat
        { Type_ := "", Organization := "", Project := "", BaseURL := "", Token := "" } :=
  ⟨(new_provider_unrecognized worldWithAdoPat
      { Type_ := "gitlab", Organization := "", Project := "", BaseURL := "", Token := "" }
      (by decide) (by decide)).2.1 _ rfl,
   (new_provider_unrecognized worldWithAdoPat
      { Type_ := "", Organization := "", Project := "", BaseURL := "", Token := "" }
      (by decide) (by decide)).1⟩

/-! ## The matcher only moves forward -/

theorem greedyRests_mem {p : Char → Bool} {s r : List Char} (h : r ∈ greedyRests p s) :
    ∃ a, a ≠ [] ∧ s = a ++ r ∧ ∀ x ∈ a, p x = true := by
  induction s with
  | nil => simp [greedyRests] at h
  | cons x s ih =>
    by_cases hx : p x = true
    · simp only [greedyRests, hx, if_true, List.mem_append, List.mem_singleton] at h
      rcases h with h | rfl
      · obtain ⟨a, _, e, ha⟩ := ih h
        refine ⟨x :: a, by simp, by simp [e], ?_⟩
        intro y hy
        rcases List.mem_cons.1 hy with rfl | hy
        · exact hx
        · exact ha y hy
      · exact ⟨[x], by simp, rfl, by simpa using hx⟩
    · simp [greedyRests, hx] at h

theorem lazyRests_mem {p : Char → Bool} {s r : List Char} (h : r ∈ lazyRests p s) :
    ∃ a, a ≠ [] ∧ s = a ++ r ∧ ∀ x ∈ a, p x = true := by
  induction s with
  | nil => simp [lazyRests] at h
  | cons x s ih =>
    by_cases hx : p x = true
    · simp only [lazyRests, hx, if_true, List.mem_cons] at h
      rcases h with rfl | h
      · exact ⟨[x], by simp, rfl, by simpa using hx⟩
      · obtain ⟨a, _, e, ha⟩ := ih h
        refine ⟨x :: a, by simp, by simp [e], ?_⟩
        intro y hy
        rcases List.mem_cons.1 hy with rfl | hy
        · exact hx
        · exact ha y hy
    · simp [lazyRests, hx] at h

/-- The text left by a match is a suffix of the text it started from. -/
theorem run_suffix (re : Regex) :
    ∀ (st st' : MState), st' ∈ re.run st → st'.1 <:+ st.1 := by
  induction re with
  | lit l =>
    rintro ⟨s, c⟩ st' h
    exact ⟨l, (mem_run_lit.1 h).1.symm⟩
  | plus cls =>
    rintro ⟨s, c⟩ st' h
    rw [run_plus] at h
    obtain ⟨t, ht, rfl⟩ := List.mem_map.1 h
    obtain ⟨a, _, e, _⟩ := greedyRests_mem ht
    exact ⟨a, e.symm⟩
  | plusLazy cls =>
    rintro ⟨s, c⟩ st' h
    rw [run_plusLazy] at h
    obtain ⟨t, ht, rfl⟩ := List.mem_map.1 h
    obtain ⟨a, _, e, _⟩ := lazyRests_mem ht
    exact ⟨a, e.symm⟩
  | opt r ih =>
    intro st st' h
    simp only [Regex.run, List.mem_append, List.mem_singleton] at h
    rcases h with h | rfl
    · exact ih st st' h
    · exact List.suffix_refl _
  | group i r ih =>
    rintro ⟨s, c⟩ st' h
    rw [run_group] at h
    obtain ⟨m, hm, rfl⟩ := List.mem_map.1 h
    exact ih (s, c) m hm
  | seq a b iha ihb =>
    intro st st' h
    rw [run_seq] at h
    obtain ⟨m, hm, hst⟩ := List.mem_flatMap.1 h
    exact (ihb m st' hst).trans (iha st m hm)
  | eot =>
    rintro ⟨s, c⟩ st' h
    rw [(mem_run_eot.1 h).2, (mem_run_eot.1 h).1]

theorem run_length_le (re : Regex) (st st' : MState) (h : st' ∈ re.run st) :
    st'.1.length ≤ st.1.length :=
  (run_suffix re st st' h).length_le

/-! ## Appending text that no match reaches

`liveAt n` keeps the states that still have more than `n` characters to read; with
`n = sfx.length` these are the states of a run on `t ++ sfx` that have not touched `sfx`. -/

theorem filter_flatMap {α β : Type} (q : β → Bool) (f : α → List β) (l : List α) :
    (l.flatMap f).filter q = l.flatMap (fun x => (f x).filter q) := by
  induction l with
  | nil => rfl
  | cons x l ih => simp [List.flatMap_cons, List.filter_append, ih]

theorem flatMap_filter_dead {α β : Type} (q : α → Bool) (f : α → List β) (l : List α)
    (h : ∀ x ∈ l, q x = false → f x = []) : (l.filter q).flatMap f = l.flatMap f := by
  induction l with
  | nil => rfl
  | cons x l ih =>
    have ih' := ih (fun y hy => h y (List.mem_cons_of_mem _ hy))
    by_cases hq : q x = true
    · simp [List.filter_cons, hq, List.flatMap_cons, ih']
    · have hq' : q x = false := by simpa using hq
      simp [List.filter_cons, hq', List.flatMap_cons, ih', h x (List.mem_cons_self _ _) hq']

theorem greedyRests_length_lt {p : Char → Bool} {s r : List Char} (h : r ∈ greedyRests p s) :
    r.length < s.length := by
  obtain ⟨a, ha, e, _⟩ := greedyRests_mem h
  have : 0 < a.length := List.length_pos.2 ha
  rw [e, List.length_append]; omega

theorem lazyRests_length_lt {p : Char → Bool} {s r : List Char} (h : r ∈ lazyRests p s) :
    r.length < s.length := by
  obtain ⟨a, ha, e, _⟩ := lazyRests_mem h
  have : 0 < a.length := List.length_pos.2 ha
  rw [e, List.length_append]; omega

theorem greedyRests_append_filter (p : Char → Bool) (sfx t : List Char) :
    (greedyRests p (t ++ sfx)).filter (fun r => decide (sfx.length < r.length)) =
      ((greedyRests p t).filter (fun r => !r.isEmpty)).map (fun r => r ++ sfx) := by
  induction t with
  | nil =>
    simp only [List.nil_append, greedyRests, List.filter_nil, List.map_nil]
    rw [List.filter_eq_nil_iff]
    intro r hr
    have := greedyRests_length_lt hr
    simp; omega
  | cons x t ih =>
    by_cases hx : p x = true
    · simp only [List.cons_append, greedyRests, hx, if_true, List.filter_append, ih,
        List.map_append]
      congr 1
      cases t with
      | nil => simp
      | cons y t =>
        have : sfx.length < t.length + sfx.length + 1 := by omega
        simp [List.filter_cons, this]
    · simp [greedyRests, hx]

theorem lazyRests_append_filter (p : Char → Bool) (sfx t : List Char) :
    (lazyRests p (t ++ sfx)).filter (fun r => decide (sfx.length < r.length)) =
      ((lazyRests p t).filter (fun r => !r.isEmpty)).map (fun r => r ++ sfx) := by
  induction t with
  | nil =>
    simp only [List.nil_append, lazyRests, List.filter_nil, List.map_nil]
    rw [List.filter_eq_nil_iff]
    intro r hr
    have := lazyRests_length_lt hr
    simp; omega
  | cons x t ih =>
    by_cases hx : p x = true
    · simp only [List.cons_append, lazyRests, hx, if_true]
      cases t with
      | nil =>
        simp only [List.nil_append] at ih ⊢
        simp [List.filter_cons, ih]
      | cons y t =>
        have : sfx.length < t.length + sfx.length + 1 := by omega
        simp only [List.cons_append] at ih
        rw [List.filter_cons, List.filter_cons]
        simp [ih, this]
    · simp [lazyRests, hx]

theorem liveAt_liftState (sfx : List Char) (st : MState) :
    liveAt sfx.length (liftState sfx st) = liveAt 0 st := by
  simp [liveAt, liftState]

/-- A run on `t ++ sfx` and the run on `t` have the same states before `sfx` is touched,
in the same order. -/
theorem run_append_live (sfx : List Char) (re : Regex) :
    ∀ (t : List Char) (c : List (List Char)),
      (re.run (t ++ sfx, c)).filter (liveAt sfx.length) =
        ((re.run (t, c)).filter (liveAt 0)).map (liftState sfx) := by
  induction re with
  | lit l =>
    intro t c
    by_cases h : l.isPrefixOf t = true
    · obtain ⟨r, rfl⟩ := List.isPrefixOf_iff_prefix.1 h
      rw [List.append_assoc, run_lit_append, run_lit_append]
      cases r with
      | nil => simp [liveAt, List.filter_cons]
      | cons y r =>
        have : sfx.length < r.length + sfx.length + 1 := by omega
        simp [liveAt, List.filter_cons, liftState, this]
    · have h1 : (Regex.lit l).run (t, c) = [] := by simp [Regex.run, h]
      rw [h1]
      simp only [List.filter_nil, List.map_nil]
      rw [List.filter_eq_nil_iff]
      intro st hst
      obtain ⟨e, _⟩ := mem_run_lit.1 hst
      have hlen : st.1.length ≤ sfx.length := by
        by_contra hlt
        apply h
        rw [List.isPrefixOf_iff_prefix]
        have hl : l.length ≤ t.length := by
          have := congrArg List.length e
          simp only [List.length_append] at this
          omega
        exact @List.prefix_of_prefix_length_le _ l t (t ++ sfx) ⟨st.1, e.symm⟩
          (List.prefix_append t sfx) hl
      simp [liveAt]; omega
  | plus cls =>
    intro t c
    rw [run_plus, run_plus]
    have e1 : (liveAt sfx.length ∘ fun s' : List Char => (s', c)) =
        fun r => decide (sfx.length < r.length) := rfl
    have e2 : (liveAt 0 ∘ fun s' : List Char => (s', c)) = fun r : List Char => !r.isEmpty := by
      funext r; cases r <;> simp [liveAt]
    rw [List.filter_map, List.filter_map, e1, e2, greedyRests_append_filter cls.test sfx t]
    simp [List.map_map, Function.comp, liftState]
  | plusLazy cls =>
    intro t c
    rw [run_plusLazy, run_plusLazy]
    have e1 : (liveAt sfx.length ∘ fun s' : List Char => (s', c)) =
        fun r => decide (sfx.length < r.length) := rfl
    have e2 : (liveAt 0 ∘ fun s' : List Char => (s', c)) = fun r : List Char => !r.isEmpty := by
      funext r; cases r <;> simp [liveAt]
    rw [List.filter_map, List.filter_map, e1, e2, lazyRests_append_filter cls.test sfx t]
    simp [List.map_map, Function.comp, liftState]
  | opt r ih =>
    intro t c
    simp only [Regex.run, List.filter_append, List.map_append, ih t c]
    congr 1
    cases t with
    | nil => simp [liveAt, List.filter_cons]
    | cons y t =>
      have : sfx.length < t.length + sfx.length + 1 := by omega
      simp [liveAt, List.filter_cons, liftState, this]
  | group i r ih =>
    intro t c
    rw [run_group, run_group]
    have e1 : ∀ (s : List Char) (n : Nat), (liveAt n ∘ fun st : MState =>
        (st.1, st.2.set i (s.take (s.length - st.1.length)))) = liveAt n := by
      intro s n; funext st; rfl
    rw [List.filter_map, List.filter_map, e1, e1, ih t c, List.map_map, List.map_map]
    apply List.map_congr_left
    intro st _
    simp only [Function.comp, liftState, List.length_append]
    have hk : t.length + sfx.length - (st.1.length + sfx.length) = t.length - st.1.length := by
      omega
    rw [hk, List.take_append_of_le_length (Nat.sub_le _ _)]
  | seq a b iha ihb =>
    intro t c
    rw [run_seq, run_seq, filter_flatMap, filter_flatMap]
    rw [← flatMap_filter_dead (liveAt sfx.length) _ (a.run (t ++ sfx, c))]
    · rw [iha t c, ← flatMap_filter_dead (liveAt 0) _ (a.run (t, c))]
      · rw [List.flatMap_map, List.map_flatMap]
        apply List.flatMap_congr
        intro st _
        exact ihb st.1 st.2
      · intro st _ hdead
        rw [List.filter_eq_nil_iff]
        intro st' hst' hl
        have h1 := run_length_le b st st' hst'
        have h2 : ¬ 0 < st.1.length := of_decide_eq_false hdead
        have h3 : 0 < st'.1.length := of_decide_eq_true hl
        omega
    · intro st _ hdead
      rw [List.filter_eq_nil_iff]
      intro st' hst' hl
      have h1 := run_length_le b st st' hst'
      have h2 : ¬ sfx.length < st.1.length := of_decide_eq_false hdead
      have h3 : sfx.length < st'.1.length := of_decide_eq_true hl
      omega
  | eot =>
    intro t c
    cases t with
    | nil =>
      cases sfx with
      | nil => simp [Regex.run, liveAt, List.filter_cons]
      | cons y sfx => simp [Regex.run, liveAt]
    | cons y t => simp [Regex.run]

theorem endsInSlash_lit (l : List Char) : EndsInSlash (.lit (l ++ ['/'])) := by
  intro s c st h
  exact ⟨l, by rw [(mem_run_lit.1 h).1]; simp⟩

theorem endsInSlash_seq (a b : Regex) (hb : EndsInSlash b) : EndsInSlash (.seq a b) := by
  intro s c st h
  rw [run_seq] at h
  obtain ⟨m, hm, hst⟩ := List.mem_flatMap.1 h
  obtain ⟨w, hw⟩ := hb m.1 m.2 st hst
  obtain ⟨v, hv⟩ := run_suffix a (s, c) m hm
  have hv' : v ++ m.1 = s := hv
  exact ⟨v ++ w, by rw [← hv', hw]; simp⟩

theorem findSome?_congr {α β : Type} (f g : α → Option β) (l : List α)
    (h : ∀ x ∈ l, f x = g x) : l.findSome? f = l.findSome? g := by
  induction l with
  | nil => rfl
  | cons x l ih =>
    simp only [List.findSome?_cons, h x (List.mem_cons_self _ _),
      ih (fun y hy => h y (List.mem_cons_of_mem _ hy))]

theorem findSome?_filter_dead {α β : Type} (q : α → Bool) (g : α → Option β) (l : List α)
    (h : ∀ x ∈ l, q x = false → g x = none) : (l.filter q).findSome? g = l.findSome? g := by
  induction l with
  | nil => rfl
  | cons x l ih =>
    have ih' := ih (fun y hy => h y (List.mem_cons_of_mem _ hy))
    by_cases hq : q x = true
    · simp [List.filter_cons, hq, List.findSome?_cons, ih']
    · have hq' : q x = false := by simpa using hq
      simp [List.filter_cons, hq', List.findSome?_cons, ih',
        h x (List.mem_cons_self _ _) hq']

theorem repoTail_run_nil (i : Nat) (c : List (List Char)) : (repoTail i).run ([], c) = [] := rfl

theorem slash_split_repoSuffixes {sfx a r : List Char} (hs : sfx ∈ repoSuffixes)
    (h : sfx = a ++ '/' :: r) : r = [] := by
  simp only [repoSuffixes, List.mem_cons, List.mem_singleton, List.not_mem_nil, or_false] at hs
  have h' := congrArg List.reverse h
  rcases hs with rfl | rfl | rfl | rfl
  · simp at h'
  · have : '/' ∈ ['.', 'g', 'i', 't'] := by rw [h]; simp
    exact absurd this (by decide)
  · rcases List.eq_nil_or_concat r with rfl | ⟨r', z, rfl⟩
    · rfl
    · simp at h'
  · rcases List.eq_nil_or_concat r with rfl | ⟨r', z, rfl⟩
    · rfl
    · have h2 : '/' ∈ ['.', 'g', 'i', 't'] := by
        have h3 : ['.', 'g', 'i', 't', '/'].dropLast = (a ++ '/' :: (r'.concat z)).dropLast := by
          rw [h]
        have h4 : (a ++ '/' :: (r'.concat z)).dropLast = a ++ '/' :: r' := by
          rw [List.concat_eq_append, ← List.cons_append, ← List.append_assoc,
            List.dropLast_concat]
        rw [h4] at h3
        have h5 : ['.', 'g', 'i', 't', '/'].dropLast = ['.', 'g', 'i', 't'] := rfl
        rw [← h5, h3]; simp
      exact absurd h2 (by decide)

/-- A state of the prefix part that has run into the appended ending cannot be completed. -/
theorem repoTail_dead (pre : Regex) (hpre : EndsInSlash pre) (i : Nat) (sfx t : List Char)
    (c : List (List Char)) (hs : sfx ∈ repoSuffixes) (hsl : ¬ "/".data <:+ t)
    (st : MState) (hst : st ∈ pre.run (t ++ sfx, c)) (hdead : liveAt sfx.length st = false) :
    ((repoTail i).run st).head? = none := by
  obtain ⟨w, hw⟩ := hpre _ _ st hst
  have hlen : ¬ sfx.length < st.1.length := of_decide_eq_false hdead
  have hnil : st.1 = [] := by
    have hw' : t ++ sfx = (w ++ ['/']) ++ st.1 := by rw [hw]; simp
    rcases List.append_eq_append_iff.1 hw' with ⟨a', h1, h2⟩ | ⟨c', h1, h2⟩
    · rcases List.eq_nil_or_concat a' with rfl | ⟨a'', z, rfl⟩
      · exfalso; apply hsl
        rw [List.append_nil] at h1
        exact ⟨w, h1⟩
      · rw [List.concat_eq_append, ← List.append_assoc] at h1
        have hz : z = '/' := by
          have := congrArg List.getLast? h1
          simpa using this.symm
        subst hz
        rw [List.concat_eq_append, List.append_assoc] at h2
        exact slash_split_repoSuffixes hs h2
    · have : c' = [] := by
        have := congrArg List.length h2
        simp only [List.length_append] at this
        cases c' with
        | nil => rfl
        | cons y c' => simp at this; omega
      subst this
      exfalso; apply hsl
      rw [List.append_nil] at h1
      exact ⟨w, h1.symm⟩
  obtain ⟨x, c'⟩ := st
  simp only at hnil
  subst hnil
  rfl

theorem suffix_inherit {p t x : List Char} (hx : x <:+ t) (h : ¬ p <:+ t) : ¬ p <:+ x :=
  fun hp => h (hp.trans hx)

/-- The first match of a pattern `pre(.+?)(?:\.git)?/?$` on `t ++ sfx` is the first match
on `t`, when `t` ends neither in `.git` nor in `/`. -/
theorem run_tail_append_head (pre : Regex) (hpre : EndsInSlash pre) (i : Nat)
    (sfx t : List Char) (c : List (List Char)) (hs : sfx ∈ repoSuffixes)
    (hgit : ¬ ".git".data <:+ t) (hsl : ¬ "/".data <:+ t) :
    ((Regex.seq pre (repoTail i)).run (t ++ sfx, c)).head? =
      ((Regex.seq pre (repoTail i)).run (t, c)).head? := by
  rw [run_seq, run_seq, List.head?_flatMap, List.head?_flatMap]
  rw [← findSome?_filter_dead (liveAt sfx.length) _ (pre.run (t ++ sfx, c))
    (fun st hst hd => repoTail_dead pre hpre i sfx t c hs hsl st hst hd)]
  rw [run_append_live, List.findSome?_map]
  rw [← findSome?_filter_dead (liveAt 0) (fun a => ((repoTail i).run a).head?)
    (pre.run (t, c))]
  · apply findSome?_congr
    intro st hst
    obtain ⟨hmem, hlive⟩ := List.mem_filter.1 hst
    have hne : st.1 ≠ [] := by
      have : 0 < st.1.length := of_decide_eq_true hlive
      exact List.length_pos.1 this
    have hsuf := run_suffix pre (t, c) st hmem
    have h1 := repoTail_run_head i st.1 sfx st.2 hne (suffix_inherit hsuf hgit)
      (suffix_inherit hsuf hsl) hs
    have h2 := repoTail_run_head i st.1 [] st.2 hne (suffix_inherit hsuf hgit)
      (suffix_inherit hsuf hsl) (by simp [repoSuffixes])
    rw [List.append_nil] at h2
    show ((repoTail i).run (st.1 ++ sfx, st.2)).head? = ((repoTail i).run st).head?
    rw [h1, show st = (st.1, st.2) from rfl, h2]
  · intro st _ hdead
    have hlen : ¬ 0 < st.1.length := of_decide_eq_false hdead
    obtain ⟨x, c'⟩ := st
    cases x with
    | nil => rfl
    | cons y x => simp at hlen

theorem tail_set_zero {α : Type} (l : List α) (x : α) : (l.set 0 x).tail = l.tail := by
  cases l <;> rfl

theorem matchAt_map_tail (re : Regex) (s : List Char) :
    (matchAt re s).map List.tail =
      ((re.run (s, List.replicate (re.numSubexp + 1) [])).head?).map (fun st => st.2.tail) := by
  rw [matchAt_eq_head, Option.map_map]
  congr 1
  funext st
  exact tail_set_zero _ _

theorem matchAt_append (pre : Regex) (hpre : EndsInSlash pre) (i : Nat)
    (sfx t : List Char) (hs : sfx ∈ repoSuffixes)
    (hgit : ¬ ".git".data <:+ t) (hsl : ¬ "/".data <:+ t) :
    (matchAt (.seq pre (repoTail i)) (t ++ sfx)).map List.tail =
      (matchAt (.seq pre (repoTail i)) t).map List.tail := by
  rw [matchAt_map_tail, matchAt_map_tail, run_tail_append_head pre hpre i sfx t _ hs hgit hsl]

/-- Appending one of the four endings to a text that ends neither in `.git` nor in `/`
does not change the groups found by a pattern `pre(.+?)(?:\.git)?/?$`. -/
theorem FindStringSubmatch_append (pre : Regex) (hpre : EndsInSlash pre) (i : Nat)
    (sfx : List Char) (hs : sfx ∈ repoSuffixes)
    (hb : FindStringSubmatch (.seq pre (repoTail i)) sfx = none)
    (hb0 : FindStringSubmatch (.seq pre (repoTail i)) [] = none) :
    ∀ u : List Char, ¬ ".git".data <:+ u → ¬ "/".data <:+ u →
      (FindStringSubmatch (.seq pre (repoTail i)) (u ++ sfx)).map List.tail =
        (FindStringSubmatch (.seq pre (repoTail i)) u).map List.tail := by
  intro u
  induction u with
  | nil =>
    intro _ _
    rw [List.nil_append, hb, hb0]
  | cons x u ih =>
    intro hgit hsl
    have hm := matchAt_append pre hpre i sfx (x :: u) hs hgit hsl
    have ih' := ih (suffix_inherit (List.suffix_cons x u) hgit)
      (suffix_inherit (List.suffix_cons x u) hsl)
    rw [List.cons_append] at hm ⊢
    unfold FindStringSubmatch
    cases h1 : matchAt (.seq pre (repoTail i)) (x :: (u ++ sfx)) with
    | none =>
      cases h2 : matchAt (.seq pre (repoTail i)) (x :: u) with
      | none => simpa using ih'
      | some m => rw [h1, h2] at hm; simp at hm
    | some m' =>
      cases h2 : matchAt (.seq pre (repoTail i)) (x :: u) with
      | none => rw [h1, h2] at hm; simp at hm
      | some m => rw [h1, h2] at hm; simpa using hm

theorem parseAzureDevOpsURL_eq_ofGroups (url : List Char) :
    parseAzureDevOpsURL url =
      azureOfGroups ((FindStringSubmatch reDevAzure url).map List.tail)
        ((FindStringSubmatch reVisualStudio url).map List.tail)
        ((FindStringSubmatch reTfs url).map List.tail) := by
  unfold parseAzureDevOpsURL azureOfGroups
  rcases FindStringSubmatch reDevAzure url with _ | (_ | ⟨w, _ | ⟨a, _ | ⟨b, _ | ⟨c, _ | ⟨d, l⟩⟩⟩⟩⟩) <;>
  rcases FindStringSubmatch reVisualStudio url with
    _ | (_ | ⟨w', _ | ⟨a', _ | ⟨b', _ | ⟨c', _ | ⟨d', l'⟩⟩⟩⟩⟩) <;>
  rcases FindStringSubmatch reTfs url with
    _ | (_ | ⟨w2, _ | ⟨a2, _ | ⟨b2, _ | ⟨c2, _ | ⟨d2, _ | ⟨e2, l2⟩⟩⟩⟩⟩⟩) <;> rfl

theorem parseGitHubURL_eq_ofGroups (url : List Char) :
    parseGitHubURL url = githubOfGroups ((FindStringSubmatch reGitHub url).map List.tail) := by
  unfold parseGitHubURL githubOfGroups
  rcases FindStringSubmatch reGitHub url with _ | (_ | ⟨w, _ | ⟨a, _ | ⟨b, _ | ⟨c, l⟩⟩⟩⟩) <;> rfl

theorem ParseGitRemoteURL_congr {a b : String}
    (h : cleanRemoteURL a = cleanRemoteURL b) : ParseGitRemoteURL a = ParseGitRemoteURL b := by
  unfold ParseGitRemoteURL
  rw [h]

theorem endsInSlash_devAzure : EndsInSlash (.concat [.lit "https://dev.azure.com/".data,
    .group 1 (.plus (.notChar '/')), .lit "/".data, .group 2 (.plus (.notChar '/')),
    .lit "/_git/".data]) :=
  endsInSlash_seq _ _ (endsInSlash_seq _ _ (endsInSlash_seq _ _ (endsInSlash_seq _ _
    (endsInSlash_lit "/_git".data))))

theorem endsInSlash_visualStudio : EndsInSlash (.concat [.lit "https://".data,
    .group 1 (.plus (.notChar '.')), .lit ".visualstudio.com/".data,
    .group 2 (.plus (.notChar '/')), .lit "/_git/".data]) :=
  endsInSlash_seq _ _ (endsInSlash_seq _ _ (endsInSlash_seq _ _ (endsInSlash_seq _ _
    (endsInSlash_lit "/_git".data))))

theorem endsInSlash_tfs : EndsInSlash (.concat [.lit "https://".data,
    .group 1 (.plus (.notChar '/')), .lit "/tfs/".data, .group 2 (.plus (.notChar '/')),
    .lit "/".data, .group 3 (.plus (.notChar '/')), .lit "/_git/".data]) :=
  endsInSlash_seq _ _ (endsInSlash_seq _ _ (endsInSlash_seq _ _ (endsInSlash_seq _ _
    (endsInSlash_seq _ _ (endsInSlash_seq _ _ (endsInSlash_lit "/_git".data))))))

theorem endsInSlash_gitHub : EndsInSlash (.concat [.lit "https://github.com/".data,
    .group 1 (.plus (.notChar '/')), .lit "/".data]) :=
  endsInSlash_seq _ _ (endsInSlash_seq _ _ (endsInSlash_lit []))

/-- The classification of a cleaned URL that ends neither in `.git` nor in `/` does not
change when `.git`, `/` or `.git/` is appended. -/
theorem parse_core_append (u sfx : List Char) (hs : sfx ∈ repoSuffixes)
    (hgit : ¬ ".git".data <:+ u) (hsl : ¬ "/".data <:+ u) :
    parseAzureDevOpsURL (u ++ sfx) = parseAzureDevOpsURL u ∧
    parseGitHubURL (u ++ sfx) = parseGitHubURL u := by
  have hb0 : ∀ s ∈ repoSuffixes, FindStringSubmatch reDevAzure s = none := by decide
  have hb1 : ∀ s ∈ repoSuffixes, FindStringSubmatch reVisualStudio s = none := by decide
  have hb2 : ∀ s ∈ repoSuffixes, FindStringSubmatch reTfs s = none := by decide
  have hb3 : ∀ s ∈ repoSuffixes, FindStringSubmatch reGitHub s = none := by decide
  have hn : ([] : List Char) ∈ repoSuffixes := by simp [repoSuffixes]
  have h0 : (FindStringSubmatch reDevAzure (u ++ sfx)).map List.tail =
      (FindStringSubmatch reDevAzure u).map List.tail := FindStringSubmatch_append _ endsInSlash_devAzure 3 sfx hs (hb0 sfx hs)
    (hb0 [] hn) u hgit hsl
  have h1 : (FindStringSubmatch reVisualStudio (u ++ sfx)).map List.tail =
      (FindStringSubmatch reVisualStudio u).map List.tail := FindStringSubmatch_append _ endsInSlash_visualStudio 3 sfx hs (hb1 sfx hs)
    (hb1 [] hn) u hgit hsl
  have h2 : (FindStringSubmatch reTfs (u ++ sfx)).map List.tail =
      (FindStringSubmatch reTfs u).map List.tail := FindStringSubmatch_append _ endsInSlash_tfs 4 sfx hs (hb2 sfx hs)
    (hb2 [] hn) u hgit hsl
  have h3 : (FindStringSubmatch reGitHub (u ++ sfx)).map List.tail =
      (FindStringSubmatch reGitHub u).map List.tail := FindStringSubmatch_append _ endsInSlash_gitHub 2 sfx hs (hb3 sfx hs)
    (hb3 [] hn) u hgit hsl
  constructor
  · rw [parseAzureDevOpsURL_eq_ofGroups, parseAzureDevOpsURL_eq_ofGroups, h0, h1, h2]
  · rw [parseGitHubURL_eq_ofGroups, parseGitHubURL_eq_ofGroups, h3]

theorem FindStringSubmatch_some_suffix {re : Regex} {s : List Char} {m : List (List Char)}
    (h : FindStringSubmatch re s = some m) : ∃ t, t <:+ s ∧ matchAt re t = some m := by
  induction s with
  | nil => exact ⟨[], List.suffix_refl _, by simpa [FindStringSubmatch] using h⟩
  | cons x s ih =>
    unfold FindStringSubmatch at h
    cases hm : matchAt re (x :: s) with
    | some m' =>
      rw [hm] at h
      simp only [Option.some.injEq] at h
      exact ⟨x :: s, List.suffix_refl _, h ▸ hm⟩
    | none =>
      rw [hm] at h
      obtain ⟨t, ht, htm⟩ := ih h
      exact ⟨t, ht.trans (List.suffix_cons x s), htm⟩

/-- In a text that ends neither in `.git` nor in `/`, the repository group of a pattern
`pre(.+?)(?:\.git)?/?$` is a non-empty suffix of the text. -/
theorem repoTail_capture (pre : Regex) (i : Nat) (u : List Char) (m : List (List Char))
    (hi : 0 < i) (hn : i < (Regex.seq pre (repoTail i)).numSubexp + 1)
    (hgit : ¬ ".git".data <:+ u) (hsl : ¬ "/".data <:+ u)
    (h : FindStringSubmatch (.seq pre (repoTail i)) u = some m) :
    ∃ x, x ≠ [] ∧ x <:+ u ∧ m[i]? = some x := by
  obtain ⟨t, ht, hm⟩ := FindStringSubmatch_some_suffix h
  rw [matchAt_eq_head, run_seq, List.head?_flatMap] at hm
  cases hf : (pre.run (t, List.replicate ((Regex.seq pre (repoTail i)).numSubexp + 1) [])).findSome?
      (fun a => ((repoTail i).run a).head?) with
  | none => rw [hf] at hm; simp at hm
  | some st0 =>
    rw [hf] at hm
    simp only [Option.map_some', Option.some.injEq] at hm
    obtain ⟨st, hst, hg⟩ := List.exists_of_findSome?_eq_some hf
    obtain ⟨x, c'⟩ := st
    have hne : x ≠ [] := by
      rintro rfl
      simp [repoTail_run_nil] at hg
    have hsuf : x <:+ t := run_suffix pre _ _ hst
    have hlen : c'.length = (Regex.seq pre (repoTail i)).numSubexp + 1 := by
      have := run_caps_length pre _ _ hst
      simpa using this
    have hh := repoTail_run_head i x [] c' hne (suffix_inherit (hsuf.trans ht) hgit)
      (suffix_inherit (hsuf.trans ht) hsl) (by simp [repoSuffixes])
    rw [List.append_nil] at hh
    rw [hh] at hg
    by_cases hnl : '\n' ∈ x
    · rw [if_pos hnl] at hg; simp at hg
    · rw [if_neg hnl] at hg
      simp only [Option.some.injEq] at hg
      refine ⟨x, hne, hsuf.trans ht, ?_⟩
      rw [← hm, ← hg]
      have hi' : i < c'.length := by omega
      have h0 : ¬ (0 = i) := by omega
      simp [List.getElem?_set, h0, hi']

theorem parseAzureDevOpsURL_repository {u : List Char} {info : RemoteInfo}
    (hgit : ¬ ".git".data <:+ u) (hsl : ¬ "/".data <:+ u)
    (h : parseAzureDevOpsURL u = some info) :
    ¬ ".git".data <:+ info.Repository.data ∧ ¬ "/".data <:+ info.Repository.data := by
  unfold parseAzureDevOpsURL at h
  split at h
  · rename_i w m1 m2 m3 heq
    obtain ⟨x, _, hx, hget⟩ := repoTail_capture _ 3 u _ (by decide) (by decide) hgit hsl heq
    simp only [Option.some.injEq] at h
    have e : m3 = x := by simpa using hget
    rw [← h, e]
    exact ⟨suffix_inherit hx hgit, suffix_inherit hx hsl⟩
  · split at h
    · rename_i w m1 m2 m3 heq
      obtain ⟨x, _, hx, hget⟩ := repoTail_capture _ 3 u _ (by decide) (by decide) hgit hsl heq
      simp only [Option.some.injEq] at h
      have e : m3 = x := by simpa using hget
      rw [← h, e]
      exact ⟨suffix_inherit hx hgit, suffix_inherit hx hsl⟩
    · split at h
      · rename_i w m1 m2 m3 m4 heq
        obtain ⟨x, _, hx, hget⟩ := repoTail_capture _ 4 u _ (by decide) (by decide) hgit hsl heq
        simp only [Option.some.injEq] at h
        have e : m4 = x := by simpa using hget
        rw [← h, e]
        exact ⟨suffix_inherit hx hgit, suffix_inherit hx hsl⟩
      · exact absurd h (by simp)

theorem parseGitHubURL_repository {u : List Char}
    (hgit : ¬ ".git".data <:+ u) (hsl : ¬ "/".data <:+ u) :
    ¬ ".git".data <:+ (parseGitHubURL u).Repository.data ∧
      ¬ "/".data <:+ (parseGitHubURL u).Repository.data := by
  unfold parseGitHubURL
  split
  · rename_i w m1 m2 heq
    obtain ⟨x, _, hx, hget⟩ := repoTail_capture _ 2 u _ (by decide) (by decide) hgit hsl heq
    have e : m2 = x := by simpa using hget
    rw [e]
    exact ⟨suffix_inherit hx hgit, suffix_inherit hx hsl⟩
  · decide

/-- A `.git` suffix and one trailing slash are stripped: for every URL that starts with
`h`, ends in no white space and ends neither in `.git` nor in `/`, appending `.git`, `/`
or `.git/` does not change the result, and the repository returned ends neither in
`.git` nor in `/`. -/
theorem parse_suffix_invariant (u sfx : String) (t : List Char) (hu : u.data = 'h' :: t)
    (hs : sfx.data ∈ repoSuffixes)
    (hgit : ¬ ".git".data <:+ u.data) (hsl : ¬ "/".data <:+ u.data)
    (hsp : ∀ c ∈ u.data.getLast?, isSpace c = false) :
    ParseGitRemoteURL (u ++ sfx) = ParseGitRemoteURL u ∧
    ∀ info, (ParseGitRemoteURL u).1 = some info →
      ¬ ".git".data <:+ info.Repository.data ∧ ¬ "/".data <:+ info.Repository.data := by
  have hcu : cleanRemoteURL u = u.data := by
    rw [hu] at hsp ⊢
    exact cleanRemoteURL_of_cons u 'h' t hu (by decide) (by decide) hsp
  have hcs : cleanRemoteURL (u ++ sfx) = u.data ++ sfx.data := by
    have hd : (u ++ sfx).data = 'h' :: (t ++ sfx.data) := by
      rw [String.data_append, hu]; rfl
    have hl : ∀ c ∈ ('h' :: (t ++ sfx.data)).getLast?, isSpace c = false := by
      by_cases he : sfx.data = []
      · rw [he, List.append_nil, ← hu]; exact hsp
      · rw [← List.cons_append, getLast?_append_of_ne_nil _ _ he]
        simp only [repoSuffixes, List.mem_cons, List.mem_singleton, List.not_mem_nil,
          or_false] at hs
        rcases hs with h | h | h | h <;> rw [h] <;> decide
    rw [cleanRemoteURL_of_cons (u ++ sfx) 'h' _ hd (by decide) (by decide) hl, hu]
    rfl
  obtain ⟨ha, hg⟩ := parse_core_append u.data sfx.data hs hgit hsl
  constructor
  · simp only [ParseGitRemoteURL, hcs, hcu, ha, hg]
  · intro info hinfo
    cases hp : parseAzureDevOpsURL u.data with
    | some az =>
      rw [ParseGitRemoteURL_of_azure u _ az hcu hp] at hinfo
      simp only [Option.some.injEq] at hinfo
      rw [← hinfo]
      exact parseAzureDevOpsURL_repository hgit hsl hp
    | none =>
      rw [ParseGitRemoteURL_of_not_azure u _ hcu hp] at hinfo
      simp only [Option.some.injEq] at hinfo
      rw [← hinfo]
      exact parseGitHubURL_repository hgit hsl

theorem suffix_of_append_cons {pat a b : List Char} {k : Char} (hk : k ∉ pat)
    (h : pat <:+ a ++ k :: b) : pat <:+ b := by
  induction a with
  | nil =>
    rcases List.suffix_cons_iff.1 h with e | h'
    · exact absurd (e ▸ List.mem_cons_self k b) hk
    · exact h'
  | cons x a ih =>
    rcases List.suffix_cons_iff.1 h with e | h'
    · exact absurd (e ▸ (by simp : k ∈ x :: (a ++ k :: b))) hk
    · exact ih h'

theorem slash_suffix_of_append {a b : List Char} (hb : b ≠ [])
    (h : "/".data <:+ a ++ b) : "/".data <:+ b := by
  rcases List.eq_nil_or_concat b with e | ⟨w, z, e⟩
  · exact absurd e hb
  · subst e
    obtain ⟨v, hv⟩ := h
    have hz : z = '/' := by
      have := congrArg List.getLast? hv
      rw [List.concat_eq_append, ← List.append_assoc] at this
      have e1 : (v ++ "/".data).getLast? = some '/' := by
        rw [show "/".data = ['/'] from rfl, List.getLast?_concat]
      rw [e1, List.getLast?_concat] at this
      exact (Option.some.inj this).symm
    subst hz
    exact ⟨w, by simp [List.concat_eq_append]⟩

/-- The invariance for a URL `h...{p}/{repo}`. -/
theorem parse_suffix_invariant_of_repo (u repo sfx : String) (p : List Char)
    (hu : u.data = 'h' :: (p ++ '/' :: repo.data))
    (hr : repo ≠ "") (hgit : ¬ ".git".data <:+ repo.data) (hsl : ¬ "/".data <:+ repo.data)
    (hsp : ∀ c ∈ repo.data.getLast?, isSpace c = false)
    (hs : sfx = ".git" ∨ sfx = "/" ∨ sfx = ".git/") :
    ParseGitRemoteURL (u ++ sfx) = ParseGitRemoteURL u ∧
    ∀ info, (ParseGitRemoteURL u).1 = some info →
      ¬ ".git".data <:+ info.Repository.data ∧ ¬ "/".data <:+ info.Repository.data := by
  have hne := data_ne_nil hr
  have e : 'h' :: (p ++ '/' :: repo.data) = ('h' :: p) ++ '/' :: repo.data := rfl
  have e' : 'h' :: (p ++ '/' :: repo.data) = ('h' :: (p ++ ['/'])) ++ repo.data := by simp
  apply parse_suffix_invariant u sfx _ hu
  · rcases hs with rfl | rfl | rfl <;> simp [repoSuffixes]
  · rw [hu, e]
    exact fun h => hgit (suffix_of_append_cons (by decide) h)
  · rw [hu, e']
    exact fun h => hsl (slash_suffix_of_append hne h)
  · rw [hu, e', getLast?_append_of_ne_nil _ _ hne]
    exact hsp

/-- C5 (amended).  For each of the four HTTPS grammars (`dev.azure.com`,
`*.visualstudio.com`, on-premises `/tfs/`, `github.com`) and every URL `u` of that grammar
whose repository segment is non-empty, does not end in `.git` or `/` and does not end in a
white-space character, `ParseGitRemoteURL` returns for `u.git`, `u/` and `u.git/` what it
returns for `u`, and the repository it returns ends neither in `.git` nor in `/`. -/
theorem git_suffix_and_slash_stripped (server org project repo sfx : String)
    (hr : repo ≠ "") (hgit : ¬ ".git".data <:+ repo.data) (hsl : ¬ "/".data <:+ repo.data)
    (hsp : ∀ c ∈ repo.data.getLast?, isSpace c = false)
    (hs : sfx = ".git" ∨ sfx = "/" ∨ sfx = ".git/") :
    ∀ u ∈ ["https://dev.azure.com/" ++ org ++ "/" ++ project ++ "/_git/" ++ repo,
           "https://" ++ org ++ ".visualstudio.com/" ++ project ++ "/_git/" ++ repo,
           "https://" ++ server ++ "/tfs/" ++ org ++ "/" ++ project ++ "/_git/" ++ repo,
           "https://github.com/" ++ org ++ "/" ++ repo],
      ParseGitRemoteURL (u ++ sfx) = ParseGitRemoteURL u ∧
      ∀ info, (ParseGitRemoteURL u).1 = some info →
        ¬ ".git".data <:+ info.Repository.data ∧ ¬ "/".data <:+ info.Repository.data := by
  intro u hu
  simp only [List.mem_cons, List.mem_singleton, List.not_mem_nil, or_false] at hu
  rcases hu with rfl | rfl | rfl | rfl
  · exact parse_suffix_invariant_of_repo _ repo sfx
      ("ttps://dev.azure.com/".data ++ (org.data ++ '/' :: (project.data ++ "/_git".data)))
      (by simp [String.data_append]) hr hgit hsl hsp hs
  · exact parse_suffix_invariant_of_repo _ repo sfx
      ("ttps://".data ++ (org.data ++ (".visualstudio.com/".data ++
        (project.data ++ "/_git".data))))
      (by simp [String.data_append]) hr hgit hsl hsp hs
  · exact parse_suffix_invariant_of_repo _ repo sfx
      ("ttps://".data ++ (server.data ++ ("/tfs/".data ++ (org.data ++ '/' ::
        (project.data ++ "/_git".data)))))
      (by simp [String.data_append]) hr hgit hsl hsp hs
  · exact parse_suffix_invariant_of_repo _ repo sfx
      ("ttps://github.com/".data ++ org.data)
      (by simp [String.data_append]) hr hgit hsl hsp hs

/-- C5, witness of the amended statement: `acme`, `widgets`, `core` and the ending `.git/`,
on the `dev.azure.com` grammar. -/
theorem git_suffix_and_slash_stripped_witness :
    ParseGitRemoteURL
        ("https://dev.azure.com/" ++ "acme" ++ "/" ++ "widgets" ++ "/_git/" ++ "core" ++ ".git/") =
      ParseGitRemoteURL
        ("https://dev.azure.com/" ++ "acme" ++ "/" ++ "widgets" ++ "/_git/" ++ "core") :=
  (git_suffix_and_slash_stripped "tfs.example.com" "acme" "widgets" "core" ".git/" (by decide)
    (by decide) (by decide) (by decide) (by decide) _ (List.mem_cons_self _ _)).1

/-- C5, counterexample to the claim as stated: the repository segment `core ` (trailing
space) ends neither in `.git` nor in `/`, but `u` is trimmed to repository `core` while
`u.git` keeps the space in front of the stripped `.git`. -/
theorem git_suffix_after_trailing_space :
    (¬ ".git".data <:+ ("core " : String).data ∧ ¬ "/".data <:+ ("core " : String).data) ∧
    ParseGitRemoteURL "https://dev.azure.com/acme/widgets/_git/core " =
      (some { Provider := AzureDevOps, Organization := "acme", Project := "widgets",
              Repository := "core", BaseURL := "https://dev.azure.com" }, none) ∧
    ParseGitRemoteURL ("https://dev.azure.com/acme/widgets/_git/core " ++ ".git") =
      (some { Provider := AzureDevOps, Organization := "acme", Project := "widgets",
              Repository := "core ", BaseURL := "https://dev.azure.com" }, none) ∧
    ParseGitRemoteURL ("https://dev.azure.com/acme/widgets/_git/core " ++ ".git") ≠
      ParseGitRemoteURL "https://dev.azure.com/acme/widgets/_git/core " := by
  decide

/-! ## SSH rewriting -/

theorem Contains_self_append (sub b : List Char) : Contains (sub ++ b) sub = true := by
  have hp : sub.isPrefixOf (sub ++ b) = true :=
    List.isPrefixOf_iff_prefix.2 (List.prefix_append sub b)
  cases h : sub ++ b with
  | nil =>
    have : sub = [] := (List.append_eq_nil.1 h).1
    simp [Contains, this]
  | cons x s =>
    rw [h] at hp
    simp [Contains, hp]

theorem Contains_append_left (a s sub : List Char) (h : Contains s sub = true) :
    Contains (a ++ s) sub = true := by
  induction a with
  | nil => exact h
  | cons x a ih => simp [Contains, ih]

theorem greedyRests_append_all (p : Char → Bool) (a b : List Char) (ha : a ≠ [])
    (hp : ∀ x ∈ a, p x = true) :
    ∃ R, greedyRests p (a ++ b) = greedyRests p b ++ b :: R := by
  induction a with
  | nil => exact absurd rfl ha
  | cons x a ih =>
    have hx : p x = true := hp x (List.mem_cons_self _ _)
    by_cases ha' : a = []
    · subst ha'
      exact ⟨[], by simp [greedyRests, hx]⟩
    · obtain ⟨R, hR⟩ := ih ha' (fun y hy => hp y (List.mem_cons_of_mem _ hy))
      exact ⟨R ++ [a ++ b], by simp [greedyRests, hx, hR]⟩

theorem dot_test_of_not_mem (a : List Char) (h : '\n' ∉ a) :
    ∀ x ∈ a, CharClass.dot.test x = true := by
  intro x hx
  have : x ≠ '\n' := fun e => h (e ▸ hx)
  simp [CharClass.test, this]

/-- The greedy group `(.+)` followed by the literal `.git`, on `repo.git`. -/
theorem run_dot_plus_git (i : Nat) (repo : List Char) (c : List (List Char))
    (hr : repo ≠ []) (hn : '\n' ∉ repo) :
    ((Regex.seq (.group i (.plus .dot)) (.lit ".git".data)).run
      (repo ++ ".git".data, c)).head? = some ([], c.set i repo) := by
  obtain ⟨R, hR⟩ := greedyRests_append_all CharClass.dot.test repo ".git".data hr
    (dot_test_of_not_mem repo hn)
  rw [run_seq, run_group, run_plus, hR, List.map_append, List.map_append, flatMap_skip]
  · have hl := run_lit_append ".git".data [] (c.set i repo)
    rw [List.append_nil] at hl
    simp [List.flatMap_cons, hl]
  · intro st hst
    simp only [List.mem_map, exists_exists_and_eq_and] at hst
    obtain ⟨r, hr', rfl⟩ := hst
    rw [List.eq_nil_iff_forall_not_mem]
    intro st' hst'
    have h1 := (mem_run_lit.1 hst').1
    have h2 := greedyRests_length_lt hr'
    have h3 := congrArg List.length h1
    simp only [List.length_append] at h3
    have h4 : (".git".data).length = 4 := rfl
    omega

theorem reSSHGitHub_find (owner repo : List Char) (ho : owner ≠ []) (ho' : '/' ∉ owner)
    (hr : repo ≠ []) (hn : '\n' ∉ repo) :
    FindStringSubmatch reSSHGitHub
        ("git@github.com:".data ++ (owner ++ '/' :: (repo ++ ".git".data))) =
      some ["git@github.com:".data ++ (owner ++ '/' :: (repo ++ ".git".data)), owner, repo] := by
  apply FindStringSubmatch_of_matchAt
  rw [matchAt_eq_head]
  have hrun : ∀ c, (reSSHGitHub.run ("git@github.com:".data ++ (owner ++ '/' ::
      (repo ++ ".git".data)), c)).head? = some ([], (c.set 1 owner).set 2 repo) := by
    intro c
    simp only [reSSHGitHub, Regex.concat]
    rw [run_seq_lit_append]
    rw [run_group_plus_then 1 _ _ owner '/' _ c ho (notChar_test_of_not_mem _ _ ho')
      (notChar_test_self _)]
    · rw [run_seq_lit_singleton]
      exact run_dot_plus_git 2 repo _ hr hn
    · intro x hx t c'
      exact run_seq_lit_cons_ne '/' x _ t c' _ (fun e => ho' (e ▸ hx))
  rw [hrun]
  have h3 : reSSHGitHub.numSubexp = 2 := rfl
  simp [h3, List.replicate, List.set]

theorem greedyRests_all_head (p : Char → Bool) (a : List Char) (ha : a ≠ [])
    (hp : ∀ x ∈ a, p x = true) : ∃ R, greedyRests p a = [] :: R := by
  obtain ⟨R, hR⟩ := greedyRests_append_all p a [] ha hp
  exact ⟨R, by simpa [greedyRests] using hR⟩

theorem reSSHAzure_find (org proj r : List Char) (ho : org ≠ []) (ho' : '/' ∉ org)
    (hp : proj ≠ []) (hp' : '/' ∉ proj) (hr : r ≠ []) (hn : '\n' ∉ r) :
    FindStringSubmatch reSSHAzure
        ("git@ssh.dev.azure.com:v3/".data ++ (org ++ '/' :: (proj ++ '/' :: r))) =
      some ["git@ssh.dev.azure.com:v3/".data ++ (org ++ '/' :: (proj ++ '/' :: r)),
        org, proj, r] := by
  apply FindStringSubmatch_of_matchAt
  rw [matchAt_eq_head]
  have hrun : ∀ c, (reSSHAzure.run ("git@ssh.dev.azure.com:v3/".data ++ (org ++ '/' ::
      (proj ++ '/' :: r)), c)).head? = some ([], ((c.set 1 org).set 2 proj).set 3 r) := by
    intro c
    simp only [reSSHAzure, Regex.concat]
    rw [run_seq_lit_append]
    rw [run_group_plus_then 1 _ _ org '/' _ c ho (notChar_test_of_not_mem _ _ ho')
      (notChar_test_self _)]
    · rw [run_seq_lit_singleton]
      rw [run_group_plus_then 2 _ _ proj '/' _ _ hp (notChar_test_of_not_mem _ _ hp')
        (notChar_test_self _)]
      · rw [run_seq_lit_singleton, run_group, run_plus]
        obtain ⟨R, hR⟩ := greedyRests_all_head CharClass.dot.test r hr
          (dot_test_of_not_mem r hn)
        rw [hR]
        simp
      · intro x hx t c'
        exact run_seq_lit_cons_ne '/' x _ t c' _ (fun e => hp' (e ▸ hx))
    · intro x hx t c'
      exact run_seq_lit_cons_ne '/' x _ t c' _ (fun e => ho' (e ▸ hx))
  rw [hrun]
  have h3 : reSSHAzure.numSubexp = 3 := rfl
  simp [h3, List.replicate, List.set]

/-! ## What a match says about the text -/

theorem mem_run_seq {a b : Regex} {st st' : MState} :
    st' ∈ (Regex.seq a b).run st ↔ ∃ m, m ∈ a.run st ∧ st' ∈ b.run m := by
  rw [run_seq, List.mem_flatMap]

theorem mem_run_seq_lit {l s : List Char} {c : List (List Char)} {r : Regex} {st : MState}
    (h : st ∈ (Regex.seq (.lit l) r).run (s, c)) : ∃ t, s = l ++ t ∧ st ∈ r.run (t, c) := by
  obtain ⟨m, hm, hst⟩ := mem_run_seq.1 h
  obtain ⟨e1, e2⟩ := mem_run_lit.1 hm
  exact ⟨m.1, e1, by rw [← e2]; exact hst⟩

theorem mem_run_group_plus {i : Nat} {cls : CharClass} {s : List Char} {c : List (List Char)}
    {st : MState} (h : st ∈ (Regex.group i (.plus cls)).run (s, c)) :
    ∃ a, a ≠ [] ∧ (∀ x ∈ a, cls.test x = true) ∧ s = a ++ st.1 ∧ st.2 = c.set i a := by
  rw [run_group, run_plus, List.map_map] at h
  obtain ⟨r, hr, rfl⟩ := List.mem_map.1 h
  obtain ⟨a, ha, e, hp⟩ := greedyRests_mem hr
  refine ⟨a, ha, hp, e, ?_⟩
  simp [e]

theorem mem_run_seq_group_plus {i : Nat} {cls : CharClass} {s : List Char}
    {c : List (List Char)} {r : Regex} {st : MState}
    (h : st ∈ (Regex.seq (.group i (.plus cls)) r).run (s, c)) :
    ∃ a t, a ≠ [] ∧ (∀ x ∈ a, cls.test x = true) ∧ s = a ++ t ∧ st ∈ r.run (t, c.set i a) := by
  obtain ⟨m, hm, hst⟩ := mem_run_seq.1 h
  obtain ⟨a, ha, hp, e1, e2⟩ := mem_run_group_plus hm
  exact ⟨a, m.1, ha, hp, e1, by rw [← e2]; exact hst⟩

theorem mem_repoTail_ne_nil {i : Nat} {s : List Char} {c : List (List Char)} {st : MState}
    (h : st ∈ (repoTail i).run (s, c)) : s ≠ [] := by
  rintro rfl
  rw [repoTail_run_nil] at h
  exact absurd h (List.not_mem_nil _)

theorem FindStringSubmatch_some_mem {re : Regex} {s : List Char} {m : List (List Char)}
    (h : FindStringSubmatch re s = some m) :
    ∃ t st, t <:+ s ∧ st ∈ re.run (t, List.replicate (re.numSubexp + 1) []) := by
  obtain ⟨t, ht, hm⟩ := FindStringSubmatch_some_suffix h
  rw [matchAt_eq_head] at hm
  cases hr : re.run (t, List.replicate (re.numSubexp + 1) []) with
  | nil => rw [hr] at hm; simp at hm
  | cons st l => exact ⟨t, st, ht, by rw [hr]; exact List.mem_cons_self _ _⟩

theorem FindStringSubmatch_eq_none_of {re : Regex} {s : List Char}
    (h : ∀ t st, t <:+ s → st ∉ re.run (t, List.replicate (re.numSubexp + 1) [])) :
    FindStringSubmatch re s = none := by
  cases hf : FindStringSubmatch re s with
  | none => rfl
  | some m =>
    obtain ⟨t, st, ht, hst⟩ := FindStringSubmatch_some_mem hf
    exact absurd hst (h t st ht)

/-! ## Counting slashes -/

theorem count_slash_of_not_mem {a : List Char} (h : '/' ∉ a) : a.count '/' = 0 :=
  List.count_eq_zero.2 h

theorem count_le_of_suffix {t s : List Char} (h : t <:+ s) (k : Char) :
    t.count k ≤ s.count k :=
  h.sublist.count_le k

theorem getLast?_of_suffix {t s : List Char} (h : t <:+ s) (ht : t ≠ []) :
    t.getLast? = s.getLast? := by
  obtain ⟨a, rfl⟩ := h
  exact (getLast?_append_of_ne_nil a t ht).symm

theorem mem_of_getLast? {l : List Char} {x : Char} (h : l.getLast? = some x) : x ∈ l := by
  rcases List.eq_nil_or_concat l with rfl | ⟨w, z, rfl⟩
  · simp at h
  · rw [List.concat_eq_append, List.getLast?_concat] at h
    simp only [Option.some.injEq] at h
    simp [h]

theorem notChar_not_mem {k : Char} {a : List Char}
    (h : ∀ x ∈ a, (CharClass.notChar k).test x = true) : k ∉ a := by
  intro hk
  have := h k hk
  simp [CharClass.test] at this

/-- A text with fewer than four slashes matches none of the four HTTPS patterns. -/
theorem https_patterns_need_four_slashes (s : List Char) (h : s.count '/' < 4) :
    parseAzureDevOpsURL s = none ∧ FindStringSubmatch reGitHub s = none := by
  have key : ∀ t : List Char, t <:+ s → t.count '/' < 4 :=
    fun t ht => lt_of_le_of_lt (count_le_of_suffix ht '/') h
  refine ⟨(parseAzureDevOpsURL_eq_none_iff s).2 ⟨?_, ?_, ?_⟩, ?_⟩
  · apply FindStringSubmatch_eq_none_of
    intro t st ht hst
    have hk := key t ht
    simp only [reDevAzure, Regex.concat] at hst
    rw [run_seq_assoc] at hst
    obtain ⟨t1, e1, hst⟩ := mem_run_seq_lit hst
    rw [run_seq_assoc] at hst
    obtain ⟨x, t2, _, _, e2, hst⟩ := mem_run_seq_group_plus hst
    rw [run_seq_assoc] at hst
    obtain ⟨t3, e3, hst⟩ := mem_run_seq_lit hst
    rw [e1, e2, e3] at hk
    have hc : ("https://dev.azure.com/".data).count '/' = 3 := by decide
    have hc' : ("/".data).count '/' = 1 := by decide
    simp only [List.count_append, hc, hc'] at hk
    omega
  · apply FindStringSubmatch_eq_none_of
    intro t st ht hst
    have hk := key t ht
    simp only [reVisualStudio, Regex.concat] at hst
    rw [run_seq_assoc] at hst
    obtain ⟨t1, e1, hst⟩ := mem_run_seq_lit hst
    rw [run_seq_assoc] at hst
    obtain ⟨x, t2, _, _, e2, hst⟩ := mem_run_seq_group_plus hst
    rw [run_seq_assoc] at hst
    obtain ⟨t3, e3, hst⟩ := mem_run_seq_lit hst
    rw [run_seq_assoc] at hst
    obtain ⟨y, t4, _, _, e4, hst⟩ := mem_run_seq_group_plus hst
    obtain ⟨t5, e5, hst⟩ := mem_run_seq_lit hst
    rw [e1, e2, e3, e4, e5] at hk
    have hc : ("https://".data).count '/' = 2 := by decide
    have hc' : (".visualstudio.com/".data).count '/' = 1 := by decide
    have hc2 : ("/_git/".data).count '/' = 2 := by decide
    simp only [List.count_append, hc, hc', hc2] at hk
    omega
  · apply FindStringSubmatch_eq_none_of
    intro t st ht hst
    have hk := key t ht
    simp only [reTfs, Regex.concat] at hst
    rw [run_seq_assoc] at hst
    obtain ⟨t1, e1, hst⟩ := mem_run_seq_lit hst
    rw [run_seq_assoc] at hst
    obtain ⟨x, t2, _, _, e2, hst⟩ := mem_run_seq_group_plus hst
    rw [run_seq_assoc] at hst
    obtain ⟨t3, e3, hst⟩ := mem_run_seq_lit hst
    rw [e1, e2, e3] at hk
    have hc : ("https://".data).count '/' = 2 := by decide
    have hc' : ("/tfs/".data).count '/' = 2 := by decide
    simp only [List.count_append, hc, hc'] at hk
    omega
  · apply FindStringSubmatch_eq_none_of
    intro t st ht hst
    have hk := key t ht
    simp only [reGitHub, Regex.concat] at hst
    rw [run_seq_assoc] at hst
    obtain ⟨t1, e1, hst⟩ := mem_run_seq_lit hst
    rw [run_seq_assoc] at hst
    obtain ⟨x, t2, _, _, e2, hst⟩ := mem_run_seq_group_plus hst
    obtain ⟨t3, e3, hst⟩ := mem_run_seq_lit hst
    rw [e1, e2, e3] at hk
    have hc : ("https://github.com/".data).count '/' = 3 := by decide
    have hc' : ("/".data).count '/' = 1 := by decide
    simp only [List.count_append, hc, hc'] at hk
    omega

/-! ## URLs without a repository segment match nothing -/

theorem reSSHAzure_no_repo (org proj : List Char) (ho : '/' ∉ org) (hp : '/' ∉ proj) :
    FindStringSubmatch reSSHAzure
      ("git@ssh.dev.azure.com:v3/".data ++ (org ++ '/' :: (proj ++ ['/']))) = none := by
  apply FindStringSubmatch_eq_none_of
  intro t st ht hst
  simp only [reSSHAzure, Regex.concat] at hst
  obtain ⟨t1, e1, hst⟩ := mem_run_seq_lit hst
  obtain ⟨x, t2, _, _, e2, hst⟩ := mem_run_seq_group_plus hst
  obtain ⟨t3, e3, hst⟩ := mem_run_seq_lit hst
  obtain ⟨y, t4, _, _, e4, hst⟩ := mem_run_seq_group_plus hst
  obtain ⟨t5, e5, hst⟩ := mem_run_seq_lit hst
  obtain ⟨z, hz, _, e6, _⟩ := mem_run_group_plus hst
  have hne : t5 ≠ [] := by
    rw [e6]; intro h; exact hz (List.append_eq_nil.1 h).1
  have hsuf : t5 <:+ t := by
    refine ⟨"git@ssh.dev.azure.com:v3/".data ++ (x ++ ("/".data ++ (y ++ "/".data))), ?_⟩
    rw [e1, e2, e3, e4, e5]; simp
  have hk := count_le_of_suffix ht '/'
  rw [e1, e2, e3, e4, e5] at hk
  have hc : ("git@ssh.dev.azure.com:v3/".data).count '/' = 1 := by decide
  have hc' : ("/".data).count '/' = 1 := by decide
  simp only [List.count_append, List.count_cons_self, List.count_nil, hc, hc',
    count_slash_of_not_mem ho, count_slash_of_not_mem hp] at hk
  have h0 : t5.count '/' = 0 := by omega
  have hl := getLast?_of_suffix (hsuf.trans ht) hne
  have hl' : ("git@ssh.dev.azure.com:v3/".data ++ (org ++ '/' :: (proj ++ ['/']))).getLast? =
      some '/' := by
    rw [show "git@ssh.dev.azure.com:v3/".data ++ (org ++ '/' :: (proj ++ ['/'])) =
      ("git@ssh.dev.azure.com:v3/".data ++ (org ++ '/' :: proj)) ++ ['/'] by simp]
    exact List.getLast?_concat _
  rw [hl'] at hl
  exact List.count_eq_zero.1 h0 (mem_of_getLast? hl)

theorem no_double_slash_step {seg rest : List Char} (hseg : '/' ∉ seg)
    (hhead : rest.head? ≠ some '/') (hrest : ∀ a b, rest ≠ a ++ '/' :: '/' :: b) :
    ∀ a b, seg ++ '/' :: rest ≠ a ++ '/' :: '/' :: b := by
  intro a b h
  rcases List.append_eq_append_iff.1 h with ⟨a', h1, h2⟩ | ⟨c', h1, h2⟩
  · cases a' with
    | nil =>
      simp only [List.nil_append, List.cons.injEq, true_and] at h2
      exact hhead (by rw [h2]; rfl)
    | cons y a' =>
      simp only [List.cons_append, List.cons.injEq] at h2
      exact hrest a' b h2.2
  · cases c' with
    | nil =>
      simp only [List.nil_append, List.cons.injEq, true_and] at h2
      exact hhead (by rw [← h2]; rfl)
    | cons y c' =>
      simp only [List.cons_append, List.cons.injEq] at h2
      apply hseg
      rw [h1, ← h2.1]
      simp

theorem head?_append_ne_slash {a b : List Char} (ha : a ≠ []) (h : '/' ∉ a) :
    (a ++ b).head? ≠ some '/' := by
  cases a with
  | nil => exact absurd rfl ha
  | cons x a =>
    intro e
    simp only [List.cons_append, List.head?_cons, Option.some.injEq] at e
    exact h (e ▸ List.mem_cons_self _ _)

/-- In `https://` followed by a text without `//`, the only place where `https://` occurs
is the beginning. -/
theorem https_suffix_unique {W t' : List Char} (hW : ∀ a b, W ≠ a ++ '/' :: '/' :: b)
    (ht : ('h' :: 't' :: 't' :: 'p' :: 's' :: ':' :: '/' :: '/' :: t') <:+
      ('h' :: 't' :: 't' :: 'p' :: 's' :: ':' :: '/' :: '/' :: W)) : t' = W := by
  rcases List.suffix_cons_iff.1 ht with e | ht
  · simpa using e
  rcases List.suffix_cons_iff.1 ht with e | ht
  · simp at e
  rcases List.suffix_cons_iff.1 ht with e | ht
  · simp at e
  rcases List.suffix_cons_iff.1 ht with e | ht
  · simp at e
  rcases List.suffix_cons_iff.1 ht with e | ht
  · simp at e
  rcases List.suffix_cons_iff.1 ht with e | ht
  · simp at e
  rcases List.suffix_cons_iff.1 ht with e | ht
  · simp at e
  rcases List.suffix_cons_iff.1 ht with e | ht
  · simp at e
  obtain ⟨a, ha⟩ := ht
  exact absurd ha.symm
    (by
      have := hW (a ++ ['h', 't', 't', 'p', 's', ':']) t'
      simpa using this)

theorem devAzure_no_double_slash (org proj : List Char) (ho : org ≠ []) (ho' : '/' ∉ org)
    (hp : proj ≠ []) (hp' : '/' ∉ proj) :
    ∀ a b, "dev.azure.com".data ++ '/' :: (org ++ '/' :: (proj ++ '/' :: ("_git".data ++
      '/' :: []))) ≠ a ++ '/' :: '/' :: b := by
  apply no_double_slash_step (by decide) (head?_append_ne_slash ho ho')
  apply no_double_slash_step ho' (head?_append_ne_slash hp hp')
  apply no_double_slash_step hp' (by decide)
  apply no_double_slash_step (by decide) (by simp)
  intro a b h
  simp at h

theorem dev_prefix_no_dot {x r r' : List Char} (hx : '.' ∉ x)
    (h : x ++ '.' :: 'v' :: r = 'd' :: 'e' :: 'v' :: '.' :: 'a' :: r') : False := by
  rcases x with _ | ⟨a, _ | ⟨b, _ | ⟨c, _ | ⟨d, x⟩⟩⟩⟩
  · simp at h
  · simp at h
  · simp at h
  · simp at h
  · simp only [List.cons_append, List.cons.injEq] at h
    apply hx
    rw [h.2.2.2.1]
    simp

/-- The cloud URL without a repository segment matches none of the four HTTPS patterns. -/
theorem devAzure_no_repo (org proj : List Char) (ho : org ≠ []) (ho' : '/' ∉ org)
    (hp : proj ≠ []) (hp' : '/' ∉ proj) :
    parseAzureDevOpsURL ("https://dev.azure.com/".data ++ (org ++ '/' ::
      (proj ++ "/_git/".data))) = none ∧
    FindStringSubmatch reGitHub ("https://dev.azure.com/".data ++ (org ++ '/' ::
      (proj ++ "/_git/".data))) = none := by
  have hW := devAzure_no_double_slash org proj ho ho' hp hp'
  have hV : "https://dev.azure.com/".data ++ (org ++ '/' :: (proj ++ "/_git/".data)) =
      'h' :: 't' :: 't' :: 'p' :: 's' :: ':' :: '/' :: '/' :: ("dev.azure.com".data ++ '/' ::
        (org ++ '/' :: (proj ++ '/' :: ("_git".data ++ '/' :: [])))) := by
    simp
  have hcnt : ("https://dev.azure.com/".data ++ (org ++ '/' ::
      (proj ++ "/_git/".data))).count '/' = 6 := by
    have hc : ("https://dev.azure.com/".data).count '/' = 3 := by decide
    have hc2 : ("/_git/".data).count '/' = 2 := by decide
    simp only [List.count_append, List.count_cons_self, hc, hc2,
      count_slash_of_not_mem ho', count_slash_of_not_mem hp']
  have hlast : ("https://dev.azure.com/".data ++ (org ++ '/' ::
      (proj ++ "/_git/".data))).getLast? = some '/' := by
    rw [show "https://dev.azure.com/".data ++ (org ++ '/' :: (proj ++ "/_git/".data)) =
      ("https://dev.azure.com/".data ++ (org ++ '/' :: (proj ++ "/_git".data))) ++ ['/'] by simp]
    exact List.getLast?_concat _
  refine ⟨(parseAzureDevOpsURL_eq_none_iff _).2 ⟨?_, ?_, ?_⟩, ?_⟩
  · apply FindStringSubmatch_eq_none_of
    intro t st ht hst
    have hk := count_le_of_suffix ht '/'
    rw [hcnt] at hk
    simp only [reDevAzure, Regex.concat] at hst
    rw [run_seq_assoc] at hst
    obtain ⟨t1, e1, hst⟩ := mem_run_seq_lit hst
    rw [run_seq_assoc] at hst
    obtain ⟨x, t2, _, _, e2, hst⟩ := mem_run_seq_group_plus hst
    rw [run_seq_assoc] at hst
    obtain ⟨t3, e3, hst⟩ := mem_run_seq_lit hst
    rw [run_seq_assoc] at hst
    obtain ⟨y, t4, _, _, e4, hst⟩ := mem_run_seq_group_plus hst
    obtain ⟨t5, e5, hst⟩ := mem_run_seq_lit hst
    have hne := mem_repoTail_ne_nil hst
    have hsuf : t5 <:+ t := by
      refine ⟨"https://dev.azure.com/".data ++ (x ++ ("/".data ++ (y ++ "/_git/".data))), ?_⟩
      rw [e1, e2, e3, e4, e5]; simp
    rw [e1, e2, e3, e4, e5] at hk
    have hc : ("https://dev.azure.com/".data).count '/' = 3 := by decide
    have hc' : ("/".data).count '/' = 1 := by decide
    have hc2 : ("/_git/".data).count '/' = 2 := by decide
    simp only [List.count_append, hc, hc', hc2] at hk
    have h0 : t5.count '/' = 0 := by omega
    have hl := getLast?_of_suffix (hsuf.trans ht) hne
    rw [hlast] at hl
    exact List.count_eq_zero.1 h0 (mem_of_getLast? hl)
  · apply FindStringSubmatch_eq_none_of
    intro t st ht hst
    simp only [reVisualStudio, Regex.concat] at hst
    rw [run_seq_assoc] at hst
    obtain ⟨t1, e1, hst⟩ := mem_run_seq_lit hst
    rw [run_seq_assoc] at hst
    obtain ⟨x, t2, _, hx, e2, hst⟩ := mem_run_seq_group_plus hst
    rw [run_seq_assoc] at hst
    obtain ⟨t3, e3, hst⟩ := mem_run_seq_lit hst
    rw [hV, e1] at ht
    have := https_suffix_unique hW ht
    rw [e2, e3] at this
    exact dev_prefix_no_dot (notChar_not_mem hx) this
  · apply FindStringSubmatch_eq_none_of
    intro t st ht hst
    have hk := count_le_of_suffix ht '/'
    rw [hcnt] at hk
    simp only [reTfs, Regex.concat] at hst
    rw [run_seq_assoc] at hst
    obtain ⟨t1, e1, hst⟩ := mem_run_seq_lit hst
    rw [run_seq_assoc] at hst
    obtain ⟨x, t2, _, _, e2, hst⟩ := mem_run_seq_group_plus hst
    rw [run_seq_assoc] at hst
    obtain ⟨t3, e3, hst⟩ := mem_run_seq_lit hst
    rw [run_seq_assoc] at hst
    obtain ⟨y, t4, _, _, e4, hst⟩ := mem_run_seq_group_plus hst
    rw [run_seq_assoc] at hst
    obtain ⟨t5, e5, hst⟩ := mem_run_seq_lit hst
    rw [run_seq_assoc] at hst
    obtain ⟨w, t6, _, _, e6, hst⟩ := mem_run_seq_group_plus hst
    obtain ⟨t7, e7, hst⟩ := mem_run_seq_lit hst
    rw [e1, e2, e3, e4, e5, e6, e7] at hk
    have hc : ("https://".data).count '/' = 2 := by decide
    have hc' : ("/tfs/".data).count '/' = 2 := by decide
    have hc1 : ("/".data).count '/' = 1 := by decide
    have hc2 : ("/_git/".data).count '/' = 2 := by decide
    simp only [List.count_append, hc, hc', hc1, hc2] at hk
    omega
  · apply FindStringSubmatch_eq_none_of
    intro t st ht hst
    simp only [reGitHub, Regex.concat] at hst
    rw [run_seq_assoc] at hst
    obtain ⟨t1, e1, hst⟩ := mem_run_seq_lit hst
    rw [hV, e1] at ht
    have := https_suffix_unique hW ht
    simp at this

theorem cleanRemoteURL_ssh (s : String) (p r : List Char) (z : Char)
    (hs : s.data = 'g' :: 'i' :: 't' :: '@' :: (p ++ z :: r)) (hz : isSpace z = false) :
    cleanRemoteURL s = convertSSHToHTTPS
      ('g' :: 'i' :: 't' :: '@' :: (p ++ z :: (r.reverse.dropWhile isSpace).reverse)) := by
  have ht := TrimSpace_cons_append 'g' z ('i' :: 't' :: '@' :: p) r (by decide) hz
  have ht' : TrimSpace ('g' :: 'i' :: 't' :: '@' :: (p ++ z :: r)) =
      'g' :: 'i' :: 't' :: '@' :: (p ++ z :: (r.reverse.dropWhile isSpace).reverse) := ht
  unfold cleanRemoteURL
  rw [hs, ht']
  have hpre : HasPrefix ('g' :: 'i' :: 't' :: '@' ::
      (p ++ z :: (r.reverse.dropWhile isSpace).reverse)) "git@".data = true := by
    show ('g' :: 'i' :: 't' :: '@' :: []).isPrefixOf _ = true
    simp [List.isPrefixOf]
  simp only [hpre, if_true]

theorem cleanRemoteURL_https_trim (s : String) (q r : List Char)
    (hs : s.data = 'h' :: (q ++ '/' :: r)) :
    cleanRemoteURL s = 'h' :: (q ++ '/' :: (r.reverse.dropWhile isSpace).reverse) := by
  have ht := TrimSpace_cons_append 'h' '/' q r (by decide) (by decide)
  unfold cleanRemoteURL
  rw [hs, ht]
  have hpre : HasPrefix ('h' :: (q ++ '/' :: (r.reverse.dropWhile isSpace).reverse))
      "git@".data = false := by
    show ('g' :: "it@".data).isPrefixOf _ = false
    simp [List.isPrefixOf]
  simp only [hpre]
  rfl

theorem trimRight_subset (r : List Char) :
    ∀ x ∈ (r.reverse.dropWhile isSpace).reverse, x ∈ r := by
  intro x hx
  have h1 : x ∈ r.reverse.dropWhile isSpace := List.mem_reverse.1 hx
  exact List.mem_reverse.1 ((List.dropWhile_suffix isSpace).subset h1)

theorem convertSSHToHTTPS_github (owner repo : List Char) (ho : owner ≠ []) (ho' : '/' ∉ owner)
    (hr : repo ≠ []) (hn : '\n' ∉ repo) :
    convertSSHToHTTPS ("git@github.com:".data ++ (owner ++ '/' :: (repo ++ ".git".data))) =
      "https://github.com/".data ++ (owner ++ '/' :: (repo ++ ".git".data)) := by
  have hc : Contains ("git@github.com:".data ++ (owner ++ '/' :: (repo ++ ".git".data)))
      "github.com".data = true := by
    have e : "git@github.com:".data ++ (owner ++ '/' :: (repo ++ ".git".data)) =
        "git@".data ++ ("github.com".data ++ (':' :: (owner ++ '/' :: (repo ++ ".git".data)))) :=
      rfl
    rw [e]
    exact Contains_append_left _ _ _ (Contains_self_append _ _)
  simp only [convertSSHToHTTPS, hc, if_true, reSSHGitHub_find owner repo ho ho' hr hn]
  simp

theorem convertSSHToHTTPS_azure (org proj r : List Char) (ho : org ≠ []) (ho' : '/' ∉ org)
    (hp : proj ≠ []) (hp' : '/' ∉ proj) (hn : '\n' ∉ r)
    (hgh : FindStringSubmatch reSSHGitHub
      ("git@ssh.dev.azure.com:v3/".data ++ (org ++ '/' :: (proj ++ '/' :: r))) = none) :
    convertSSHToHTTPS ("git@ssh.dev.azure.com:v3/".data ++ (org ++ '/' :: (proj ++ '/' :: r))) =
      if r = [] then "git@ssh.dev.azure.com:v3/".data ++ (org ++ '/' :: (proj ++ ['/']))
      else "https://dev.azure.com/".data ++ (org ++ '/' :: (proj ++ ("/_git/".data ++ r))) := by
  have hc : Contains ("git@ssh.dev.azure.com:v3/".data ++ (org ++ '/' :: (proj ++ '/' :: r)))
      "dev.azure.com".data = true := by
    have e : "git@ssh.dev.azure.com:v3/".data ++ (org ++ '/' :: (proj ++ '/' :: r)) =
        "git@ssh.".data ++ ("dev.azure.com".data ++
          (":v3/".data ++ (org ++ '/' :: (proj ++ '/' :: r)))) := rfl
    rw [e]
    exact Contains_append_left _ _ _ (Contains_self_append _ _)
  by_cases hr : r = []
  · subst hr
    have hf := reSSHAzure_no_repo org proj ho' hp'
    simp only [convertSSHToHTTPS, hgh, hc, hf, if_true, Bool.true_or]
    simp
  · have hf := reSSHAzure_find org proj r ho ho' hp hp' hr hn
    simp only [convertSSHToHTTPS, hgh, hc, hf, if_true, Bool.true_or, if_neg hr]
    simp

/-- C4 (amended).  SSH rewriting followed by classification agrees with classifying the
native HTTPS URL: for every non-empty owner without `/` and non-empty repository without
newline, `git@github.com:{owner}/{repo}.git` and `https://github.com/{owner}/{repo}.git`
give the same result; and for every non-empty org and project without `/` and non-empty
repository without newline, `git@ssh.dev.azure.com:v3/{org}/{project}/{repo}` and
`https://dev.azure.com/{org}/{project}/_git/{repo}` give the same result, provided the
GitHub SSH pattern matches nowhere in the (trimmed) Azure SSH URL. -/
theorem ssh_agrees_with_https (owner org project repo : String)
    (how : owner ≠ "") (how' : '/' ∉ owner.data)
    (ho : org ≠ "") (ho' : '/' ∉ org.data) (hp : project ≠ "") (hp' : '/' ∉ project.data)
    (hr : repo ≠ "") (hn : '\n' ∉ repo.data) :
    ParseGitRemoteURL ("git@github.com:" ++ owner ++ "/" ++ repo ++ ".git") =
      ParseGitRemoteURL ("https://github.com/" ++ owner ++ "/" ++ repo ++ ".git") ∧
    (FindStringSubmatch reSSHGitHub
        (TrimSpace ("git@ssh.dev.azure.com:v3/" ++ org ++ "/" ++ project ++ "/" ++ repo).data)
        = none →
      ParseGitRemoteURL ("git@ssh.dev.azure.com:v3/" ++ org ++ "/" ++ project ++ "/" ++ repo) =
        ParseGitRemoteURL ("https://dev.azure.com/" ++ org ++ "/" ++ project ++ "/_git/" ++ repo))
    := by
  constructor
  · apply ParseGitRemoteURL_congr
    have h1 : ("git@github.com:" ++ owner ++ "/" ++ repo ++ ".git").data =
        'g' :: 'i' :: 't' :: '@' :: (("github.com:".data ++ (owner.data ++ '/' ::
          (repo.data ++ ".gi".data))) ++ 't' :: []) := by
      simp [String.data_append]
    have h2 : ("https://github.com/" ++ owner ++ "/" ++ repo ++ ".git").data =
        'h' :: ("ttps://github.com/".data ++ (owner.data ++ '/' :: (repo.data ++ ".git".data)))
        := by
      simp [String.data_append]
    have hlast : ∀ c ∈ ('h' :: ("ttps://github.com/".data ++ (owner.data ++ '/' ::
        (repo.data ++ ".git".data)))).getLast?, isSpace c = false := by
      have e : 'h' :: ("ttps://github.com/".data ++ (owner.data ++ '/' ::
          (repo.data ++ ".git".data))) =
          ('h' :: ("ttps://github.com/".data ++ (owner.data ++ '/' :: repo.data))) ++
            ".git".data := by simp
      rw [e, getLast?_append_of_ne_nil _ _ (by decide)]
      decide
    rw [cleanRemoteURL_ssh _ _ [] 't' h1 (by decide),
      cleanRemoteURL_of_cons _ 'h' _ h2 (by decide) (by decide) hlast]
    have e' : 'g' :: 'i' :: 't' :: '@' :: (("github.com:".data ++ (owner.data ++ '/' ::
        (repo.data ++ ".gi".data))) ++ 't' :: (([] : List Char).reverse.dropWhile isSpace).reverse)
        = "git@github.com:".data ++ (owner.data ++ '/' :: (repo.data ++ ".git".data)) := by
      simp
    rw [e', convertSSHToHTTPS_github owner.data repo.data (data_ne_nil how) how'
      (data_ne_nil hr) hn]
    rfl
  · intro hgh
    have h1 : ("git@ssh.dev.azure.com:v3/" ++ org ++ "/" ++ project ++ "/" ++ repo).data =
        'g' :: 'i' :: 't' :: '@' :: (("ssh.dev.azure.com:v3/".data ++ (org.data ++ '/' ::
          project.data)) ++ '/' :: repo.data) := by
      simp [String.data_append]
    have h2 : ("https://dev.azure.com/" ++ org ++ "/" ++ project ++ "/_git/" ++ repo).data =
        'h' :: (("ttps://dev.azure.com/".data ++ (org.data ++ '/' :: (project.data ++
          "/_git".data))) ++ '/' :: repo.data) := by
      simp [String.data_append]
    have hU : 'g' :: 'i' :: 't' :: '@' :: (("ssh.dev.azure.com:v3/".data ++ (org.data ++ '/' ::
          project.data)) ++ '/' :: (repo.data.reverse.dropWhile isSpace).reverse) =
        "git@ssh.dev.azure.com:v3/".data ++ (org.data ++ '/' :: (project.data ++ '/' ::
          (repo.data.reverse.dropWhile isSpace).reverse)) := by
      simp
    have hT : TrimSpace ("git@ssh.dev.azure.com:v3/" ++ org ++ "/" ++ project ++ "/" ++
        repo).data = "git@ssh.dev.azure.com:v3/".data ++ (org.data ++ '/' :: (project.data ++
          '/' :: (repo.data.reverse.dropWhile isSpace).reverse)) := by
      rw [h1, ← hU]
      exact TrimSpace_cons_append 'g' '/' ('i' :: 't' :: '@' :: ("ssh.dev.azure.com:v3/".data ++
        (org.data ++ '/' :: project.data))) repo.data (by decide) (by decide)
    rw [hT] at hgh
    have hn' : '\n' ∉ (repo.data.reverse.dropWhile isSpace).reverse :=
      fun h => hn (trimRight_subset _ _ h)
    have hconv := convertSSHToHTTPS_azure org.data project.data _ (data_ne_nil ho) ho'
      (data_ne_nil hp) hp' hn' hgh
    have hc1 := cleanRemoteURL_ssh _ _ repo.data '/' h1 (by decide)
    rw [hU, hconv] at hc1
    have hc2 := cleanRemoteURL_https_trim _ _ repo.data h2
    by_cases hr' : (repo.data.reverse.dropWhile isSpace).reverse = []
    · rw [if_pos hr'] at hc1
      rw [hr'] at hc2
      have hcnt : ("git@ssh.dev.azure.com:v3/".data ++ (org.data ++ '/' ::
          (project.data ++ ['/']))).count '/' < 4 := by
        have hc : ("git@ssh.dev.azure.com:v3/".data).count '/' = 1 := by decide
        simp only [List.count_append, List.count_cons_self, List.count_nil, hc,
          count_slash_of_not_mem ho', count_slash_of_not_mem hp']
        omega
      obtain ⟨ha, hg⟩ := https_patterns_need_four_slashes _ hcnt
      obtain ⟨ha', hg'⟩ := devAzure_no_repo org.data project.data (data_ne_nil ho) ho'
        (data_ne_nil hp) hp'
      have hc2' : cleanRemoteURL ("https://dev.azure.com/" ++ org ++ "/" ++ project ++
          "/_git/" ++ repo) = "https://dev.azure.com/".data ++ (org.data ++ '/' ::
            (project.data ++ "/_git/".data)) := by
        rw [hc2]; simp
      rw [ParseGitRemoteURL_of_not_azure _ _ hc1 ha, ParseGitRemoteURL_of_not_azure _ _ hc2' ha']
      unfold parseGitHubURL
      rw [hg, hg']
    · rw [if_neg hr'] at hc1
      apply ParseGitRemoteURL_congr
      rw [hc1, hc2]
      simp

/-- C4, witness of the amended statement: `acme`, `widgets`, `core`. -/
theorem ssh_agrees_with_https_witness :
    ParseGitRemoteURL ("git@github.com:" ++ "acme" ++ "/" ++ "core" ++ ".git") =
      ParseGitRemoteURL ("https://github.com/" ++ "acme" ++ "/" ++ "core" ++ ".git") ∧
    ParseGitRemoteURL ("git@ssh.dev.azure.com:v3/" ++ "acme" ++ "/" ++ "widgets" ++ "/" ++ "core") =
      ParseGitRemoteURL ("https://dev.azure.com/" ++ "acme" ++ "/" ++ "widgets" ++ "/_git/" ++ "core")
    :=
  ⟨(ssh_agrees_with_https "acme" "acme" "widgets" "core" (by decide) (by decide) (by decide)
      (by decide) (by decide) (by decide) (by decide) (by decide)).1,
   (ssh_agrees_with_https "acme" "acme" "widgets" "core" (by decide) (by decide) (by decide)
      (by decide) (by decide) (by decide) (by decide) (by decide)).2 (by decide)⟩

/-- C4, counterexample to the claim as stated: with the organization `git@github.com:x`
(non-empty, no `/`), project `p` and repository `r.git`, the Azure DevOps SSH remote is
rewritten by the GitHub SSH pattern, which is tried first and is not anchored, and is
classified as GitHub, while the native HTTPS URL is classified as Azure DevOps. -/
theorem azure_ssh_rewritten_as_github :
    (("git@github.com:x" : String) ≠ "" ∧ '/' ∉ ("git@github.com:x" : String).data ∧
      '\n' ∉ ("r.git" : String).data) ∧
    ParseGitRemoteURL
      ("git@ssh.dev.azure.com:v3/" ++ "git@github.com:x" ++ "/" ++ "p" ++ "/" ++ "r.git") =
      (some { Provider := GitHub, Organization := "x", Project := "", Repository := "p/r",
              BaseURL := "https://github.com" }, none) ∧
    ParseGitRemoteURL
      ("https://dev.azure.com/" ++ "git@github.com:x" ++ "/" ++ "p" ++ "/_git/" ++ "r.git") =
      (some { Provider := AzureDevOps, Organization := "git@github.com:x", Project := "p",
              Repository := "r", BaseURL := "https://dev.azure.com" }, none) := by
  decide

/-! ## The provider manager -/

/-- C11.  `InitializeProvider` is atomic on failure: whenever the factory returns an error
for the configuration the manager resolved, `InitializeProvider` returns an error that
wraps it, whose message names the attempted provider type, and the manager (active
provider and registry) is exactly what it was before the call. -/
theorem initialize_provider_atomic (w : World) (pm : ProviderManager) (cfg : Config)
    (repoPath : String) (err : GoError)
    (h : NewProvider w (addEnvironmentToken w (selectProviderConfig w cfg repoPath)) =
      .error err) :
    InitializeProvider w pm cfg repoPath =
      (pm, some (.wrap ("failed to initialize " ++
        (addEnvironmentToken w (selectProviderConfig w cfg repoPath)).Type_ ++ " provider: ")
        err)) ∧
    (InitializeProvider w pm cfg repoPath).1.current = pm.current ∧
    (InitializeProvider w pm cfg repoPath).1.providers = pm.providers ∧
    (∀ e, (InitializeProvider w pm cfg repoPath).2 = some e →
      e.Error = "failed to initialize " ++
        (addEnvironmentToken w (selectProviderConfig w cfg repoPath)).Type_ ++ " provider: " ++
        err.Error) := by
  have h0 : InitializeProvider w pm cfg repoPath =
      (pm, some (.wrap ("failed to initialize " ++
        (addEnvironmentToken w (selectProviderConfig w cfg repoPath)).Type_ ++ " provider: ")
        err)) := by
    simp only [InitializeProvider, h]
  refine ⟨h0, by rw [h0], by rw [h0], ?_⟩
  intro e he
  rw [h0] at he
  simp only [Option.some.injEq] at he
  rw [← he]
  rfl

/-- C11, witness: a manager whose active provider is an Azure DevOps provider, no explicit
section, no readable git remote, and no GitHub client available; the Azure DevOps
provider stays active. -/
theorem initialize_provider_atomic_witness :
    InitializeProvider worldWithoutGitHubAuth
        { providers := [(AzureDevOps, .azure (NewAzureDevOpsProvider
            { Type_ := AzureDevOps, Organization := "acme", Project := "widgets",
              BaseURL := "", Token := "t" }))],
          current := some (.azure (NewAzureDevOpsProvider
            { Type_ := AzureDevOps, Organization := "acme", Project := "widgets",
              BaseURL := "", Token := "t" })) }
        { Provider := none } "" =
      ({ providers := [(AzureDevOps, .azure (NewAzureDevOpsProvider
            { Type_ := AzureDevOps, Organization := "acme", Project := "widgets",
              BaseURL := "", Token := "t" }))],
         current := some (.azure (NewAzureDevOpsProvider
            { Type_ := AzureDevOps, Organization := "acme", Project := "widgets",
              BaseURL := "", Token := "t" })) },
       some (.wrap "failed to initialize github provider: "
        (.new "authentication token not found for host github.com"))) :=
  (initialize_provider_atomic worldWithoutGitHubAuth _ { Provider := none } ""
    (.new "authentication token not found for host github.com") rfl).1

theorem initialize_provider_current_none (w : World) (pm : ProviderManager) (cfg : Config)
    (repoPath : String) (h : pm.current = none)
    (he : (InitializeProvider w pm cfg repoPath).2 ≠ none) :
    (InitializeProvider w pm cfg repoPath).1.current = none := by
  unfold InitializeProvider at he ⊢
  cases hp : NewProvider w (addEnvironmentToken w (selectProviderConfig w cfg repoPath)) with
  | error err => simp only [hp]; exact h
  | ok p => simp only [hp] at he; exact absurd rfl he

theorem initProvidersAll_failing (calls : List (World × Config × String)) :
    ∀ g : Option ProviderManager, (∀ pm, g = some pm → pm.current = none) →
      (∀ e ∈ (data.initProvidersAll g calls).2, e ≠ none) →
      ∀ pm, (data.initProvidersAll g calls).1 = some pm → pm.current = none := by
  induction calls with
  | nil => intro g hg _ pm hpm; exact hg pm hpm
  | cons call calls ih =>
    obtain ⟨w, cfg, repoPath⟩ := call
    intro g hg hall pm hpm
    simp only [data.initProvidersAll] at hall hpm
    have he : (data.InitProviders w g cfg repoPath).2 ≠ none :=
      hall _ (List.mem_cons_self _ _)
    apply ih (data.InitProviders w g cfg repoPath).1 _ _ pm hpm
    · intro pm' hpm'
      simp only [data.InitProviders, Option.some.injEq] at hpm' he
      rw [← hpm']
      apply initialize_provider_current_none _ _ _ _ _ he
      cases g with
      | none => rfl
      | some pm0 => exact hg pm0 rfl
    · intro e hmem
      exact hall e (List.mem_cons_of_mem _ hmem)

theorem initProvidersAll_isSome (calls : List (World × Config × String)) (hne : calls ≠ []) :
    ∀ g : Option ProviderManager, ∃ pm, (data.initProvidersAll g calls).1 = some pm := by
  induction calls with
  | nil => exact absurd rfl hne
  | cons call calls ih =>
    obtain ⟨w, cfg, repoPath⟩ := call
    intro g
    cases calls with
    | nil => exact ⟨_, rfl⟩
    | cons c2 calls => exact ih (by simp) _

/-- C12, counterexample to the claim as stated: before any `InitProviders` call the
process-wide accessor `data.GetProviderInfo` returns the type `github`, a zero `AuthInfo`
and a nil error. -/
theorem get_provider_info_before_init :
    data.GetProviderInfo none = (GitHub, AuthInfo.zero, none) ∧
    (data.GetProviderInfo none).2.2 = none := by
  exact ⟨rfl, rfl⟩

/-- C12 (amended).  While no provider initialization has succeeded, the method
`(*ProviderManager).GetProviderInfo` returns the error `no provider initialized` (with an
empty type and a zero `AuthInfo`), never a success; the process-wide accessor
`data.GetProviderInfo` returns that same error once `InitProviders` has been called, every
call having failed, and before the first `InitProviders` call it returns
`(github, AuthInfo{}, nil)`. -/
theorem get_provider_info_uninitialized :
    (∀ pm : ProviderManager, pm.current = none →
      pm.GetProviderInfo = ("", AuthInfo.zero, some (.new "no provider initialized"))) ∧
    NewProviderManager.GetProviderInfo =
      ("", AuthInfo.zero, some (.new "no provider initialized")) ∧
    (∀ calls : List (World × Config × String), calls ≠ [] →
      (∀ e ∈ (data.initProvidersAll none calls).2, e ≠ none) →
      data.GetProviderInfo (data.initProvidersAll none calls).1 =
        ("", AuthInfo.zero, some (.new "no provider initialized"))) ∧
    data.GetProviderInfo none = (GitHub, AuthInfo.zero, none) := by
  have h1 : ∀ pm : ProviderManager, pm.current = none →
      pm.GetProviderInfo = ("", AuthInfo.zero, some (.new "no provider initialized")) := by
    intro pm h
    simp only [ProviderManager.GetProviderInfo, h]
  refine ⟨h1, h1 _ rfl, ?_, rfl⟩
  intro calls hne hall
  obtain ⟨pm, hpm⟩ := initProvidersAll_isSome calls hne none
  have hcur := initProvidersAll_failing calls none (by intro pm h; cases h) hall pm hpm
  rw [hpm]
  exact h1 pm hcur

/-- C17, counterexample to the claim as stated: an explicit section with an empty type is
used verbatim, although the git remote is an Azure DevOps repository; with no section
the configuration is the one detected from the remote. -/
theorem explicit_section_with_empty_type :
    selectProviderConfig worldWithAzureRemote
        { Provider := some { Type_ := "", Organization := "o", Project := "p",
                             BaseURL := "b", Token := "t" } } "" =
      { Type_ := "", Organization := "o", Project := "p", BaseURL := "b", Token := "t" } ∧
    selectProviderConfig worldWithAzureRemote { Provider := none } "" =
      { Type_ := AzureDevOps, Organization := "acme", Project := "widgets",
        BaseURL := "https://dev.azure.com", Token := "" } := by
  decide

/-- C17 (amended).  The explicit provider section is used whenever it is present: for
every config, `InitializeProvider` takes the provider configuration verbatim from the
explicit section if and only if the section is present (non-nil), whatever its type, the
empty type included, and then the git remote plays no part in the outcome; the
configuration is derived from git-remote detection only when no section is supplied. -/
theorem explicit_section_used_when_present (w : World) (repoPath : String) :
    (∀ p : ConfigProvider,
      selectProviderConfig w { Provider := some p } repoPath =
        { Type_ := p.Type_, Organization := p.Organization, Project := p.Project,
          BaseURL := p.BaseURL, Token := p.Token }) ∧
    (selectProviderConfig w { Provider := none } repoPath =
      match detectProviderFromGit w repoPath with
      | .error _ =>
        { Type_ := GitHub, Organization := "", Project := "", BaseURL := "", Token := "" }
      | .ok detectedConfig => detectedConfig) ∧
    (∀ (pm : ProviderManager) (p : ConfigProvider)
        (origin : String → Except GoError String),
      InitializeProvider { w with GetOriginUrl := origin } pm { Provider := some p } repoPath =
        InitializeProvider w pm { Provider := some p } repoPath) :=
  ⟨fun _ => rfl, rfl, fun _ _ _ => rfl⟩

theorem ParseGitRemoteURL_of_no_match (s : String)
    (h0 : FindStringSubmatch reDevAzure (cleanRemoteURL s) = none)
    (h1 : FindStringSubmatch reVisualStudio (cleanRemoteURL s) = none)
    (h2 : FindStringSubmatch reTfs (cleanRemoteURL s) = none)
    (h3 : FindStringSubmatch reGitHub (cleanRemoteURL s) = none) :
    ParseGitRemoteURL s = (some unknownRemote, none) := by
  rw [ParseGitRemoteURL_of_not_azure s _ rfl
    ((parseAzureDevOpsURL_eq_none_iff _).2 ⟨h0, h1, h2⟩)]
  unfold parseGitHubURL
  rw [h3]

/-- C18, counterexample to the claim as stated: with no explicit section and a remote URL
that matches no grammar, the configuration handed to the factory has the organization
`unknown` and the base URL `https://github.com`. -/
theorem unknown_remote_configuration :
    addEnvironmentToken worldWithUnknownRemote
        (selectProviderConfig worldWithUnknownRemote { Provider := none } "") =
      { Type_ := GitHub, Organization := "unknown", Project := "",
        BaseURL := "https://github.com", Token := "" } := by
  decide

/-- C18 (amended).  With no explicit provider section: when the git remote cannot be read,
the configuration handed to the factory is the bare GitHub configuration (type GitHub,
empty organization, project, base URL and token); when the remote is read but its cleaned
URL matches no grammar, the configuration has type GitHub and an empty project and token,
with the organization `unknown` and the base URL `https://github.com`. -/
theorem detection_failure_configuration (w : World) (repoPath : String) :
    (∀ err, w.GetOriginUrl (if repoPath = "" then "." else repoPath) = .error err →
      addEnvironmentToken w (selectProviderConfig w { Provider := none } repoPath) =
        { Type_ := GitHub, Organization := "", Project := "", BaseURL := "", Token := "" }) ∧
    (∀ remoteURL, w.GetOriginUrl (if repoPath = "" then "." else repoPath) = .ok remoteURL →
      FindStringSubmatch reDevAzure (cleanRemoteURL remoteURL) = none →
      FindStringSubmatch reVisualStudio (cleanRemoteURL remoteURL) = none →
      FindStringSubmatch reTfs (cleanRemoteURL remoteURL) = none →
      FindStringSubmatch reGitHub (cleanRemoteURL remoteURL) = none →
      addEnvironmentToken w (selectProviderConfig w { Provider := none } repoPath) =
        { Type_ := GitHub, Organization := "unknown", Project := "",
          BaseURL := "https://github.com", Token := "" }) := by
  have hg : getTokenFromEnvironment w GitHub = "" := by
    simp [getTokenFromEnvironment]
  constructor
  · intro err h
    simp only [selectProviderConfig, detectProviderFromGit, h, addEnvironmentToken, if_true, hg]
  · intro remoteURL h h0 h1 h2 h3
    have hp := ParseGitRemoteURL_of_no_match remoteURL h0 h1 h2 h3
    simp only [selectProviderConfig, detectProviderFromGit, h, GetProviderConfigFromRemote, hp,
      addEnvironmentToken, if_true, hg]
    show ProviderConfig.mk GitHub "unknown" "" "https://github.com"
      (getTokenFromEnvironment w GitHub) = _
    rw [hg]

/-! ## The on-premises pattern -/

theorem reTfs_run (server coll proj y : List Char) (c : List (List Char))
    (hs : server ≠ []) (hs' : '/' ∉ server) (ho : coll ≠ []) (ho' : '/' ∉ coll)
    (hp : proj ≠ []) (hp' : '/' ∉ proj) :
    reTfs.run ("https://".data ++ (server ++ '/' :: ("tfs/".data ++ (coll ++ '/' :: (proj ++
      ('/' :: '_' :: 'g' :: 'i' :: 't' :: '/' :: y))))), c) =
      (repoTail 4).run (y, ((c.set 1 server).set 2 coll).set 3 proj) := by
  simp only [reTfs, Regex.concat]
  rw [run_seq_assoc, run_seq_lit_append, run_seq_assoc]
  rw [run_group_plus_then 1 _ _ server '/' _ c hs (notChar_test_of_not_mem _ _ hs')
    (notChar_test_self _)]
  · rw [run_seq_assoc]
    rw [show ('/' :: ("tfs/".data ++ (coll ++ '/' :: (proj ++
        ('/' :: '_' :: 'g' :: 'i' :: 't' :: '/' :: y))))) =
        "/tfs/".data ++ (coll ++ '/' :: (proj ++
        ('/' :: '_' :: 'g' :: 'i' :: 't' :: '/' :: y))) from rfl]
    rw [run_seq_lit_append, run_seq_assoc]
    rw [run_group_plus_then 2 _ _ coll '/' _ _ ho (notChar_test_of_not_mem _ _ ho')
      (notChar_test_self _)]
    · rw [run_seq_assoc]
      rw [run_seq_lit_singleton, run_seq_assoc]
      rw [run_group_plus_then 3 _ _ proj '/' _ _ hp (notChar_test_of_not_mem _ _ hp')
        (notChar_test_self _)]
      · exact run_seq_lit_append "/_git/".data y _ _
      · intro x hx t c'
        exact run_seq_lit_cons_ne '/' x _ t c' _ (fun e => hp' (e ▸ hx))
    · intro x hx t c'
      rw [run_seq_assoc]
      exact run_seq_lit_cons_ne '/' x _ t c' _ (fun e => ho' (e ▸ hx))
  · intro x hx t c'
    rw [run_seq_assoc]
    exact run_seq_lit_cons_ne '/' x _ t c' _ (fun e => hs' (e ▸ hx))

theorem reTfs_find (server coll proj y sfx : List Char)
    (hs : server ≠ []) (hs' : '/' ∉ server) (ho : coll ≠ []) (ho' : '/' ∉ coll)
    (hp : proj ≠ []) (hp' : '/' ∉ proj)
    (hy : y ≠ []) (hn : '\n' ∉ y) (hgit : ¬ ".git".data <:+ y) (hsl : ¬ "/".data <:+ y)
    (hsf : sfx ∈ repoSuffixes) :
    FindStringSubmatch reTfs ("https://".data ++ (server ++ '/' :: ("tfs/".data ++
      (coll ++ '/' :: (proj ++ ('/' :: '_' :: 'g' :: 'i' :: 't' :: '/' :: (y ++ sfx))))))) =
    some ["https://".data ++ (server ++ '/' :: ("tfs/".data ++
      (coll ++ '/' :: (proj ++ ('/' :: '_' :: 'g' :: 'i' :: 't' :: '/' :: (y ++ sfx)))))),
      server, coll, proj, y] := by
  apply FindStringSubmatch_of_matchAt
  rw [matchAt_eq_head, reTfs_run server coll proj (y ++ sfx) _ hs hs' ho ho' hp hp',
    repoTail_run_head 4 y sfx _ hy hgit hsl hsf, if_neg hn]
  have h4 : reTfs.numSubexp = 4 := rfl
  simp [h4, List.replicate, List.set]

theorem parseAzureDevOpsURL_of_tfs {url w m1 m2 m3 m4 : List Char}
    (hd : FindStringSubmatch reDevAzure url = none)
    (hv : FindStringSubmatch reVisualStudio url = none)
    (h : FindStringSubmatch reTfs url = some [w, m1, m2, m3, m4]) :
    parseAzureDevOpsURL url =
      some { Provider := AzureDevOps, Organization := ⟨m2⟩, Project := ⟨m3⟩,
             Repository := ⟨m4⟩, BaseURL := "https://" ++ ⟨m1⟩ } := by
  unfold parseAzureDevOpsURL
  rw [hd, hv, h]

/-- C19, counterexample to the claim as stated: with the repository name `core ` (trailing
space; non-empty, no newline, not ending in `.git` or `/`) the URL
`https://tfs.example.com/tfs/DefaultCollection/widgets/_git/core ` matches neither cloud
pattern, yet the parser returns the repository `core`, not `core `. -/
theorem parse_tfs_trailing_space :
    (("core " : String) ≠ "" ∧ '\n' ∉ ("core " : String).data ∧
      ¬ ".git".data <:+ ("core " : String).data ∧ ¬ "/".data <:+ ("core " : String).data) ∧
    FindStringSubmatch reDevAzure
      ("https://tfs.example.com/tfs/DefaultCollection/widgets/_git/core ").data = none ∧
    FindStringSubmatch reVisualStudio
      ("https://tfs.example.com/tfs/DefaultCollection/widgets/_git/core ").data = none ∧
    ParseGitRemoteURL ("https://" ++ "tfs.example.com" ++ "/tfs/" ++ "DefaultCollection" ++ "/" ++
        "widgets" ++ "/_git/" ++ "core ")
      = (some { Provider := AzureDevOps, Organization := "DefaultCollection",
                Project := "widgets", Repository := "core",
                BaseURL := "https://tfs.example.com" }, none) ∧
    ParseGitRemoteURL ("https://" ++ "tfs.example.com" ++ "/tfs/" ++ "DefaultCollection" ++ "/" ++
        "widgets" ++ "/_git/" ++ "core ")
      ≠ (some { Provider := AzureDevOps, Organization := "DefaultCollection",
                Project := "widgets", Repository := "core ",
                BaseURL := "https://" ++ "tfs.example.com" }, none) := by
  decide

/-- C19 (amended).  For every non-empty server host, collection and project without `/`,
and every non-empty repository name that contains no newline, does not end in `.git` or
`/` and does not end in a white-space character: if the URL
`https://{server}/tfs/{collection}/{project}/_git/{repo}` matches neither the
`dev.azure.com` nor the `visualstudio.com` pattern, `ParseGitRemoteURL` returns a nil error
and the Azure DevOps remote with organization `collection`, project `project`, repository
`repo` and base URL `https://{server}`. -/
theorem parse_tfs_https (server coll project repo : String)
    (hs : server ≠ "") (hs' : '/' ∉ server.data)
    (ho : coll ≠ "") (ho' : '/' ∉ coll.data) (hp : project ≠ "") (hp' : '/' ∉ project.data)
    (hr : repo ≠ "") (hn : '\n' ∉ repo.data) (hgit : ¬ ".git".data <:+ repo.data)
    (hsl : ¬ "/".data <:+ repo.data) (hsp : ∀ c ∈ repo.data.getLast?, isSpace c = false)
    (hd : FindStringSubmatch reDevAzure
      ("https://" ++ server ++ "/tfs/" ++ coll ++ "/" ++ project ++ "/_git/" ++ repo).data = none)
    (hv : FindStringSubmatch reVisualStudio
      ("https://" ++ server ++ "/tfs/" ++ coll ++ "/" ++ project ++ "/_git/" ++ repo).data = none) :
    ParseGitRemoteURL ("https://" ++ server ++ "/tfs/" ++ coll ++ "/" ++ project ++ "/_git/" ++ repo) =
      (some { Provider := AzureDevOps, Organization := coll, Project := project,
              Repository := repo, BaseURL := "https://" ++ server }, none) := by
  have hdata : ("https://" ++ server ++ "/tfs/" ++ coll ++ "/" ++ project ++ "/_git/" ++ repo).data =
      'h' :: ("ttps://".data ++ (server.data ++ '/' :: ("tfs/".data ++ (coll.data ++ '/' ::
        (project.data ++ ('/' :: '_' :: 'g' :: 'i' :: 't' :: '/' :: (repo.data ++ []))))))) := by
    simp [String.data_append]
  have hlast : ∀ c ∈ ('h' :: ("ttps://".data ++ (server.data ++ '/' :: ("tfs/".data ++
      (coll.data ++ '/' :: (project.data ++ ('/' :: '_' :: 'g' :: 'i' :: 't' :: '/' ::
      (repo.data ++ [])))))))).getLast?, isSpace c = false := by
    have e : 'h' :: ("ttps://".data ++ (server.data ++ '/' :: ("tfs/".data ++
      (coll.data ++ '/' :: (project.data ++ ('/' :: '_' :: 'g' :: 'i' :: 't' :: '/' ::
      (repo.data ++ []))))))) =
      ('h' :: ("ttps://".data ++ (server.data ++ '/' :: ("tfs/".data ++
      (coll.data ++ '/' :: (project.data ++ ['/', '_', 'g', 'i', 't', '/'])))))) ++ repo.data := by
      simp
    rw [e, getLast?_append_of_ne_nil _ _ (data_ne_nil hr)]
    exact hsp
  rw [hdata] at hd hv
  exact ParseGitRemoteURL_of_azure _ _ _
    (cleanRemoteURL_of_cons _ 'h' _ hdata (by decide) (by decide) hlast)
    (parseAzureDevOpsURL_of_tfs hd hv
      (reTfs_find server.data coll.data project.data repo.data [] (data_ne_nil hs) hs'
        (data_ne_nil ho) ho' (data_ne_nil hp) hp' (data_ne_nil hr) hn hgit hsl
        (by simp [repoSuffixes])))

/-- C19, witness of the amended statement with the server `dev.azure.com`: the extra
path segment makes the cloud pattern fail and the on-premises pattern apply. -/
theorem parse_tfs_https_witness :
    ParseGitRemoteURL ("https://" ++ "dev.azure.com" ++ "/tfs/" ++ "acme" ++ "/" ++ "widgets" ++
        "/_git/" ++ "core")
      = (some { Provider := AzureDevOps, Organization := "acme", Project := "widgets",
                Repository := "core", BaseURL := "https://" ++ "dev.azure.com" }, none) :=
  parse_tfs_https "dev.azure.com" "acme" "widgets" "core" (by decide) (by decide) (by decide)
    (by decide) (by decide) (by decide) (by decide) (by decide) (by decide) (by decide)
    (by decide) (by decide) (by decide)

/-! ## The Azure DevOps fetch operations -/

/-- C15.  For every Azure DevOps provider, HTTP endpoint and `(query, limit, pageInfo)`:
with an empty organization or project, `FetchPullRequests` returns the zero response and
the configuration error "Azure DevOps organization and project are required", whatever
the token, and sends no request; with both set and an empty token it returns the zero
response and a different error, whose message names `AZURE_DEVOPS_TOKEN`, `ADO_PAT` and
`AZURE_PAT`, and again sends no request. -/
theorem azure_fetch_pull_requests_errors (h : HTTP) (p : AzureDevOpsProvider) (query : String)
    (limit : Int) (pageInfo : Option PageInfo) :
    (p.organization = "" ∨ p.project = "" →
      p.FetchPullRequests h query limit pageInfo =
        ((PullRequestsResponse.zero,
          some (.new "Azure DevOps organization and project are required")), [])) ∧
    (p.organization ≠ "" → p.project ≠ "" → p.token = "" →
      p.FetchPullRequests h query limit pageInfo =
        ((PullRequestsResponse.zero,
          some (.new ("Azure DevOps Personal Access Token is required. " ++
            "Set AZURE_DEVOPS_TOKEN, ADO_PAT, or AZURE_PAT environment variable"))), [])) ∧
    GoError.new ("Azure DevOps Personal Access Token is required. " ++
        "Set AZURE_DEVOPS_TOKEN, ADO_PAT, or AZURE_PAT environment variable") ≠
      GoError.new "Azure DevOps organization and project are required" ∧
    (∀ name ∈ ["AZURE_DEVOPS_TOKEN", "ADO_PAT", "AZURE_PAT"],
      Contains (GoError.new ("Azure DevOps Personal Access Token is required. " ++
        "Set AZURE_DEVOPS_TOKEN, ADO_PAT, or AZURE_PAT environment variable")).Error.data
        name.data = true) := by
  refine ⟨?_, ?_, by decide, by decide⟩
  · intro hcfg
    unfold AzureDevOpsProvider.FetchPullRequests
    rw [if_pos hcfg]
  · intro ho hp ht
    unfold AzureDevOpsProvider.FetchPullRequests
    rw [if_neg (by simp [ho, hp]), if_pos ht]

/-- C15, instances: a provider without organization and one without token, against an
endpoint that would answer 200. -/
theorem azure_fetch_pull_requests_errors_witness :
    (azureProviderOf "" "widgets" "pat").FetchPullRequests httpAnswering200 "is:open" 20 none =
      ((PullRequestsResponse.zero,
        some (.new "Azure DevOps organization and project are required")), []) ∧
    (azureProviderOf "acme" "widgets" "").FetchPullRequests httpAnswering200 "is:open" 20 none =
      ((PullRequestsResponse.zero,
        some (.new ("Azure DevOps Personal Access Token is required. " ++
          "Set AZURE_DEVOPS_TOKEN, ADO_PAT, or AZURE_PAT environment variable"))), []) :=
  ⟨(azure_fetch_pull_requests_errors httpAnswering200 _ "is:open" 20 none).1
      (Or.inl (by decide)),
    (azure_fetch_pull_requests_errors httpAnswering200 _ "is:open" 20 none).2.1
      (by decide) (by decide) (by decide)⟩

/-- C16, the code departs from the claim.  `FetchIssues` has neither check of its sibling
`FetchPullRequests`: for the provider built from an empty configuration (no organization,
no project, no token) and an endpoint answering 200, `FetchPullRequests` returns the
configuration error and sends nothing, while `FetchIssues` sends one unauthenticated POST
to `https://dev.azure.com///_apis/wit/wiql?api-version=7.1` and returns an empty response
with a nil error; with organization and project set and no token it does the same, where
`FetchPullRequests` returns the authentication error.  Against that endpoint
`FetchIssues` sends one request and returns a nil error for every provider. -/
theorem azure_fetch_issues_without_checks :
    (azureProviderOf "" "" "").FetchPullRequests httpAnswering200 "" 20 none =
      ((PullRequestsResponse.zero,
        some (.new "Azure DevOps organization and project are required")), []) ∧
    (azureProviderOf "" "" "").FetchIssues httpAnswering200 "" 20 none =
      ((IssuesResponse.zero, none),
        [{ Method := "POST", URL := "https://dev.azure.com///_apis/wit/wiql?api-version=7.1",
           Body := "SELECT [System.Id], [System.Title], [System.State], [System.CreatedBy], " ++
             "[System.CreatedDate], [System.ChangedDate] FROM workitems " ++
             "WHERE [System.TeamProject] = ''",
           Header := [("Content-Type", "application/json")] }]) ∧
    ((azureProviderOf "acme" "widgets" "").FetchPullRequests
        httpAnswering200 "" 20 none).1.2 =
      some (.new ("Azure DevOps Personal Access Token is required. " ++
        "Set AZURE_DEVOPS_TOKEN, ADO_PAT, or AZURE_PAT environment variable")) ∧
    ((azureProviderOf "acme" "widgets" "").FetchIssues
        httpAnswering200 "" 20 none).1 = (IssuesResponse.zero, none) ∧
    (∀ (p : AzureDevOpsProvider) (query : String) (limit : Int) (pageInfo : Option PageInfo),
      (p.FetchIssues httpAnswering200 query limit pageInfo).1 = (IssuesResponse.zero, none) ∧
      (p.FetchIssues httpAnswering200 query limit pageInfo).2.length = 1) := by
  exact ⟨rfl, rfl, rfl, rfl, fun p query limit pageInfo => ⟨rfl, rfl⟩⟩

/-! ## The wrappers of the compatibility shim -/

theorem activeProvider_eq_none_of_current (s : Services) (g : Option ProviderManager)
    (h : ∀ pm, g = some pm → pm.current = none) : data.activeProvider s g = none := by
  cases g with
  | none => rfl
  | some pm =>
    have hc : pm.current = none := h pm rfl
    simp [data.activeProvider, data.GetCurrentProvider, ProviderManager.GetCurrentProvider, hc]

/-- C13.  For each of the three wrappers and every argument tuple: when there is no active
provider, or the active provider declares that it lacks the capability
(`SupportsPullRequests` for the two pull-request wrappers, `SupportsIssues` for the issue
wrapper), the wrapper returns exactly what the legacy function returns on the same
arguments, and the only call it makes is that legacy call: no fetch method of the provider
is invoked.  There is no active provider before any `InitProviders` call and after any
sequence of `InitProviders` calls that all returned an error. -/
theorem wrappers_fall_back_to_legacy (legacy : data.Legacy) (provider : Option GitProviderIface)
    (query : String) (limit : Int) (pageInfo : Option PageInfo) (url : String) :
    ((provider = none ∨ ∃ p, provider = some p ∧ p.SupportsPullRequests = false) →
      data.FetchPullRequestsWithProvider legacy provider query limit pageInfo =
        (legacy.FetchPullRequests query limit pageInfo,
          [.legacyFetchPullRequests query limit pageInfo])) ∧
    ((provider = none ∨ ∃ p, provider = some p ∧ p.SupportsIssues = false) →
      data.FetchIssuesWithProvider legacy provider query limit pageInfo =
        (legacy.FetchIssues query limit pageInfo, [.legacyFetchIssues query limit pageInfo])) ∧
    ((provider = none ∨ ∃ p, provider = some p ∧ p.SupportsPullRequests = false) →
      data.FetchPullRequestWithProvider legacy provider url =
        (legacy.FetchPullRequest url, [.legacyFetchPullRequest url])) ∧
    (∀ c ∈ [data.Call.legacyFetchPullRequests query limit pageInfo,
        data.Call.legacyFetchIssues query limit pageInfo, data.Call.legacyFetchPullRequest url],
      c.isProviderFetch = false) ∧
    (∀ s : Services, data.activeProvider s none = none) ∧
    (∀ (s : Services) (calls : List (World × Config × String)),
      (∀ e ∈ (data.initProvidersAll none calls).2, e ≠ none) →
      data.activeProvider s (data.initProvidersAll none calls).1 = none) := by
  refine ⟨?_, ?_, ?_, ?_, fun _ => rfl, ?_⟩
  · rintro (rfl | ⟨p, rfl, hp⟩)
    · rfl
    · simp [data.FetchPullRequestsWithProvider, hp]
  · rintro (rfl | ⟨p, rfl, hp⟩)
    · rfl
    · simp [data.FetchIssuesWithProvider, hp]
  · rintro (rfl | ⟨p, rfl, hp⟩)
    · rfl
    · simp [data.FetchPullRequestWithProvider, hp]
  · intro c hc
    simp only [List.mem_cons, List.mem_singleton, List.not_mem_nil, or_false] at hc
    rcases hc with rfl | rfl | rfl <;> rfl
  · intro s calls hall
    apply activeProvider_eq_none_of_current
    exact initProvidersAll_failing calls none (fun pm h => by cases h) hall

/-- C13, instances: with no provider, and with a provider that declares neither
capability (and whose fetch methods would fail), the three wrappers answer what the legacy
functions answer. -/
theorem wrappers_fall_back_to_legacy_witness :
    data.FetchPullRequestsWithProvider legacyStub none "is:open" 20 none =
      (legacyStub.FetchPullRequests "is:open" 20 none,
        [.legacyFetchPullRequests "is:open" 20 none]) ∧
    data.FetchIssuesWithProvider legacyStub
        (some (stubProvider false false (some (.new "boom")) ([], none))) "is:open" 20 none =
      (legacyStub.FetchIssues "is:open" 20 none, [.legacyFetchIssues "is:open" 20 none]) ∧
    data.FetchPullRequestWithProvider legacyStub
        (some (stubProvider false false (some (.new "boom")) ([], none))) "u" =
      (legacyStub.FetchPullRequest "u", [.legacyFetchPullRequest "u"]) :=
  ⟨(wrappers_fall_back_to_legacy legacyStub none "is:open" 20 none "u").1 (Or.inl rfl),
    (wrappers_fall_back_to_legacy legacyStub _ "is:open" 20 none "u").2.1
      (Or.inr ⟨_, rfl, rfl⟩),
    (wrappers_fall_back_to_legacy legacyStub _ "is:open" 20 none "u").2.2.1
      (Or.inr ⟨_, rfl, rfl⟩)⟩

/-- C14.  For each of the three wrappers: when the active provider declares the capability
and its fetch method returns the error `e`, the wrapper returns the zero value of its
result type together with exactly `e`, and the only call it makes is the provider's fetch
method: the legacy function is not invoked.  With an Azure DevOps provider active,
`FetchPullRequestWithProvider` returns the zero record and the error
"FetchPullRequest not implemented for Azure DevOps" for every URL. -/
theorem provider_error_is_authoritative (legacy : data.Legacy) (provider : GitProviderIface)
    (query : String) (limit : Int) (pageInfo : Option PageInfo) (url : String) (e : GoError) :
    (provider.SupportsPullRequests = true →
      (provider.FetchPullRequests query limit pageInfo).2 = some e →
      data.FetchPullRequestsWithProvider legacy (some provider) query limit pageInfo =
        ((data.PullRequestsResponse.zero, some e),
          [.providerFetchPullRequests query limit pageInfo])) ∧
    (provider.SupportsIssues = true →
      (provider.FetchIssues query limit pageInfo).2 = some e →
      data.FetchIssuesWithProvider legacy (some provider) query limit pageInfo =
        ((data.IssuesResponse.zero, some e), [.providerFetchIssues query limit pageInfo])) ∧
    (provider.SupportsPullRequests = true →
      (provider.FetchPullRequest url).2 = some e →
      data.FetchPullRequestWithProvider legacy (some provider) url =
        ((data.PullRequestData.zero, some e), [.providerFetchPullRequest url])) ∧
    (∀ c ∈ [data.Call.providerFetchPullRequests query limit pageInfo,
        data.Call.providerFetchIssues query limit pageInfo,
        data.Call.providerFetchPullRequest url],
      c.isLegacy = false) ∧
    (∀ (s : Services) (a : AzureDevOpsProvider),
      data.FetchPullRequestWithProvider legacy (some ((GitProvider.azure a).iface s)) url =
        ((data.PullRequestData.zero,
          some (.new "FetchPullRequest not implemented for Azure DevOps")),
          [.providerFetchPullRequest url])) ∧
    (∀ (s : Services) (w : World) (pm : ProviderManager) (a : AzureDevOpsProvider)
        (cfg : Config) (repoPath : String),
      (InitializeProvider w pm cfg repoPath).1.current = some (.azure a) →
      data.FetchPullRequestWithProvider legacy
          (data.activeProvider s (data.InitProviders w (some pm) cfg repoPath).1) url =
        ((data.PullRequestData.zero,
          some (.new "FetchPullRequest not implemented for Azure DevOps")),
          [.providerFetchPullRequest url])) := by
  refine ⟨?_, ?_, ?_, ?_, fun _ _ => rfl, ?_⟩
  · intro hs he
    unfold data.FetchPullRequestsWithProvider
    simp only [hs, if_true]
    cases hr : provider.FetchPullRequests query limit pageInfo with
    | mk resp err =>
      rw [hr] at he
      cases he
      rfl
  · intro hs he
    unfold data.FetchIssuesWithProvider
    simp only [hs, if_true]
    cases hr : provider.FetchIssues query limit pageInfo with
    | mk resp err =>
      rw [hr] at he
      cases he
      rfl
  · intro hs he
    unfold data.FetchPullRequestWithProvider
    simp only [hs, if_true]
    cases hr : provider.FetchPullRequest url with
    | mk resp err =>
      rw [hr] at he
      cases he
      rfl
  · intro c hc
    simp only [List.mem_cons, List.mem_singleton, List.not_mem_nil, or_false] at hc
    rcases hc with rfl | rfl | rfl <;> rfl
  · intro s w pm a cfg repoPath hcur
    have : data.activeProvider s (data.InitProviders w (some pm) cfg repoPath).1 =
        some ((GitProvider.azure a).iface s) := by
      simp [data.activeProvider, data.GetCurrentProvider, ProviderManager.GetCurrentProvider,
        data.InitProviders, hcur]
    rw [this]
    rfl

/-- C14, instances: a capable provider whose fetch methods return the error `boom`
together with a non-zero answer; the wrappers return the zero value and `boom`. -/
theorem provider_error_is_authoritative_witness :
    data.FetchPullRequestsWithProvider legacyStub
        (some (stubProvider true true (some (.new "boom")) ([], none))) "is:open" 20 none =
      ((data.PullRequestsResponse.zero, some (.new "boom")),
        [.providerFetchPullRequests "is:open" 20 none]) ∧
    data.FetchIssuesWithProvider legacyStub
        (some (stubProvider true true (some (.new "boom")) ([], none))) "is:open" 20 none =
      ((data.IssuesResponse.zero, some (.new "boom")),
        [.providerFetchIssues "is:open" 20 none]) ∧
    data.FetchPullRequestWithProvider legacyStub
        (some (stubProvider true true (some (.new "boom")) ([], none))) "u" =
      ((data.PullRequestData.zero, some (.new "boom")), [.providerFetchPullRequest "u"]) :=
  ⟨(provider_error_is_authoritative legacyStub _ "is:open" 20 none "u" (.new "boom")).1
      rfl rfl,
    (provider_error_is_authoritative legacyStub _ "is:open" 20 none "u" (.new "boom")).2.1
      rfl rfl,
    (provider_error_is_authoritative legacyStub _ "is:open" 20 none "u" (.new "boom")).2.2.1
      rfl rfl⟩

/-! ## The command handlers -/

/-- C20, counterexample to the claim as stated: when the provider's `GetDiffCommand`
returns the error `boom`, the diff handler builds no subprocess but reports a different
error, `boom` wrapped with the text "failed to get diff command: "; and for an empty vector
with a nil error its message, "no diff command available for this provider", does not
contain "not available for this provider". -/
theorem diff_wraps_builder_error :
    diff uiContextExample (some (stubProvider true true none ([], some (.new "boom"))))
        (some prRowExample) =
      some { cmd := none, msg := .errMsg (.wrap "failed to get diff command: " (.new "boom")) } ∧
    GoError.wrap "failed to get diff command: " (.new "boom") ≠ GoError.new "boom" ∧
    (GoError.wrap "failed to get diff command: " (.new "boom")).Error =
      "failed to get diff command: boom" ∧
    (GoError.new "boom").Error = "boom" ∧
    diff uiContextExample (some (stubProvider true true none ([], none))) (some prRowExample) =
      some { cmd := none,
             msg := .errMsg (.new "no diff command available for this provider") } ∧
    Contains "no diff command available for this provider".data
      "not available for this provider".data = false := by
  decide

/-- C20 (amended).  For every active provider and selected pull request (in checkout:
whose repository has a configured local path), with `(args, err)` the answer of the
provider's command builder:
if `err` is non-nil, no subprocess is built, and checkout and watch-checks report `err`
itself while diff reports `err` wrapped with the text "failed to get diff command: ";
if `args` is empty and `err` is nil, no subprocess is built and the handler reports
"checkout command not available for this provider", "no diff command available for this
provider" or "watch checks command not available for this provider";
otherwise a subprocess is built with program `args[0]` and arguments `args[1:]`.  Hence a
subprocess is only ever built from a non-empty vector returned with a nil error. -/
theorem handlers_follow_command_builder (ctx : UIContext) (provider : GitProviderIface)
    (pr : PrRow) :
    (∀ repoPath, ctx.GetRepoLocalPath pr.RepoNameWithOwner = some repoPath →
      (∀ args e, provider.GetCheckoutCommand pr.Number pr.RepoNameWithOwner = (args, some e) →
        checkout ctx (some provider) (some pr) =
          .ok { cmd := none,
                msg := .taskFinished
                  { SectionId := 0, SectionType := "",
                    TaskId := "checkout_" ++ toString pr.Number, Err := some e, Msg := none } }) ∧
      (provider.GetCheckoutCommand pr.Number pr.RepoNameWithOwner = ([], none) →
        checkout ctx (some provider) (some pr) =
          .ok { cmd := none,
                msg := .taskFinished
                  { SectionId := 0, SectionType := "",
                    TaskId := "checkout_" ++ toString pr.Number,
                    Err := some (.new "checkout command not available for this provider"),
                    Msg := none } }) ∧
      (∀ name rest,
        provider.GetCheckoutCommand pr.Number pr.RepoNameWithOwner = (name :: rest, none) →
        ∃ ran, checkout ctx (some provider) (some pr) = .ok ran ∧
          ran.cmd.map (fun c => (c.Path, c.Args)) = some (name, name :: rest)) ∧
      (∀ ran c, checkout ctx (some provider) (some pr) = .ok ran → ran.cmd = some c →
        ∃ name rest,
          provider.GetCheckoutCommand pr.Number pr.RepoNameWithOwner = (name :: rest, none) ∧
          c.Path = name ∧ c.Args = name :: rest)) ∧
    ((∀ args e, provider.GetDiffCommand pr.Number pr.RepoNameWithOwner = (args, some e) →
        diff ctx (some provider) (some pr) =
          some { cmd := none, msg := .errMsg (.wrap "failed to get diff command: " e) }) ∧
      (provider.GetDiffCommand pr.Number pr.RepoNameWithOwner = ([], none) →
        diff ctx (some provider) (some pr) =
          some { cmd := none,
                 msg := .errMsg (.new "no diff command available for this provider") }) ∧
      (∀ name rest,
        provider.GetDiffCommand pr.Number pr.RepoNameWithOwner = (name :: rest, none) →
        ∃ ran, diff ctx (some provider) (some pr) = some ran ∧
          ran.cmd.map (fun c => (c.Path, c.Args)) = some (name, name :: rest)) ∧
      (∀ ran c, diff ctx (some provider) (some pr) = some ran → ran.cmd = some c →
        ∃ name rest,
          provider.GetDiffCommand pr.Number pr.RepoNameWithOwner = (name :: rest, none) ∧
          c.Path = name ∧ c.Args = name :: rest)) ∧
    ((∀ args e,
        provider.GetWatchChecksCommand pr.Number pr.RepoNameWithOwner = (args, some e) →
        watchChecks ctx (some provider) (some pr) =
          some { cmd := none,
                 msg := .taskFinished
                   { SectionId := ctx.SectionId, SectionType := ctx.SectionType,
                     TaskId := "pr_reopen_" ++ toString pr.Number, Err := some e,
                     Msg := some { PrNumber := pr.Number } } }) ∧
      (provider.GetWatchChecksCommand pr.Number pr.RepoNameWithOwner = ([], none) →
        watchChecks ctx (some provider) (some pr) =
          some { cmd := none,
                 msg := .taskFinished
                   { SectionId := ctx.SectionId, SectionType := ctx.SectionType,
                     TaskId := "pr_reopen_" ++ toString pr.Number,
                     Err := some (.new "watch checks command not available for this provider"),
                     Msg := some { PrNumber := pr.Number } } }) ∧
      (∀ name rest,
        provider.GetWatchChecksCommand pr.Number pr.RepoNameWithOwner = (name :: rest, none) →
        ∃ ran, watchChecks ctx (some provider) (some pr) = some ran ∧
          ran.cmd.map (fun c => (c.Path, c.Args)) = some (name, name :: rest)) ∧
      (∀ ran c, watchChecks ctx (some provider) (some pr) = some ran → ran.cmd = some c →
        ∃ name rest,
          provider.GetWatchChecksCommand pr.Number pr.RepoNameWithOwner =
            (name :: rest, none) ∧
          c.Path = name ∧ c.Args = name :: rest)) := by
  refine ⟨?_, ?_, ?_⟩
  · intro repoPath hpath
    refine ⟨?_, ?_, ?_, ?_⟩
    · intro args e hb
      simp only [checkout, hpath, hb]
    · intro hb
      simp only [checkout, hpath, hb]
    · intro name rest hb
      cases rest with
      | nil =>
        simp only [checkout, hpath, hb]
        exact ⟨_, rfl, rfl⟩
      | cons b rest =>
        simp only [checkout, hpath, hb]
        exact ⟨_, rfl, rfl⟩
    · intro ran c hr hc
      rcases hb : provider.GetCheckoutCommand pr.Number pr.RepoNameWithOwner with ⟨args, err⟩
      cases err with
      | some e =>
        simp only [checkout, hpath, hb, Except.ok.injEq] at hr
        subst hr
        cases hc
      | none =>
        cases args with
        | nil =>
          simp only [checkout, hpath, hb, Except.ok.injEq] at hr
          subst hr
          cases hc
        | cons name rest =>
          refine ⟨name, rest, rfl, ?_⟩
          cases rest with
          | nil =>
            simp only [checkout, hpath, hb, Except.ok.injEq] at hr
            subst hr
            cases hc
            exact ⟨rfl, rfl⟩
          | cons b rest =>
            simp only [checkout, hpath, hb, Except.ok.injEq] at hr
            subst hr
            cases hc
            exact ⟨rfl, rfl⟩
  · refine ⟨?_, ?_, ?_, ?_⟩
    · intro args e hb
      simp only [diff, hb]
    · intro hb
      simp only [diff, hb]
    · intro name rest hb
      cases rest with
      | nil =>
        simp only [diff, hb]
        refine ⟨_, rfl, ?_⟩
        simp only [exec.Command]
        split <;> rfl
      | cons b rest =>
        simp only [diff, hb]
        refine ⟨_, rfl, ?_⟩
        simp only [exec.Command]
        split <;> rfl
    · intro ran c hr hc
      rcases hb : provider.GetDiffCommand pr.Number pr.RepoNameWithOwner with ⟨args, err⟩
      cases err with
      | some e =>
        simp only [diff, hb, Option.some.injEq] at hr
        subst hr
        cases hc
      | none =>
        cases args with
        | nil =>
          simp only [diff, hb, Option.some.injEq] at hr
          subst hr
          cases hc
        | cons name rest =>
          refine ⟨name, rest, rfl, ?_⟩
          cases rest with
          | nil =>
            simp only [diff, hb, Option.some.injEq] at hr
            subst hr
            simp only [Option.some.injEq] at hc
            subst hc
            simp only [exec.Command]
            split <;> exact ⟨rfl, rfl⟩
          | cons b rest =>
            simp only [diff, hb, Option.some.injEq] at hr
            subst hr
            simp only [Option.some.injEq] at hc
            subst hc
            simp only [exec.Command]
            split <;> exact ⟨rfl, rfl⟩
  · refine ⟨?_, ?_, ?_, ?_⟩
    · intro args e hb
      simp only [watchChecks, hb]
    · intro hb
      simp only [watchChecks, hb]
    · intro name rest hb
      cases rest with
      | nil =>
        simp only [watchChecks, hb]
        exact ⟨_, rfl, rfl⟩
      | cons b rest =>
        simp only [watchChecks, hb]
        exact ⟨_, rfl, rfl⟩
    · intro ran c hr hc
      rcases hb : provider.GetWatchChecksCommand pr.Number pr.RepoNameWithOwner with ⟨args, err⟩
      cases err with
      | some e =>
        simp only [watchChecks, hb, Option.some.injEq] at hr
        subst hr
        cases hc
      | none =>
        cases args with
        | nil =>
          simp only [watchChecks, hb, Option.some.injEq] at hr
          subst hr
          cases hc
        | cons name rest =>
          refine ⟨name, rest, rfl, ?_⟩
          cases rest with
          | nil =>
            simp only [watchChecks, hb, Option.some.injEq] at hr
            subst hr
            cases hc
            exact ⟨rfl, rfl⟩
          | cons b rest =>
            simp only [watchChecks, hb, Option.some.injEq] at hr
            subst hr
            cases hc
            exact ⟨rfl, rfl⟩

/-- C20, instances of the amended statement: a provider whose builders fail with `boom`
(checkout reports `boom` itself), and one whose builders answer `az repos pr checkout --id
42` (the subprocess is `az` with these arguments, run in the repository directory). -/
theorem handlers_follow_command_builder_witness :
    checkout uiContextExample (some (stubProvider true true none ([], some (.new "boom"))))
        (some prRowExample) =
      .ok { cmd := none,
            msg := .taskFinished
              { SectionId := 0, SectionType := "", TaskId := "checkout_" ++ toString (42 : Int),
                Err := some (.new "boom"), Msg := none } } ∧
    ∃ ran, checkout uiContextExample
        (some (stubProvider true true none
          (["az", "repos", "pr", "checkout", "--id", "42"], none))) (some prRowExample) =
        .ok ran ∧
      ran.cmd.map (fun c => (c.Path, c.Args)) =
        some ("az", ["az", "repos", "pr", "checkout", "--id", "42"]) :=
  ⟨((handlers_follow_command_builder uiContextExample
      (stubProvider true true none ([], some (.new "boom"))) prRowExample).1
      "~/src/core" rfl).1 [] (.new "boom") rfl,
    ((handlers_follow_command_builder uiContextExample
      (stubProvider true true none (["az", "repos", "pr", "checkout", "--id", "42"], none))
      prRowExample).1 "~/src/core" rfl).2.2.1 "az" ["repos", "pr", "checkout", "--id", "42"]
      rfl⟩

/-! ## What a match says about the groups -/

theorem mem_run_group_plusLazy {i : Nat} {cls : CharClass} {s : List Char}
    {c : List (List Char)} {st : MState} (h : st ∈ (Regex.group i (.plusLazy cls)).run (s, c)) :
    ∃ a, a ≠ [] ∧ (∀ x ∈ a, cls.test x = true) ∧ s = a ++ st.1 ∧ st.2 = c.set i a := by
  rw [run_group, run_plusLazy, List.map_map] at h
  obtain ⟨r, hr, rfl⟩ := List.mem_map.1 h
  obtain ⟨a, ha, e, hp⟩ := lazyRests_mem hr
  refine ⟨a, ha, hp, e, ?_⟩
  simp [e]

theorem mem_run_opt_lit {l : List Char} {st0 st : MState}
    (h : st ∈ (Regex.opt (.lit l)).run st0) : st.1 <:+ st0.1 ∧ st.2 = st0.2 := by
  obtain ⟨s, c⟩ := st0
  simp only [Regex.run, List.mem_append, List.mem_singleton] at h
  rcases h with h | rfl
  · have h' : st ∈ (Regex.lit l).run (s, c) := by simpa [Regex.run] using h
    obtain ⟨e1, e2⟩ := mem_run_lit.1 h'
    exact ⟨⟨l, e1.symm⟩, e2⟩
  · exact ⟨List.suffix_refl _, rfl⟩

theorem mem_suffixTail {st0 st : MState} (h : st ∈ suffixTail.run st0) : st.2 = st0.2 := by
  unfold suffixTail at h
  obtain ⟨m1, hm1, h⟩ := mem_run_seq.1 h
  obtain ⟨m2, hm2, h⟩ := mem_run_seq.1 h
  obtain ⟨s2, c2⟩ := m2
  obtain ⟨_, e⟩ := mem_run_eot.1 h
  rw [e]
  show c2 = st0.2
  have e1 := (mem_run_opt_lit hm1).2
  have e2 := (mem_run_opt_lit hm2).2
  simp only at e2
  rw [e2, e1]

/-- The repository group of the common tail captures a non-empty prefix of the text. -/
theorem mem_repoTail {i : Nat} {s : List Char} {c : List (List Char)} {st : MState}
    (h : st ∈ (repoTail i).run (s, c)) : ∃ x, x ≠ [] ∧ x <+: s ∧ st.2 = c.set i x := by
  rw [repoTail_eq] at h
  obtain ⟨m, hm, h⟩ := mem_run_seq.1 h
  obtain ⟨a, ha, _, e1, e2⟩ := mem_run_group_plusLazy hm
  exact ⟨a, ha, ⟨m.1, e1.symm⟩, by rw [mem_suffixTail h, e2]⟩

theorem matchAt_some_mem {re : Regex} {t : List Char} {m : List (List Char)}
    (h : matchAt re t = some m) :
    ∃ st, st ∈ re.run (t, List.replicate (re.numSubexp + 1) []) ∧
      m = st.2.set 0 (t.take (t.length - st.1.length)) := by
  rw [matchAt_eq_head] at h
  cases hr : re.run (t, List.replicate (re.numSubexp + 1) []) with
  | nil => rw [hr] at h; simp at h
  | cons st l =>
    rw [hr] at h
    simp only [List.head?_cons, Option.map_some', Option.some.injEq] at h
    exact ⟨st, List.mem_cons_self _ _, h.symm⟩

/-- A match of the `dev.azure.com` pattern: the groups are non-empty, the first two
contain no `/`, and the match starts with `https://dev.azure.com/`. -/
theorem reDevAzure_sound {u : List Char} {m : List (List Char)}
    (h : FindStringSubmatch reDevAzure u = some m) :
    ∃ w org proj x rest, m = [w, org, proj, x] ∧ org ≠ [] ∧ '/' ∉ org ∧ proj ≠ [] ∧
      '/' ∉ proj ∧ x ≠ [] ∧ ("https://dev.azure.com/".data ++ rest) <:+ u := by
  obtain ⟨t, ht, hm⟩ := FindStringSubmatch_some_suffix h
  obtain ⟨st, hst, rfl⟩ := matchAt_some_mem hm
  have hn : reDevAzure.numSubexp = 3 := rfl
  rw [hn] at hst
  simp only [reDevAzure, Regex.concat] at hst
  rw [run_seq_assoc] at hst
  obtain ⟨t1, e1, hst⟩ := mem_run_seq_lit hst
  rw [run_seq_assoc] at hst
  obtain ⟨a, t2, ha, hpa, e2, hst⟩ := mem_run_seq_group_plus hst
  rw [run_seq_assoc] at hst
  obtain ⟨t3, e3, hst⟩ := mem_run_seq_lit hst
  rw [run_seq_assoc] at hst
  obtain ⟨b, t4, hb, hpb, e4, hst⟩ := mem_run_seq_group_plus hst
  obtain ⟨t5, e5, hst⟩ := mem_run_seq_lit hst
  obtain ⟨x, hx, _, e6⟩ := mem_repoTail hst
  refine ⟨t.take (t.length - st.1.length), a, b, x, t1, ?_, ha, notChar_not_mem hpa, hb, notChar_not_mem hpb, hx, ?_⟩
  · rw [e6]
    simp [List.replicate, List.set]
  · rw [← e1]; exact ht

/-- A match of the `visualstudio.com` pattern: the groups are non-empty, the first
contains no `.`, the second no `/`, and the match starts with `https://`, the first
group and `.visualstudio.com/`. -/
theorem reVisualStudio_sound {u : List Char} {m : List (List Char)}
    (h : FindStringSubmatch reVisualStudio u = some m) :
    ∃ w org proj x rest, m = [w, org, proj, x] ∧ org ≠ [] ∧ '.' ∉ org ∧ proj ≠ [] ∧
      '/' ∉ proj ∧ x ≠ [] ∧
      ("https://".data ++ (org ++ (".visualstudio.com/".data ++ rest))) <:+ u := by
  obtain ⟨t, ht, hm⟩ := FindStringSubmatch_some_suffix h
  obtain ⟨st, hst, rfl⟩ := matchAt_some_mem hm
  have hn : reVisualStudio.numSubexp = 3 := rfl
  rw [hn] at hst
  simp only [reVisualStudio, Regex.concat] at hst
  rw [run_seq_assoc] at hst
  obtain ⟨t1, e1, hst⟩ := mem_run_seq_lit hst
  rw [run_seq_assoc] at hst
  obtain ⟨a, t2, ha, hpa, e2, hst⟩ := mem_run_seq_group_plus hst
  rw [run_seq_assoc] at hst
  obtain ⟨t3, e3, hst⟩ := mem_run_seq_lit hst
  rw [run_seq_assoc] at hst
  obtain ⟨b, t4, hb, hpb, e4, hst⟩ := mem_run_seq_group_plus hst
  obtain ⟨t5, e5, hst⟩ := mem_run_seq_lit hst
  obtain ⟨x, hx, _, e6⟩ := mem_repoTail hst
  refine ⟨t.take (t.length - st.1.length), a, b, x, t3, ?_, ha, notChar_not_mem hpa, hb, notChar_not_mem hpb, hx, ?_⟩
  · rw [e6]
    simp [List.replicate, List.set]
  · rw [← e3, ← e2, ← e1]; exact ht

/-- A match of the on-premises pattern: the four groups are non-empty and the first
three contain no `/`. -/
theorem reTfs_sound {u : List Char} {m : List (List Char)}
    (h : FindStringSubmatch reTfs u = some m) :
    ∃ w server coll proj x, m = [w, server, coll, proj, x] ∧ server ≠ [] ∧ '/' ∉ server ∧
      coll ≠ [] ∧ '/' ∉ coll ∧ proj ≠ [] ∧ '/' ∉ proj ∧ x ≠ [] := by
  obtain ⟨t, ht, hm⟩ := FindStringSubmatch_some_suffix h
  obtain ⟨st, hst, rfl⟩ := matchAt_some_mem hm
  have hn : reTfs.numSubexp = 4 := rfl
  rw [hn] at hst
  simp only [reTfs, Regex.concat] at hst
  rw [run_seq_assoc] at hst
  obtain ⟨t1, e1, hst⟩ := mem_run_seq_lit hst
  rw [run_seq_assoc] at hst
  obtain ⟨s, t2, hs, hps, e2, hst⟩ := mem_run_seq_group_plus hst
  rw [run_seq_assoc] at hst
  obtain ⟨t3, e3, hst⟩ := mem_run_seq_lit hst
  rw [run_seq_assoc] at hst
  obtain ⟨a, t4, ha, hpa, e4, hst⟩ := mem_run_seq_group_plus hst
  rw [run_seq_assoc] at hst
  obtain ⟨t5, e5, hst⟩ := mem_run_seq_lit hst
  rw [run_seq_assoc] at hst
  obtain ⟨b, t6, hb, hpb, e6, hst⟩ := mem_run_seq_group_plus hst
  obtain ⟨t7, e7, hst⟩ := mem_run_seq_lit hst
  obtain ⟨x, hx, _, e8⟩ := mem_repoTail hst
  refine ⟨t.take (t.length - st.1.length), s, a, b, x, ?_, hs, notChar_not_mem hps, ha, notChar_not_mem hpa, hb,
    notChar_not_mem hpb, hx⟩
  rw [e8]
  simp [List.replicate, List.set]

/-- A match of the `github.com` pattern: both groups are non-empty and the first
contains no `/`. -/
theorem reGitHub_sound {u : List Char} {m : List (List Char)}
    (h : FindStringSubmatch reGitHub u = some m) :
    ∃ w owner x, m = [w, owner, x] ∧ owner ≠ [] ∧ '/' ∉ owner ∧ x ≠ [] := by
  obtain ⟨t, ht, hm⟩ := FindStringSubmatch_some_suffix h
  obtain ⟨st, hst, rfl⟩ := matchAt_some_mem hm
  have hn : reGitHub.numSubexp = 2 := rfl
  rw [hn] at hst
  simp only [reGitHub, Regex.concat] at hst
  rw [run_seq_assoc] at hst
  obtain ⟨t1, e1, hst⟩ := mem_run_seq_lit hst
  rw [run_seq_assoc] at hst
  obtain ⟨a, t2, ha, hpa, e2, hst⟩ := mem_run_seq_group_plus hst
  obtain ⟨t3, e3, hst⟩ := mem_run_seq_lit hst
  obtain ⟨x, hx, _, e6⟩ := mem_repoTail hst
  refine ⟨t.take (t.length - st.1.length), a, x, ?_, ha, notChar_not_mem hpa, hx⟩
  rw [e6]
  simp [List.replicate, List.set]

/-! ## Invariants of the parsed remote -/

theorem mk_ne_empty {l : List Char} (h : l ≠ []) : String.mk l ≠ "" :=
  fun e => h (congrArg String.data e)

theorem hasPrefix_https_append (t : String) :
    HasPrefix ("https://" ++ t).data "https://".data = true := by
  unfold HasPrefix
  rw [List.isPrefixOf_iff_prefix, String.data_append]
  exact List.prefix_append _ _

theorem parseAzureDevOpsURL_sound {url : List Char} {info : RemoteInfo}
    (h : parseAzureDevOpsURL url = some info) :
    info.Provider = AzureDevOps ∧ info.Organization ≠ "" ∧ info.Project ≠ "" ∧
      '/' ∉ info.Project.data ∧ info.Repository ≠ "" ∧
      HasPrefix info.BaseURL.data "https://".data = true ∧
      ('/' ∉ info.Organization.data ∨
        (FindStringSubmatch reDevAzure url = none ∧
          FindStringSubmatch reVisualStudio url ≠ none ∧ '.' ∉ info.Organization.data)) := by
  unfold parseAzureDevOpsURL at h
  cases hd : FindStringSubmatch reDevAzure url with
  | some m =>
    obtain ⟨w, org, proj, x, rest, rfl, ho, ho', hp, hp', hx, _⟩ := reDevAzure_sound hd
    rw [hd] at h
    simp only [Option.some.injEq] at h
    subst h
    exact ⟨rfl, mk_ne_empty ho, mk_ne_empty hp, hp', mk_ne_empty hx,
      hasPrefix_https_append "dev.azure.com", Or.inl ho'⟩
  | none =>
    rw [hd] at h
    simp only at h
    cases hv : FindStringSubmatch reVisualStudio url with
    | some m =>
      obtain ⟨w, org, proj, x, rest, rfl, ho, ho', hp, hp', hx, _⟩ := reVisualStudio_sound hv
      rw [hv] at h
      simp only [Option.some.injEq] at h
      subst h
      refine ⟨rfl, mk_ne_empty ho, mk_ne_empty hp, hp', mk_ne_empty hx, ?_,
        Or.inr ⟨rfl, by simp, ho'⟩⟩
      show HasPrefix ("https://" ++ String.mk org ++ ".visualstudio.com").data
        "https://".data = true
      rw [String.append_assoc]
      exact hasPrefix_https_append _
    | none =>
      rw [hv] at h
      simp only at h
      cases ht : FindStringSubmatch reTfs url with
      | some m =>
        obtain ⟨w, srv, coll, proj, x, rfl, _, _, ho, ho', hp, hp', hx⟩ := reTfs_sound ht
        rw [ht] at h
        simp only [Option.some.injEq] at h
        subst h
        exact ⟨rfl, mk_ne_empty ho, mk_ne_empty hp, hp', mk_ne_empty hx,
          hasPrefix_https_append _, Or.inl ho'⟩
      | none =>
        rw [ht] at h
        simp at h

theorem parseGitHubURL_sound (url : List Char) :
    (parseGitHubURL url).Provider = GitHub ∧ (parseGitHubURL url).Organization ≠ "" ∧
      (parseGitHubURL url).Project = "" ∧ (parseGitHubURL url).Repository ≠ "" ∧
      (parseGitHubURL url).BaseURL = "https://github.com" := by
  unfold parseGitHubURL
  cases hg : FindStringSubmatch reGitHub url with
  | some m =>
    obtain ⟨w, owner, x, rfl, ho, _, hx⟩ := reGitHub_sound hg
    exact ⟨rfl, mk_ne_empty ho, rfl, mk_ne_empty hx, rfl⟩
  | none => decide

/-- C21.  For every input string `ParseGitRemoteURL` returns a nil error and a remote
whose provider is GitHub or Azure DevOps and whose organization and repository are
non-empty.  If the provider is GitHub, the project is empty and the base URL is
`https://github.com`.  If the provider is Azure DevOps, the project is non-empty and
contains no `/`, the base URL begins with `https://`, and the organization contains no
`/` when the `dev.azure.com` or the `/tfs/` grammar applied; when the `visualstudio.com`
grammar applied it contains no `.`, and may contain a `/`, as in
`https://a/b.visualstudio.com/p/_git/r`. -/
theorem remote_info_invariants (s : String) :
    (∃ info, ParseGitRemoteURL s = (some info, none) ∧
      info.Organization ≠ "" ∧ info.Repository ≠ "" ∧
      (info.Provider = GitHub ∨ info.Provider = AzureDevOps) ∧
      (info.Provider = GitHub → info.Project = "" ∧ info.BaseURL = "https://github.com") ∧
      (info.Provider = AzureDevOps →
        info.Project ≠ "" ∧ '/' ∉ info.Project.data ∧
        HasPrefix info.BaseURL.data "https://".data = true ∧
        ('/' ∉ info.Organization.data ∨
          (FindStringSubmatch reDevAzure (cleanRemoteURL s) = none ∧
            FindStringSubmatch reVisualStudio (cleanRemoteURL s) ≠ none ∧
            '.' ∉ info.Organization.data)))) ∧
    ParseGitRemoteURL "https://a/b.visualstudio.com/p/_git/r" =
      (some { Provider := AzureDevOps, Organization := "a/b", Project := "p",
              Repository := "r", BaseURL := "https://a/b.visualstudio.com" }, none) := by
  refine ⟨?_, by decide⟩
  have hne : GitHub ≠ AzureDevOps := by decide
  cases hp : parseAzureDevOpsURL (cleanRemoteURL s) with
  | some info =>
    obtain ⟨h1, h2, h3, h4, h5, h6, h7⟩ := parseAzureDevOpsURL_sound hp
    refine ⟨info, ParseGitRemoteURL_of_azure s _ info rfl hp, h2, h5, Or.inr h1, ?_,
      fun _ => ⟨h3, h4, h6, h7⟩⟩
    intro hg
    rw [h1] at hg
    exact absurd hg.symm hne
  | none =>
    obtain ⟨h1, h2, h3, h4, h5⟩ := parseGitHubURL_sound (cleanRemoteURL s)
    refine ⟨_, ParseGitRemoteURL_of_not_azure s _ rfl hp, h2, h4, Or.inl h1,
      fun _ => ⟨h3, h5⟩, ?_⟩
    intro ha
    rw [h1] at ha
    exact absurd ha hne

/-! ## Substrings -/

theorem findIndex_nonneg_of_occurs {s sub : List Char} (h : sub <:+: s) :
    findIndex s sub ≥ 0 := by
  obtain ⟨a, b, rfl⟩ := h
  unfold findIndex
  cases hf : (List.range ((a ++ sub ++ b).length + 1 - sub.length)).find?
      (fun i => decide (((a ++ sub ++ b).drop i).take sub.length = sub)) with
  | some i => exact Int.ofNat_nonneg i
  | none =>
    exfalso
    rw [List.find?_eq_none] at hf
    have hmem : a.length ∈ List.range ((a ++ sub ++ b).length + 1 - sub.length) := by
      rw [List.mem_range]
      simp only [List.length_append]
      omega
    have := hf a.length hmem
    simp [List.append_assoc, List.drop_left, List.take_left] at this

theorem contains_of_occurs {s sub : List Char} (h : sub <:+: s) : contains s sub = true := by
  have hlen : sub.length ≤ s.length := h.length_le
  have hi := findIndex_nonneg_of_occurs h
  simp [contains, hlen, hi]

theorem Contains_occurs {s sub : List Char} (h : Contains s sub = true) : sub <:+: s := by
  induction s with
  | nil =>
    have : sub = [] := by simpa [Contains] using h
    rw [this]
  | cons x s ih =>
    simp only [Contains, Bool.or_eq_true] at h
    rcases h with h | h
    · exact (List.isPrefixOf_iff_prefix.1 h).isInfix
    · exact (ih h).trans (List.suffix_cons x s).isInfix

theorem TrimSpace_occurs (l : List Char) : TrimSpace l <:+: l := by
  unfold TrimSpace
  have h1 : (l.dropWhile isSpace).reverse.dropWhile isSpace <:+ (l.dropWhile isSpace).reverse :=
    List.dropWhile_suffix _
  have h2 : ((l.dropWhile isSpace).reverse.dropWhile isSpace).reverse <+: l.dropWhile isSpace := by
    have := List.reverse_prefix.2 h1
    simpa using this
  exact h2.isInfix.trans (List.dropWhile_suffix _).isInfix

theorem prefix_of_prefix_append_sep {k : Char} {X : List Char} (hk : k ∉ X) :
    ∀ A W : List Char, X <+: A ++ k :: W → X <+: A := by
  induction X with
  | nil => intro A W _; exact List.nil_prefix
  | cons x X ih =>
    intro A W h
    cases A with
    | nil =>
      rw [List.nil_append, List.cons_prefix_cons] at h
      exact absurd (h.1 ▸ List.mem_cons_self x X) hk
    | cons a A =>
      rw [List.cons_append, List.cons_prefix_cons] at h
      rw [List.cons_prefix_cons]
      exact ⟨h.1, ih (fun hm => hk (List.mem_cons_of_mem _ hm)) A W h.2⟩

/-- A text without the separator `k` that occurs in `A ++ k :: W` occurs in `A` or
in `W`. -/
theorem occurs_of_append_sep {k : Char} {X : List Char} (hk : k ∉ X) :
    ∀ A W : List Char, X <:+: A ++ k :: W → X <:+: A ∨ X <:+: W := by
  intro A
  induction A with
  | nil =>
    intro W h
    rw [List.nil_append, List.infix_cons_iff] at h
    rcases h with h | h
    · exact Or.inl (prefix_of_prefix_append_sep hk [] W h).isInfix
    · exact Or.inr h
  | cons a A ih =>
    intro W h
    rw [List.cons_append, List.infix_cons_iff] at h
    rcases h with h | h
    · exact Or.inl (prefix_of_prefix_append_sep hk (a :: A) W h).isInfix
    · rcases ih W h with h' | h'
      · exact Or.inl (h'.trans (List.suffix_cons a A).isInfix)
      · exact Or.inr h'

theorem mem_of_occurs {X s : List Char} {z : Char} (hz : z ∈ X) (h : X <:+: s) : z ∈ s :=
  h.sublist.subset hz

/-! ## The SSH rewriting and substrings -/

/-- A match of the GitHub SSH pattern: the two groups, joined by `/` and followed by
`.git`, occur in the text. -/
theorem reSSHGitHub_sound {u : List Char} {m : List (List Char)}
    (h : FindStringSubmatch reSSHGitHub u = some m) :
    ∃ w m1 m2, m = [w, m1, m2] ∧ (m1 ++ ('/' :: (m2 ++ ".git".data))) <:+: u := by
  obtain ⟨t, ht, hm⟩ := FindStringSubmatch_some_suffix h
  obtain ⟨st, hst, rfl⟩ := matchAt_some_mem hm
  have hn : reSSHGitHub.numSubexp = 2 := rfl
  rw [hn] at hst
  simp only [reSSHGitHub, Regex.concat] at hst
  obtain ⟨t1, e1, hst⟩ := mem_run_seq_lit hst
  obtain ⟨a, t2, _, _, e2, hst⟩ := mem_run_seq_group_plus hst
  obtain ⟨t3, e3, hst⟩ := mem_run_seq_lit hst
  obtain ⟨b, t4, _, _, e4, hst⟩ := mem_run_seq_group_plus hst
  obtain ⟨e5, e6⟩ := mem_run_lit.1 hst
  refine ⟨t.take (t.length - st.1.length), a, b, ?_, ?_⟩
  · rw [e6]
    simp [List.replicate, List.set]
  · have hinf : (a ++ ('/' :: (b ++ ".git".data))) <:+: t := by
      refine ⟨"git@github.com:".data, st.1, ?_⟩
      rw [e1, e2, e3, e4, e5]
      simp
    exact hinf.trans ht.isInfix

theorem convertSSHToHTTPS_cases (url : List Char) :
    (∃ m1 m2, (m1 ++ ('/' :: (m2 ++ ".git".data))) <:+: url ∧
      convertSSHToHTTPS url =
        "https://github.com".data ++ '/' :: (m1 ++ ('/' :: (m2 ++ ".git".data)))) ∨
    "dev.azure.com".data <:+: url ∨ convertSSHToHTTPS url = url := by
  by_cases hc : Contains url "github.com".data = true
  · cases hg : FindStringSubmatch reSSHGitHub url with
    | some m =>
      obtain ⟨w, m1, m2, rfl, hinf⟩ := reSSHGitHub_sound hg
      refine Or.inl ⟨m1, m2, hinf, ?_⟩
      unfold convertSSHToHTTPS
      simp only [hc, hg, if_true]
      simp
    | none =>
      by_cases ha : (Contains url "dev.azure.com".data ||
          Contains url "ssh.dev.azure.com".data) = true
      · refine Or.inr (Or.inl ?_)
        rw [Bool.or_eq_true] at ha
        rcases ha with ha | ha
        · exact Contains_occurs ha
        · exact (show "dev.azure.com".data <:+: "ssh.dev.azure.com".data from
            ⟨"ssh.".data, [], rfl⟩).trans (Contains_occurs ha)
      · refine Or.inr (Or.inr ?_)
        unfold convertSSHToHTTPS
        simp only [hc, hg, ha, if_true]
        simp
  · by_cases ha : (Contains url "dev.azure.com".data ||
        Contains url "ssh.dev.azure.com".data) = true
    · refine Or.inr (Or.inl ?_)
      rw [Bool.or_eq_true] at ha
      rcases ha with ha | ha
      · exact Contains_occurs ha
      · exact (show "dev.azure.com".data <:+: "ssh.dev.azure.com".data from
          ⟨"ssh.".data, [], rfl⟩).trans (Contains_occurs ha)
    · refine Or.inr (Or.inr ?_)
      unfold convertSSHToHTTPS
      simp only [hc, ha, if_false]
      simp

/-- A text without `/` that has a character foreign to `https://github.com` and occurs
in the cleaned URL occurs in the URL as given, unless that URL contains
`dev.azure.com`. -/
theorem occurs_cleanRemoteURL {X : List Char} (s : String) (hk : '/' ∉ X) (z : Char)
    (hz : z ∈ X) (hz' : z ∉ "https://github.com".data) (h : X <:+: cleanRemoteURL s) :
    X <:+: s.data ∨ "dev.azure.com".data <:+: s.data := by
  unfold cleanRemoteURL at h
  have htrim := TrimSpace_occurs s.data
  by_cases hp : HasPrefix (TrimSpace s.data) "git@".data = true
  · simp only [hp, if_true] at h
    rcases convertSSHToHTTPS_cases (TrimSpace s.data) with ⟨m1, m2, hinf, e⟩ | hd | e
    · rw [e] at h
      rcases occurs_of_append_sep hk _ _ h with h' | h'
      · exact absurd (mem_of_occurs hz h') hz'
      · exact Or.inl ((h'.trans hinf).trans htrim)
    · exact Or.inr (hd.trans htrim)
    · rw [e] at h
      exact Or.inl (h.trans htrim)
  · simp only [hp] at h
    exact Or.inl (h.trans htrim)

theorem isAzureDevOpsURL_of_cloud_match (s : String)
    (h : FindStringSubmatch reDevAzure (cleanRemoteURL s) ≠ none ∨
      FindStringSubmatch reVisualStudio (cleanRemoteURL s) ≠ none) :
    isAzureDevOpsURL s = true := by
  have key : "dev.azure.com".data <:+: s.data ∨ "visualstudio.com".data <:+: s.data := by
    rcases h with h | h
    · cases hd : FindStringSubmatch reDevAzure (cleanRemoteURL s) with
      | none => exact absurd hd h
      | some m =>
        obtain ⟨w, org, proj, x, rest, _, _, _, _, _, _, hsuf⟩ := reDevAzure_sound hd
        have hinf : "dev.azure.com".data <:+: cleanRemoteURL s :=
          (show "dev.azure.com".data <:+: "https://dev.azure.com/".data ++ rest from
            ⟨"https://".data, '/' :: rest, by simp⟩).trans hsuf.isInfix
        rcases occurs_cleanRemoteURL s (by decide) 'z' (by decide) (by decide) hinf with h' | h'
        · exact Or.inl h'
        · exact Or.inl h'
    · cases hv : FindStringSubmatch reVisualStudio (cleanRemoteURL s) with
      | none => exact absurd hv h
      | some m =>
        obtain ⟨w, org, proj, x, rest, _, _, _, _, _, _, hsuf⟩ := reVisualStudio_sound hv
        have hinf : "visualstudio.com".data <:+: cleanRemoteURL s :=
          (show "visualstudio.com".data <:+:
              "https://".data ++ (org ++ (".visualstudio.com/".data ++ rest)) from
            ⟨"https://".data ++ (org ++ ['.']), '/' :: rest, by simp⟩).trans hsuf.isInfix
        rcases occurs_cleanRemoteURL s (by decide) 'v' (by decide) (by decide) hinf with h' | h'
        · exact Or.inr h'
        · exact Or.inl h'
  unfold isAzureDevOpsURL
  rcases key with h' | h'
  · simp [contains_of_occurs h']
  · simp [contains_of_occurs h']

/-- C22, the two detectors disagree.  The on-premises URL
`https://tfs.example.com/tfs/DefaultCollection/widgets/_git/core` is classified as Azure
DevOps by `ParseGitRemoteURL` and as GitHub by `DetectProviderFromURL`, which looks for the
substring `.tfs.` where the parser looks for the path segment `/tfs/`.  The disagreement
is confined to that grammar: whenever the `dev.azure.com` or the `visualstudio.com`
pattern matches the cleaned URL, `DetectProviderFromURL` returns Azure DevOps; so a URL
that the parser classifies as Azure DevOps and `DetectProviderFromURL` as GitHub matched
the on-premises pattern only. -/
theorem detectors_disagree_on_tfs :
    DetectProviderFromURL "https://tfs.example.com/tfs/DefaultCollection/widgets/_git/core" =
      GitHub ∧
    ParseGitRemoteURL "https://tfs.example.com/tfs/DefaultCollection/widgets/_git/core" =
      (some { Provider := AzureDevOps, Organization := "DefaultCollection",
              Project := "widgets", Repository := "core",
              BaseURL := "https://tfs.example.com" }, none) ∧
    (∀ s : String,
      FindStringSubmatch reDevAzure (cleanRemoteURL s) ≠ none ∨
        FindStringSubmatch reVisualStudio (cleanRemoteURL s) ≠ none →
      DetectProviderFromURL s = AzureDevOps) ∧
    (∀ (s : String) (info : RemoteInfo), (ParseGitRemoteURL s).1 = some info →
      info.Provider = AzureDevOps → DetectProviderFromURL s = GitHub →
      FindStringSubmatch reDevAzure (cleanRemoteURL s) = none ∧
        FindStringSubmatch reVisualStudio (cleanRemoteURL s) = none ∧
        FindStringSubmatch reTfs (cleanRemoteURL s) ≠ none) := by
  have hne : GitHub ≠ AzureDevOps := by decide
  have cloud : ∀ s : String,
      FindStringSubmatch reDevAzure (cleanRemoteURL s) ≠ none ∨
        FindStringSubmatch reVisualStudio (cleanRemoteURL s) ≠ none →
      DetectProviderFromURL s = AzureDevOps := by
    intro s h
    unfold DetectProviderFromURL
    rw [isAzureDevOpsURL_of_cloud_match s h]
    rfl
  refine ⟨by decide, by decide, cloud, ?_⟩
  intro s info hparse hprov hdet
  have hd : FindStringSubmatch reDevAzure (cleanRemoteURL s) = none := by
    by_contra hc
    exact hne (hdet.symm.trans (cloud s (Or.inl hc)))
  have hv : FindStringSubmatch reVisualStudio (cleanRemoteURL s) = none := by
    by_contra hc
    exact hne (hdet.symm.trans (cloud s (Or.inr hc)))
  refine ⟨hd, hv, ?_⟩
  intro ht
  have hnone : parseAzureDevOpsURL (cleanRemoteURL s) = none :=
    (parseAzureDevOpsURL_eq_none_iff _).2 ⟨hd, hv, ht⟩
  rw [ParseGitRemoteURL_of_not_azure s _ rfl hnone] at hparse
  simp only [Option.some.injEq] at hparse
  rw [← hparse, parseGitHubURL_provider] at hprov
  exact hne hprov

/-! ## The conversion of the compatibility shim -/

/-- C23.  For every provider pull-request record, `convertProviderPRToData` copies the
scalar fields unchanged (number, title, body, author, author association, both times,
URL, state, mergeable, review decision, additions, deletions, both ref names, head
repository, head ref, the three fields of the repository, draft flag and merge state
status) and returns empty assignees, comments, reviews, review threads, review requests,
files, commits and labels, whatever the input held.  Hence, when the active provider
declares the capability and its `FetchPullRequests` returns `response` with a nil error,
`FetchPullRequestsWithProvider` returns a nil error and the converted records in the same
number and order (element `i` is the conversion of the provider's element `i`), every one
with empty nested collections, together with the provider's total count and page info. -/
theorem convert_provider_pr_frame (pr : PullRequestData) (legacy : data.Legacy)
    (provider : GitProviderIface) (query : String) (limit : Int) (pageInfo : Option PageInfo)
    (response : PullRequestsResponse) :
    ((data.convertProviderPRToData pr).Number = pr.Number ∧
      (data.convertProviderPRToData pr).Title = pr.Title ∧
      (data.convertProviderPRToData pr).Body = pr.Body ∧
      (data.convertProviderPRToData pr).AuthorLogin = pr.AuthorLogin ∧
      (data.convertProviderPRToData pr).AuthorAssociation = pr.AuthorAssociation ∧
      (data.convertProviderPRToData pr).UpdatedAt = pr.UpdatedAt ∧
      (data.convertProviderPRToData pr).CreatedAt = pr.CreatedAt ∧
      (data.convertProviderPRToData pr).Url = pr.Url ∧
      (data.convertProviderPRToData pr).State = pr.State ∧
      (data.convertProviderPRToData pr).Mergeable = pr.Mergeable ∧
      (data.convertProviderPRToData pr).ReviewDecision = pr.ReviewDecision ∧
      (data.convertProviderPRToData pr).Additions = pr.Additions ∧
      (data.convertProviderPRToData pr).Deletions = pr.Deletions ∧
      (data.convertProviderPRToData pr).HeadRefName = pr.HeadRefName ∧
      (data.convertProviderPRToData pr).BaseRefName = pr.BaseRefName ∧
      (data.convertProviderPRToData pr).HeadRepositoryName = pr.HeadRepositoryName ∧
      (data.convertProviderPRToData pr).HeadRefNameOfRef = pr.HeadRefNameOfRef ∧
      (data.convertProviderPRToData pr).Repository.Name = pr.Repository.Name ∧
      (data.convertProviderPRToData pr).Repository.NameWithOwner =
        pr.Repository.NameWithOwner ∧
      (data.convertProviderPRToData pr).Repository.IsArchived = pr.Repository.IsArchived ∧
      (data.convertProviderPRToData pr).IsDraft = pr.IsDraft ∧
      (data.convertProviderPRToData pr).MergeStateStatus = pr.MergeStateStatus) ∧
    ((data.convertProviderPRToData pr).Assignees = PullRequestData.zero.Assignees ∧
      (data.convertProviderPRToData pr).Comments = PullRequestData.zero.Comments ∧
      (data.convertProviderPRToData pr).Reviews = PullRequestData.zero.Reviews ∧
      (data.convertProviderPRToData pr).ReviewThreads = PullRequestData.zero.ReviewThreads ∧
      (data.convertProviderPRToData pr).ReviewRequests = PullRequestData.zero.ReviewRequests ∧
      (data.convertProviderPRToData pr).Files = PullRequestData.zero.Files ∧
      (data.convertProviderPRToData pr).Commits = PullRequestData.zero.Commits ∧
      (data.convertProviderPRToData pr).Labels = PullRequestData.zero.Labels ∧
      (data.convertProviderPRToData pr).Assignees.Nodes = [] ∧
      (data.convertProviderPRToData pr).Comments.Nodes = [] ∧
      (data.convertProviderPRToData pr).Reviews.Nodes = [] ∧
      (data.convertProviderPRToData pr).ReviewThreads.Nodes = [] ∧
      (data.convertProviderPRToData pr).ReviewRequests.Nodes = [] ∧
      (data.convertProviderPRToData pr).Files.Nodes = [] ∧
      (data.convertProviderPRToData pr).Commits.Nodes = [] ∧
      (data.convertProviderPRToData pr).Labels.Nodes = []) ∧
    (provider.SupportsPullRequests = true →
      provider.FetchPullRequests query limit pageInfo = (response, none) →
      (data.FetchPullRequestsWithProvider legacy (some provider) query limit pageInfo).1.2 =
        none ∧
      (data.FetchPullRequestsWithProvider legacy (some provider) query limit pageInfo).1.1.Prs =
        response.Prs.map data.convertProviderPRToData ∧
      (data.FetchPullRequestsWithProvider legacy (some provider) query limit
        pageInfo).1.1.Prs.length = response.Prs.length ∧
      (∀ i : Nat,
        (data.FetchPullRequestsWithProvider legacy (some provider) query limit
          pageInfo).1.1.Prs[i]? = (response.Prs[i]?).map data.convertProviderPRToData) ∧
      (∀ d ∈ (data.FetchPullRequestsWithProvider legacy (some provider) query limit
          pageInfo).1.1.Prs,
        d.Assignees.Nodes = [] ∧ d.Comments.Nodes = [] ∧ d.Reviews.Nodes = [] ∧
        d.ReviewThreads.Nodes = [] ∧ d.ReviewRequests.Nodes = [] ∧ d.Files.Nodes = [] ∧
        d.Commits.Nodes = [] ∧ d.Labels.Nodes = []) ∧
      (data.FetchPullRequestsWithProvider legacy (some provider) query limit
        pageInfo).1.1.TotalCount = response.TotalCount ∧
      (data.FetchPullRequestsWithProvider legacy (some provider) query limit
        pageInfo).1.1.PageInfo = response.PageInfo) := by
  refine ⟨⟨rfl, rfl, rfl, rfl, rfl, rfl, rfl, rfl, rfl, rfl, rfl, rfl, rfl, rfl, rfl, rfl, rfl,
    rfl, rfl, rfl, rfl, rfl⟩,
    ⟨rfl, rfl, rfl, rfl, rfl, rfl, rfl, rfl, rfl, rfl, rfl, rfl, rfl, rfl, rfl, rfl⟩, ?_⟩
  intro hs hf
  have hw : (data.FetchPullRequestsWithProvider legacy (some provider) query limit pageInfo).1 =
      ({ Prs := response.Prs.map data.convertProviderPRToData
         TotalCount := response.TotalCount
         PageInfo := response.PageInfo }, none) := by
    simp only [data.FetchPullRequestsWithProvider, hs, hf, if_true]
  rw [hw]
  refine ⟨rfl, rfl, List.length_map _ _, fun i => ?_, ?_, rfl, rfl⟩
  · simp [List.getElem?_map]
  · intro d hd
    obtain ⟨p, _, rfl⟩ := List.mem_map.1 hd
    exact ⟨rfl, rfl, rfl, rfl, rfl, rfl, rfl, rfl⟩

/-- C23, instance: a provider answering two records, the first with every nested
collection filled; the wrapper returns two records, numbers 42 and 0 in this order, both
with empty nested collections. -/
theorem convert_provider_pr_frame_witness :
    (data.FetchPullRequestsWithProvider legacyStub
      (some (providerAnswering
        { Prs := [pullRequestWithNestedData, PullRequestData.zero], TotalCount := 2,
          PageInfo := PageInfo.zero })) "is:open" 20 none).1.1.Prs =
      [pullRequestWithNestedData, PullRequestData.zero].map data.convertProviderPRToData ∧
    ([pullRequestWithNestedData, PullRequestData.zero].map data.convertProviderPRToData).map
        (fun d => (d.Number, d.Assignees.Nodes.length, d.Labels.Nodes.length)) =
      [(42, 0, 0), (0, 0, 0)] ∧
    pullRequestWithNestedData.Assignees.Nodes ≠ [] ∧
    pullRequestWithNestedData.Labels.Nodes ≠ [] :=
  ⟨((convert_provider_pr_frame pullRequestWithNestedData legacyStub _ "is:open" 20 none
      { Prs := [pullRequestWithNestedData, PullRequestData.zero], TotalCount := 2,
        PageInfo := PageInfo.zero }).2.2 rfl rfl).2.1,
    by decide, by decide, by decide⟩

end GhDash
